import Mathlib

/-!
RAD-Doom: frame encoder, incremental blitter and input handling.

A shallow embedding of routines of the repository and the properties
established about them.

* `doImageConversion` (`Source/Doom/doomgeneric_rad.c`): the per-block part that
  follows the pixel quantiser, i.e. histogram, reduction to four colours,
  register assignment and bitmap packing (Part 1), and the frame loop around it
  with the choice of the background colour (Part 4).
* `blitScreenDOOM` (`Source/rad_doom_hijack.cpp`): the span builder, the span
  transfer loop and the update of the previous-frame buffer (Part 2).
* `addKeyToQueue`, `DG_GetKey`, `handleMouseUpdate`, `DG_MouseData`
  (`Source/Doom/doomgeneric_rad.c`) and the event generation of `readKeyDoom`
  (`Source/rad_doom_hijack.cpp`) (Part 3).
* The raster wait of `blitScreenDOOM`, the palette `c64PalettePepto` with
  `colorDistance`, and the generation of the ordered dither matrix in
  `doImageConversion` (Part 5).

Conventions.  The small C arrays (`histo`, `map`, `blockColors`,
`mapC64Closest`, `s_KeyQueue`, the mouse arrays) are lists, read with
`List.getD _ _ 0` and written with `List.set`; `uint8_t` arithmetic is reduced
modulo 256 where the source stores into a byte.  The large buffers
(`koalaData`, `prevScreenBuffer`, the memory of the remote machine) are
functions from index to byte.  Loops carry an explicit iteration budget which
is fixed at the call site to a bound on the number of iterations the C loop can
make.  Constants of headers that are not among the sources are parameters.
-/

namespace RadDoom

/-! ## Part 1: `doImageConversion`, one 8x8 block -/

/-- The table `mapC64Closest[ 16 * 16 ]`: row `i` ranks the other colours by
closeness to colour `i` and ends with the marker `0xFF`. -/
def mapC64Closest : List Nat := [
  0x09, 0x06, 0x0B, 0x02, 0x04, 0x08, 0x0C, 0x0E, 0x0A, 0x05, 0x0F, 0x03, 0x07, 0x0D, 0x01, 0xFF,
  0x0D, 0x07, 0x03, 0x0F, 0x05, 0x0A, 0x0C, 0x0E, 0x08, 0x04, 0x0B, 0x02, 0x09, 0x06, 0x00, 0xFF,
  0x08, 0x09, 0x0B, 0x04, 0x0C, 0x0A, 0x06, 0x0E, 0x05, 0x00, 0x0F, 0x03, 0x07, 0x0D, 0x01, 0xFF,
  0x0F, 0x05, 0x0C, 0x0D, 0x07, 0x0A, 0x0E, 0x04, 0x08, 0x0B, 0x01, 0x02, 0x09, 0x06, 0x00, 0xFF,
  0x0E, 0x06, 0x0B, 0x0C, 0x02, 0x08, 0x09, 0x0A, 0x0F, 0x05, 0x03, 0x00, 0x07, 0x0D, 0x01, 0xFF,
  0x0C, 0x0F, 0x0A, 0x03, 0x08, 0x07, 0x0D, 0x0B, 0x02, 0x0E, 0x09, 0x04, 0x06, 0x01, 0x00, 0xFF,
  0x04, 0x0B, 0x09, 0x02, 0x0E, 0x08, 0x00, 0x0C, 0x0A, 0x05, 0x0F, 0x03, 0x07, 0x0D, 0x01, 0xFF,
  0x0D, 0x0F, 0x03, 0x05, 0x01, 0x0A, 0x0C, 0x08, 0x0E, 0x04, 0x02, 0x0B, 0x09, 0x06, 0x00, 0xFF,
  0x02, 0x0B, 0x09, 0x0A, 0x0C, 0x04, 0x05, 0x06, 0x0E, 0x0F, 0x03, 0x00, 0x07, 0x0D, 0x01, 0xFF,
  0x0B, 0x02, 0x08, 0x06, 0x04, 0x0C, 0x00, 0x0A, 0x05, 0x0E, 0x0F, 0x03, 0x07, 0x0D, 0x01, 0xFF,
  0x0C, 0x08, 0x0F, 0x05, 0x02, 0x04, 0x0B, 0x03, 0x0E, 0x09, 0x07, 0x06, 0x0D, 0x00, 0x01, 0xFF,
  0x09, 0x02, 0x08, 0x04, 0x06, 0x0C, 0x0A, 0x0E, 0x05, 0x00, 0x0F, 0x03, 0x07, 0x0D, 0x01, 0xFF,
  0x0A, 0x08, 0x05, 0x0F, 0x0B, 0x04, 0x0E, 0x02, 0x03, 0x09, 0x06, 0x07, 0x0D, 0x00, 0x01, 0xFF,
  0x07, 0x03, 0x0F, 0x05, 0x01, 0x0A, 0x0C, 0x08, 0x0E, 0x04, 0x0B, 0x02, 0x09, 0x06, 0x00, 0xFF,
  0x04, 0x0C, 0x06, 0x0A, 0x0B, 0x0F, 0x03, 0x08, 0x02, 0x05, 0x09, 0x07, 0x0D, 0x00, 0x01, 0xFF,
  0x03, 0x05, 0x0C, 0x0A, 0x07, 0x0D, 0x0E, 0x08, 0x04, 0x0B, 0x02, 0x09, 0x01, 0x06, 0x00, 0xFF ]

/-- The fragment `histo[ c64color ] ++` executed for the 32 pixels of a block,
in the order `blockColors[0], ..., blockColors[31]`, starting from the
zero-filled `uint8_t histo[ 16 ]`. -/
def buildHisto (blockColors : List Nat) : List Nat :=
  blockColors.foldl (fun h c => h.set c ((h.getD c 0 + 1) % 256)) (List.replicate 16 0)

/-- The counting loop `for i in 0..15: if ( histo[ i ] ) nColors ++`. -/
def countColors (histo : List Nat) : Nat :=
  (List.range 16).countP (fun i => histo.getD i 0 != 0)

/-- The search for the least frequent colour: starting from `minV = 256`,
`minIdx = 255`, every `i` with `histo[ i ] && histo[ i ] < minV` replaces the
pair.  The result is `(minV, minIdx)`. -/
def findMin (histo : List Nat) : Nat × Nat :=
  (List.range 16).foldl
    (fun mv i => if histo.getD i 0 ≠ 0 ∧ histo.getD i 0 < mv.1 then (histo.getD i 0, i) else mv)
    (256, 255)

/-- The loop `while ( i < 15 && histo[ mapColors[ i ] ] == 0 ) i ++` with
`mapColors = &mapC64Closest[ minIdx * 16 ]`; the first argument bounds the
number of iterations. -/
def findCandidate (histo : List Nat) (minIdx : Nat) : Nat → Nat → Nat
  | 0, i => i
  | fuel + 1, i =>
    if i < 15 ∧ histo.getD (mapC64Closest.getD (minIdx * 16 + i) 0) 0 = 0 then
      findCandidate histo minIdx fuel (i + 1)
    else i

/-- The variables the reduction loop works on. -/
structure ReduceState where
  histo : List Nat
  map : List Nat
  nColors : Nat
deriving DecidableEq, Repr

/-- One iteration of `while ( nColors > 4 )`: the least frequent colour is
removed, it and every colour already mapped to it are redirected to the first
ranked colour with a non-zero bin, and its count is added to that bin. -/
def reduceStep (s : ReduceState) : ReduceState :=
  let minIdx := (findMin s.histo).2
  let tmpCount := s.histo.getD minIdx 0
  let histo1 := s.histo.set minIdx 0
  let i := findCandidate histo1 minIdx 15 0
  let tgt := mapC64Closest.getD (minIdx * 16 + i) 0
  let map1 := s.map.set minIdx tgt
  let map2 := (List.range 16).foldl
    (fun m j => if histo1.getD j 0 = 0 ∧ m.getD j 0 = minIdx then m.set j tgt else m) map1
  { histo := histo1.set tgt ((histo1.getD tgt 0 + tmpCount) % 256)
    map := map2
    nColors := s.nColors - 1 }

/-- The loop `while ( nColors > 4 )`; the first argument bounds the number of
iterations. -/
def reduceLoop : Nat → ReduceState → ReduceState
  | 0, s => s
  | fuel + 1, s => if s.nColors > 4 then reduceLoop fuel (reduceStep s) else s

/-- The state on entry to the reduction loop: the histogram of the block with
`histo[ bgColor ] = 32`, the identity `map`, and `nColors` the number of
non-zero bins. -/
def reduceInit (bgColor : Nat) (blockColors : List Nat) : ReduceState :=
  let histo := (buildHisto blockColors).set bgColor 32
  { histo := histo, map := List.range 16, nColors := countColors histo }

/-- The state on exit from the reduction loop.  `nColors` is at most 16 on
entry and drops by one per iteration, so 16 iterations are never exceeded. -/
def reduceBlock (bgColor : Nat) (blockColors : List Nat) : ReduceState :=
  reduceLoop 16 (reduceInit bgColor blockColors)

/-- The colour of pixel `k` of the block after reduction,
`map[ blockColors[ k ] ]`. -/
def reducedColor (s : ReduceState) (blockColors : List Nat) (k : Nat) : Nat :=
  s.map.getD (blockColors.getD k 0) 0

/-- The variables of the register assignment. -/
structure Regs where
  w : Nat
  screenRAM : Nat
  colorRAM : Nat
deriving DecidableEq, Repr

/-- The body of the assignment loop for a colour `i` that passed the test
`i != bgColor && histo[ i ]`. -/
def assignColor (r : Regs) (i : Nat) : Regs :=
  if r.w = 2 then { r with screenRAM := (r.screenRAM ||| (i <<< 4)) % 256, w := r.w + 1 }
  else if r.w = 1 then { r with screenRAM := (r.screenRAM ||| i) % 256, w := r.w + 1 }
  else if r.w = 0 then { r with colorRAM := i, w := r.w + 1 }
  else r

/-- The register assignment: the previous colour-RAM value is kept when it is
not the background and still has a non-zero bin (its bin is then cleared), and
the loop over `i = 0..15` hands the remaining colours to colour RAM, the low
nibble and the high nibble of screen RAM, in that order. -/
def assignRegs (bgColor prevColorRAM : Nat) (histo : List Nat) : Regs :=
  let keep : Bool := prevColorRAM != bgColor && histo.getD prevColorRAM 0 != 0
  let histo1 := if keep then histo.set prevColorRAM 0 else histo
  let r0 : Regs := if keep then { w := 1, screenRAM := 0, colorRAM := prevColorRAM }
                   else { w := 0, screenRAM := 0, colorRAM := 0 }
  (List.range 16).foldl
    (fun r i => if i ≠ bgColor ∧ histo1.getD i 0 ≠ 0 then assignColor r i else r) r0

/-- The 2-bit code of a pixel: the chain of comparisons against `colorRAM`,
`screenRAM & 15` and `screenRAM >> 4`, with 0 when none matches. -/
def pixelValue (colorRAM screenRAM c64color : Nat) : Nat :=
  if c64color = colorRAM then 3
  else if c64color = screenRAM &&& 15 then 2
  else if c64color = screenRAM >>> 4 then 1
  else 0

/-- The byte `kBitmapData` of pixel row `c`: for `a = 0..3` the byte is shifted
left by two (as `uint8_t`) and the code of pixel `a + c * 4` is or-ed in. -/
def bitmapRow (map blockColors : List Nat) (colorRAM screenRAM c : Nat) : Nat :=
  (List.range 4).foldl
    (fun k a => ((k <<< 2) % 256) |||
      pixelValue colorRAM screenRAM (map.getD (blockColors.getD (a + c * 4) 0) 0)) 0

/-- What the encoder stores for one block. -/
structure EncodedBlock where
  screenRAM : Nat
  colorRAM : Nat
  bitmap : List Nat
deriving DecidableEq, Repr

/-- The block part of `doImageConversion` after the quantiser: reduction,
register assignment, and the eight bitmap bytes of the block. -/
def encodeBlock (bgColor prevColorRAM : Nat) (blockColors : List Nat) : EncodedBlock :=
  let s := reduceBlock bgColor blockColors
  let r := assignRegs bgColor prevColorRAM s.histo
  { screenRAM := r.screenRAM
    colorRAM := r.colorRAM
    bitmap := (List.range 8).map (bitmapRow s.map blockColors r.colorRAM r.screenRAM) }

/-- The fixed colour selection of the multicolour bitmap mode: code 00 shows
the background colour, 01 the high nibble of the screen register, 10 its low
nibble and 11 the colour-RAM register. -/
def decodePixel (bgColor screenRAM colorRAM code : Nat) : Nat :=
  if code = 0 then bgColor
  else if code = 1 then screenRAM >>> 4
  else if code = 2 then screenRAM &&& 15
  else colorRAM

/-- The code stored for pixel `a` (0 = leftmost) in a bitmap byte. -/
def pixelCode (byte a : Nat) : Nat := (byte >>> (6 - 2 * a)) &&& 3

/-- The hypothesis on a block: 32 pixel colours, all palette indices. -/
def ValidBlock (blockColors : List Nat) : Prop :=
  blockColors.length = 32 ∧ ∀ c ∈ blockColors, c < 16

instance (blockColors : List Nat) : Decidable (ValidBlock blockColors) := by
  unfold ValidBlock; infer_instance


/-- The colour removed by the next reduction step. -/
def stepMinIdx (s : ReduceState) : Nat := (findMin s.histo).2

/-- The index at which the candidate search of the next reduction step stops. -/
def stepCandidate (s : ReduceState) : Nat :=
  findCandidate (s.histo.set (stepMinIdx s) 0) (stepMinIdx s) 15 0

/-- The colour `mapColors[ i ]` the next reduction step redirects to. -/
def stepTarget (s : ReduceState) : Nat :=
  mapC64Closest.getD (stepMinIdx s * 16 + stepCandidate s) 0

/-- The facts that hold of the reduction state each time the loop condition is
evaluated, relative to the background colour `bg` and the histogram `h0` on
entry to the loop. -/
structure ReduceInv (bg : Nat) (h0 : List Nat) (s : ReduceState) : Prop where
  hlen : s.histo.length = 16
  mlen : s.map.length = 16
  fix : ∀ j < 16, s.histo.getD j 0 ≠ 0 → s.map.getD j 0 = j
  live : ∀ j < 16, h0.getD j 0 ≠ 0 → s.map.getD j 0 < 16 ∧ s.histo.getD (s.map.getD j 0) 0 ≠ 0
  cnt : s.nColors = countColors s.histo
  sum : s.histo.sum ≤ 64
  bgk : 32 ≤ s.histo.getD bg 0

/-- A block with the pixel histogram 10, 8, 6, 4, 3, 1 over the colours 1 to 6. -/
def sampleBlock : List Nat :=
  List.replicate 10 1 ++ List.replicate 8 2 ++ List.replicate 6 3 ++ List.replicate 4 4 ++
    List.replicate 3 5 ++ List.replicate 1 6


/-! ## Part 2: `blitScreenDOOM` -/

/-- The macro `INVALIDATE_RECT( x )`: true at every multiple of 320 and
strictly inside the two row bands `invalidateRow2` and `invalidateRow`. -/
def INVALIDATE_RECT (invalidateRow invalidateRow2 x : Nat) : Bool :=
  (x % 320 == 0) ||
  (decide (x > invalidateRow2 * 320) && decide (x < (invalidateRow2 + 1) * 320)) ||
  (decide (x > invalidateRow * 320) && decide (x < (invalidateRow + 1) * 320))

/-- A span descriptor `( a << 18 ) | ( b << 2 ) | flag` as a `u32`. -/
def packSpan (a b flag : Nat) : Nat := ((a <<< 18) ||| (b <<< 2) ||| flag) % 2 ^ 32

/-- The field `spanList[ s ] & 3` read by the transfer loop. -/
def spanFlag (w : Nat) : Nat := w &&& 3

/-- The field `( spanList[ s ] >> 18 ) & 16383` read by the transfer loop. -/
def spanFrom (w : Nat) : Nat := (w >>> 18) &&& 16383

/-- The field `( spanList[ s ] >> 2 ) & 16383` read by the transfer loop. -/
def spanTo (w : Nat) : Nat := (w >>> 2) &&& 16383

/-- The loop `while ( p < limit && cond( p ) ) p ++`; the first argument
bounds the number of iterations and is `limit - p` at every call. -/
def scanWhile (cond : Nat → Bool) (limit : Nat) : Nat → Nat → Nat
  | 0, p => p
  | fuel + 1, p => if p < limit ∧ cond p = true then scanWhile cond limit fuel (p + 1) else p

/-- The condition of the first bitmap loop,
`prevScreenBuffer[ pos + prevScreenOfs ] == koalaData[ pos ] && !INVALIDATE_RECT( pos )`. -/
def bitmapSame (inval : Nat → Bool) (prev koala : Nat → Nat) (ofs pos : Nat) : Bool :=
  prev (pos + ofs) == koala pos && !inval pos

/-- The condition of the second bitmap loop,
`prevScreenBuffer[ pos2 + prevScreenOfs ] != koalaData[ pos2 ] || INVALIDATE_RECT( pos2 )`. -/
def bitmapDiff (inval : Nat → Bool) (prev koala : Nat → Nat) (ofs pos2 : Nat) : Bool :=
  prev (pos2 + ofs) != koala pos2 || inval pos2

/-- The condition of the first screen loop, on
`prevScreenBuffer[ 8000+spos + prevScreenOfs ]`, `koalaData[ 8000+spos ]` and
`INVALIDATE_RECT( spos * 8 )`. -/
def screenSame (inval : Nat → Bool) (prev koala : Nat → Nat) (ofs spos : Nat) : Bool :=
  prev (8000 + spos + ofs) == koala (8000 + spos) && !inval (spos * 8)

/-- The condition of the second screen loop. -/
def screenDiff (inval : Nat → Bool) (prev koala : Nat → Nat) (ofs pos2 : Nat) : Bool :=
  prev (8000 + pos2 + ofs) != koala (8000 + pos2) || inval (pos2 * 8)

/-- The condition of the first colour loop, on `prevScreenBuffer[ 9000+cpos ]`
(no buffer offset), `koalaData[ 9000+cpos ]` and `INVALIDATE_RECT( cpos * 8 )`. -/
def colorSame (inval : Nat → Bool) (prev koala : Nat → Nat) (cpos : Nat) : Bool :=
  prev (9000 + cpos) == koala (9000 + cpos) && !inval (cpos * 8)

/-- The condition of the second colour loop. -/
def colorDiff (inval : Nat → Bool) (prev koala : Nat → Nat) (pos2 : Nat) : Bool :=
  prev (9000 + pos2) != koala (9000 + pos2) || inval (pos2 * 8)

/-- The shape shared by the screen loop `while ( spos < end )` and the colour
loop `while ( cpos < 1000 )`: skip equal bytes, run over differing bytes, then
store the span `( base+p ) .. ( base+pos2 )` and add `pos2 - p` to the total,
both without a test on `p`.  The result is the final position, the spans in
the order they were stored, and the amount added to `totalTransfer`.  The
first argument bounds the number of iterations. -/
def planeScan (same diff : Nat → Bool) (base flag limit : Nat) :
    Nat → Nat → Nat × List Nat × Nat
  | 0, p => (p, [], 0)
  | fuel + 1, p =>
    if p < limit then
      let p1 := scanWhile same limit (limit - p) p
      let pos2 := scanWhile diff limit (limit - (p1 + 1)) (p1 + 1)
      let r := planeScan same diff base flag limit fuel pos2
      (r.1, packSpan (base + p1) (base + pos2) flag :: r.2.1, (pos2 - p1) + r.2.2)
    else (p, [], 0)

/-- The loop `while ( pos < 8000 )`: one bitmap span (stored only when
`pos < 8000` after the skip), then the screen loop up to `end = pos / 8`, then
`if ( pos >= 8000 ) break`.  The result is the list of spans in the order they
were stored and the amount added to `totalTransfer`. -/
def bitmapScan (bSame bDiff sSame sDiff : Nat → Bool) : Nat → Nat → Nat → List Nat × Nat
  | 0, _, _ => ([], 0)
  | fuel + 1, pos, spos =>
    if pos < 8000 then
      let p1 := scanWhile bSame 8000 (8000 - pos) pos
      let pos2 := scanWhile bDiff 8000 (8000 - (p1 + 1)) (p1 + 1)
      let own : List Nat := if p1 < 8000 then [packSpan p1 pos2 0] else []
      let ownT : Nat := if p1 < 8000 then pos2 - p1 else 0
      let endPos := pos2 / 8
      let sc := planeScan sSame sDiff 8000 1 endPos (endPos - spos) spos
      if pos2 ≥ 8000 then (own ++ sc.2.1, ownT + sc.2.2)
      else
        let r := bitmapScan bSame bDiff sSame sDiff fuel pos2 sc.1
        (own ++ sc.2.1 ++ r.1, ownT + sc.2.2 + r.2)
    else ([], 0)

/-- The `else` branch of `if ( firstBlit )`: the interleaved bitmap and screen
scan followed by the colour scan.  `inval` stands for `INVALIDATE_RECT`.  The
result is `spanList[ 0 .. spanIdx )` and `totalTransfer`. -/
def buildSpans (inval : Nat → Bool) (prev koala : Nat → Nat) (prevScreenOfs : Nat) :
    List Nat × Nat :=
  let bs := bitmapScan (bitmapSame inval prev koala prevScreenOfs)
    (bitmapDiff inval prev koala prevScreenOfs) (screenSame inval prev koala prevScreenOfs)
    (screenDiff inval prev koala prevScreenOfs) 8000 0 0
  let cs := planeScan (colorSame inval prev koala) (colorDiff inval prev koala) 9000 2 1000 1000 0
  (bs.1 ++ cs.2.1, bs.2 + cs.2.2)

/-- The static variables of `blitScreenDOOM` and `restartIncrementalBlitter`
together with the memory of the remote machine. -/
structure BlitState where
  fc : Nat
  firstBlit : Nat
  invalidateRow : Nat
  invalidateRow2 : Nat
  prevScreenBuffer : Nat → Nat
  mem : Nat → Nat

/-- `prevScreenOfs = (fc & 1) ? 10000 : 0`. -/
def prevScreenOfs (fc : Nat) : Nat := if fc &&& 1 ≠ 0 then 10000 else 0

/-- `base = ( fc & 1 ) ? 0x4000 : 0`. -/
def blitBase (fc : Nat) : Nat := if fc &&& 1 ≠ 0 then 0x4000 else 0

/-- `invalidateRow = ( invalidateRow + 1 ) % 25`. -/
def nextInvalidateRow (invalidateRow : Nat) : Nat := (invalidateRow + 1) % 25

/-- `invalidateRow2 ++; if ( invalidateRow2 >= 25 ) invalidateRow2 = 21`. -/
def nextInvalidateRow2 (invalidateRow2 : Nat) : Nat :=
  if invalidateRow2 + 1 ≥ 25 then 21 else invalidateRow2 + 1

/-- The three spans stored when `firstBlit` is non-zero. -/
def firstBlitSpans : List Nat :=
  [((0 <<< 18) ||| (8000 <<< 2) ||| 0) % 2 ^ 32,
   ((8000 <<< 18) ||| (9000 <<< 2) ||| 1) % 2 ^ 32,
   ((9000 <<< 18) ||| (10000 <<< 2) ||| 2) % 2 ^ 32]

/-- The span list and `totalTransfer` computed by one invocation: the three
full spans (and an untouched total of 0) when `firstBlit` is non-zero, and
the diff against the previous-frame buffer otherwise, with the invalidation
rows advanced first. -/
def blitSpans (s : BlitState) (koalaData : Nat → Nat) : List Nat × Nat :=
  if s.firstBlit ≠ 0 then (firstBlitSpans, 0)
  else buildSpans
    (INVALIDATE_RECT (nextInvalidateRow s.invalidateRow) (nextInvalidateRow2 s.invalidateRow2))
    s.prevScreenBuffer koalaData (prevScreenOfs s.fc)

/-- The start address `addr` of the transfer loop as a `u32`: `0x2000 + base`,
replaced by `0x0400 - 8000 + base` for flag 1 and by `0xd800 - 9000` for
flag 2. -/
def spanAddr (base flag : Nat) : Nat :=
  if flag = 2 then 0xd800 - 9000
  else if flag = 1 then (0x0400 + 2 ^ 32 - 8000 + base) % 2 ^ 32
  else 0x2000 + base

/-- A byte written to the remote machine. -/
def poke (mem : Nat → Nat) (a v : Nat) : Nat → Nat := fun x => if x = a then v else mem x

/-- The inner loop `for ( i = from; i < to; i++ ) MPOKE( addr + i, koalaData[ i ] )`,
with the iteration count `to - from` as first argument. -/
def pokeRange (koalaData : Nat → Nat) (addr : Nat) : Nat → Nat → (Nat → Nat) → (Nat → Nat)
  | 0, _, mem => mem
  | n + 1, i, mem =>
    pokeRange koalaData addr n (i + 1) (poke mem ((addr + i) % 2 ^ 32) (koalaData i))

/-- The body of the transfer loop for one span descriptor. -/
def pokeSpan (koalaData : Nat → Nat) (base : Nat) (mem : Nat → Nat) (w : Nat) : Nat → Nat :=
  pokeRange koalaData (spanAddr base (spanFlag w)) (spanTo w - spanFrom w) (spanFrom w) mem

/-- The transfer loop `for ( s = 0; s < spanIdx; s++ )`. -/
def transferSpans (koalaData : Nat → Nat) (base : Nat) (spans : List Nat) (mem : Nat → Nat) :
    Nat → Nat :=
  spans.foldl (pokeSpan koalaData base) mem

/-- The call `memcpy( dst + d, src + s, n )` on buffers given as functions. -/
def memcpy (dst : Nat → Nat) (d : Nat) (src : Nat → Nat) (s n : Nat) : Nat → Nat :=
  fun x => if d ≤ x ∧ x < d + n then src (x - d + s) else dst x

/-- One invocation of `blitScreenDOOM` on the encoded frame `koalaData`, as far
as the span list, the frame bytes sent to the remote machine and the static
variables are concerned.  Keyboard, mouse, raster wait and the writes to the
sound and video registers (all at addresses from 0xd000 to 0xd7ff or from
0xdc00 on) are left out. -/
def blitScreenDOOM (s : BlitState) (koalaData : Nat → Nat) : BlitState :=
  let ofs := prevScreenOfs s.fc
  let spans := (blitSpans s koalaData).1
  let mem1 := transferSpans koalaData (blitBase s.fc) spans s.mem
  let prev1 := memcpy s.prevScreenBuffer ofs koalaData 0 10000
  let prev2 := memcpy prev1 9000 koalaData 9000 1000
  { fc := (s.fc + 1) % 256
    firstBlit := if s.firstBlit ≠ 0 then s.firstBlit - 1 else s.firstBlit
    invalidateRow := nextInvalidateRow s.invalidateRow
    invalidateRow2 := nextInvalidateRow2 s.invalidateRow2
    prevScreenBuffer := prev2
    mem := mem1 }

/-- The function `restartIncrementalBlitter`. -/
def restartIncrementalBlitter (s : BlitState) : BlitState := { s with firstBlit := 2 }

/-- The region flag of frame byte `i`: 0 for the bitmap, 1 for screen RAM,
2 for colour RAM. -/
def regionFlag (i : Nat) : Nat := if i < 8000 then 0 else if i < 9000 then 1 else 2

/-- The remote address that holds frame byte `i` in the buffer of parity
`fc & 1`: bitmap at `0x2000 + base`, screen RAM at `0x0400 + base`, colour RAM
at `0xd800`. -/
def remoteAddr (fc i : Nat) : Nat :=
  if i < 8000 then 0x2000 + blitBase fc + i
  else if i < 9000 then 0x0400 + blitBase fc + (i - 8000)
  else 0xd800 + (i - 9000)

/-- The index in `prevScreenBuffer` that frame byte `i` is compared with and
saved to: the slot of the parity for bitmap and screen bytes, the shared
range from 9000 for colour bytes. -/
def prevIndex (fc i : Nat) : Nat := if i < 9000 then i + prevScreenOfs fc else i

/-- A span descriptor covers frame byte `i` with the flag of its region. -/
def Covers (w i : Nat) : Prop := spanFlag w = regionFlag i ∧ spanFrom w ≤ i ∧ i < spanTo w

instance (w i : Nat) : Decidable (Covers w i) := by unfold Covers; infer_instance

/-- A blitter state with zero-filled buffers that is past its first two
invocations. -/
def idleState : BlitState :=
  { fc := 0, firstBlit := 0, invalidateRow := 0, invalidateRow2 := 21,
    prevScreenBuffer := fun _ => 0, mem := fun _ => 0 }

/-- The argument handed to `INVALIDATE_RECT` when frame byte `i` is examined:
`pos` for a bitmap byte, `spos * 8` and `cpos * 8` for screen and colour
bytes. -/
def invalArg (i : Nat) : Nat :=
  if i < 8000 then i else if i < 9000 then (i - 8000) * 8 else (i - 9000) * 8

/-- The block row (0 to 24) that frame byte `i` belongs to. -/
def rowOf (i : Nat) : Nat :=
  if i < 8000 then i / 320 else if i < 9000 then (i - 8000) / 40 else (i - 9000) / 40

/-- The test that makes the scan put frame byte `i` into a span: the second
loop condition of the region of `i`. -/
def frameDiff (inval : Nat → Bool) (prev koala : Nat → Nat) (ofs i : Nat) : Bool :=
  if i < 8000 then bitmapDiff inval prev koala ofs i
  else if i < 9000 then screenDiff inval prev koala ofs (i - 8000)
  else colorDiff inval prev koala (i - 9000)

/-- The all-zero frame. -/
def zeroFrame : Nat → Nat := fun _ => 0

/-- A frame that is zero except for bitmap byte 16. -/
def sampleFrame : Nat → Nat := fun i => if i = 16 then 1 else 0

/-- The remote buffer of the parity of `fc` (with colour RAM) holds what the
previous-frame buffer records for that parity. -/
def Synced (s : BlitState) (fc : Nat) : Prop :=
  ∀ i, i < 10000 → s.mem (remoteAddr fc i) = s.prevScreenBuffer (prevIndex fc i)

/-- The relation between the remote memory and the previous-frame buffer
between invocations: both parities are in step once `firstBlit` has reached 0,
and the parity of the preceding invocation is in step while `firstBlit` is 1. -/
def BlitInv (s : BlitState) : Prop :=
  s.firstBlit ≤ 2 ∧ (s.firstBlit = 0 → Synced s 0 ∧ Synced s 1) ∧
    (s.firstBlit = 1 → Synced s (s.fc + 1))

/-- The flag and range conditions under which the transfer loop addresses the
three remote areas. -/
def SpanOK (w : Nat) : Prop :=
  (spanFlag w = 0 ∧ spanFrom w < spanTo w ∧ spanTo w ≤ 8000) ∨
  (spanFlag w = 1 ∧ 8000 ≤ spanFrom w ∧ spanFrom w < spanTo w ∧ spanTo w ≤ 9001) ∨
  (spanFlag w = 2 ∧ 9000 ≤ spanFrom w ∧ spanFrom w < spanTo w ∧ spanTo w ≤ 10001)

/-! ## Part 3: keyboard queue, keyboard scan and mouse -/

/-- The key codes of `doomkeys.h` that `convertToDoomKey` assigns.  The header
is not among the sources, so the values are parameters. -/
structure DoomKeys where
  KEY_ENTER : Nat
  KEY_ESCAPE : Nat
  KEY_UPARROW : Nat
  KEY_DOWNARROW : Nat
  KEY_LEFTARROW : Nat
  KEY_RIGHTARROW : Nat
  KEY_FIRE : Nat
  KEY_USE : Nat
  KEY_STRAFE_L : Nat
  KEY_STRAFE_R : Nat
  KEY_RSHIFT : Nat
deriving DecidableEq, Repr

/-- The library function `tolower` on a byte, in the C locale. -/
def tolower (c : Nat) : Nat := if 65 ≤ c ∧ c ≤ 90 then c + 32 else c

/-- The function `convertToDoomKey`; the result is stored in a `uint8_t`.
`none` stands for the case `VK_F7` (136), where the external `reboot()` is
called. -/
def convertToDoomKey (keys : DoomKeys) (mouseControlActive : Int) (key : Nat) : Option Nat :=
  if mouseControlActive ≠ 0 then
    if key = 13 then some (keys.KEY_ENTER % 256)
    else if key = 95 then some (keys.KEY_ESCAPE % 256)
    else if key = 64 ∨ key = 145 then some (keys.KEY_UPARROW % 256)
    else if key = 59 ∨ key = 17 then some (keys.KEY_DOWNARROW % 256)
    else if key = 32 then some (keys.KEY_USE % 256)
    else if key = 122 ∨ key = 90 then some (keys.KEY_STRAFE_L % 256)
    else if key = 120 ∨ key = 88 then some (keys.KEY_STRAFE_R % 256)
    else if key = 1 ∨ key = 6 then some (keys.KEY_RSHIFT % 256)
    else if key = 61 then some 0
    else if key = 136 then none
    else some (tolower key % 256)
  else
    if key = 13 then some (keys.KEY_ENTER % 256)
    else if key = 95 then some (keys.KEY_ESCAPE % 256)
    else if key = 106 ∨ key = 74 ∨ key = 157 then some (keys.KEY_LEFTARROW % 256)
    else if key = 108 ∨ key = 76 ∨ key = 29 then some (keys.KEY_RIGHTARROW % 256)
    else if key = 105 ∨ key = 73 ∨ key = 64 ∨ key = 145 then some (keys.KEY_UPARROW % 256)
    else if key = 107 ∨ key = 75 ∨ key = 59 ∨ key = 17 then some (keys.KEY_DOWNARROW % 256)
    else if key = 4 then some (keys.KEY_FIRE % 256)
    else if key = 32 then some (keys.KEY_USE % 256)
    else if key = 122 ∨ key = 90 then some (keys.KEY_STRAFE_L % 256)
    else if key = 120 ∨ key = 88 then some (keys.KEY_STRAFE_R % 256)
    else if key = 1 ∨ key = 6 then some (keys.KEY_RSHIFT % 256)
    else if key = 61 then some 0
    else if key = 136 then none
    else some (tolower key % 256)

/-- The static variables of `doomgeneric_rad.c` that the keyboard and mouse
code reads and writes.  `int` variables are integers without a range. -/
structure InputState where
  s_KeyQueue : List Nat
  s_KeyQueueWriteIndex : Nat
  s_KeyQueueReadIndex : Nat
  ditherMode : Nat
  selectedPreset : Nat
  alternatePattern : Nat
  displayStatus : Int
  displayPreset : Int
  displayHelp : Int
  flickerMode : Int
  brightnessScale : Int
  mouseControlActive : Int
  delta : List Int
  mouseDoomData : List Int
  mouseMinVal : List Int
  mouseMaxVal : List Int
  mouseLastVal : List Int
  mouseFirstPos : Nat
deriving DecidableEq, Repr

/-- The function `setDisplayPreset`. -/
def setDisplayPreset (s : InputState) (p : Nat) : InputState :=
  if p = 1 then { s with flickerMode := 80, ditherMode := 2, alternatePattern := 0 }
  else if p = 2 then { s with flickerMode := 256, ditherMode := 2, alternatePattern := 1 }
  else if p = 3 then { s with flickerMode := 256, ditherMode := 2, alternatePattern := 0 }
  else { s with flickerMode := 0, ditherMode := 2, alternatePattern := 0 }

/-- The key codes that `addKeyToQueue` handles itself when `pressed` is
non-zero and does not put into the queue: F1, F3, F5 and the letters A, Q, S,
W, D, E, R, F in either case. -/
def interceptedKey (keyCode : Nat) : Bool :=
  keyCode = 133 || keyCode = 134 || keyCode = 135 ||
  keyCode = 65 || keyCode = 97 || keyCode = 81 || keyCode = 113 ||
  keyCode = 83 || keyCode = 115 || keyCode = 87 || keyCode = 119 ||
  keyCode = 68 || keyCode = 100 || keyCode = 69 || keyCode = 101 ||
  keyCode = 82 || keyCode = 114 || keyCode = 70 || keyCode = 102

/-- The `switch ( keyCode )` that `addKeyToQueue` runs when `pressed` is
non-zero, for the key codes of `interceptedKey`. -/
def interceptKey (s : InputState) (keyCode : Nat) : InputState :=
  if keyCode = 133 then { s with displayHelp := 1 - s.displayHelp }
  else if keyCode = 134 then
    { s with mouseControlActive := 1 - s.mouseControlActive, displayStatus := 100,
             displayPreset := 0, mouseMinVal := (s.mouseMinVal.set 1 255).set 0 255,
             mouseMaxVal := (s.mouseMaxVal.set 1 0).set 0 0 }
  else if keyCode = 135 then { s with displayStatus := 100 }
  else if keyCode = 65 ∨ keyCode = 97 then
    { s with ditherMode := (max 0 ((s.ditherMode : Int) - 1)).toNat % 256, displayStatus := 100,
             displayPreset := 0 }
  else if keyCode = 81 ∨ keyCode = 113 then
    { s with ditherMode := (min 4 ((s.ditherMode : Int) + 1)).toNat % 256, displayStatus := 100,
             displayPreset := 0 }
  else if keyCode = 83 ∨ keyCode = 115 then
    { s with flickerMode := max 0 (s.flickerMode - 8), displayStatus := 100, displayPreset := 0 }
  else if keyCode = 87 ∨ keyCode = 119 then
    { s with flickerMode := min 256 (s.flickerMode + 8), displayStatus := 100,
             displayPreset := 0 }
  else if keyCode = 68 ∨ keyCode = 100 then
    { s with brightnessScale := max 0 (s.brightnessScale - 1), displayStatus := 100,
             displayPreset := 0 }
  else if keyCode = 69 ∨ keyCode = 101 then
    { s with brightnessScale := min 256 (s.brightnessScale + 1), displayStatus := 100,
             displayPreset := 0 }
  else if keyCode = 82 ∨ keyCode = 114 then
    setDisplayPreset
      { s with selectedPreset := (s.selectedPreset + 1) % 4, displayStatus := 100,
               displayPreset := 1 }
      ((s.selectedPreset + 1) % 4)
  else { s with alternatePattern := (1 - (s.alternatePattern : Int)).toNat % 256,
                displayStatus := 100, displayPreset := 0 }

/-- The function `addKeyToQueue`.  The key is converted first (`none` when
that calls `reboot()`), `keyData = ( pressed << 8 ) | key` is a `uint16_t`,
an intercepted key returns without touching the queue, and any other event is
stored at the write index, which then advances modulo `KEY_QUEUE_SIZE`. -/
def addKeyToQueue (keys : DoomKeys) (s : InputState) (pressed keyCode : Nat) :
    Option InputState :=
  match convertToDoomKey keys s.mouseControlActive keyCode with
  | none => none
  | some key =>
    let keyData := ((pressed <<< 8) ||| key) % 65536
    if pressed ≠ 0 ∧ interceptedKey keyCode = true then some (interceptKey s keyCode)
    else some { s with
      s_KeyQueue := s.s_KeyQueue.set s.s_KeyQueueWriteIndex keyData
      s_KeyQueueWriteIndex := (s.s_KeyQueueWriteIndex + 1) % 2 ^ 32 % 16 }

/-- The function `DG_GetKey`.  The arguments `pressed` and `doomKey` are the
values behind the two pointers before the call; the result is the return
value, the values behind the pointers after the call, and the new state. -/
def DG_GetKey (s : InputState) (pressed : Int) (doomKey : Nat) :
    Int × Int × Nat × InputState :=
  if s.s_KeyQueueReadIndex = s.s_KeyQueueWriteIndex then (0, pressed, doomKey, s)
  else
    let keyData := s.s_KeyQueue.getD s.s_KeyQueueReadIndex 0
    (1, ((keyData >>> 8 : Nat) : Int), keyData &&& 0xFF,
      { s with s_KeyQueueReadIndex := (s.s_KeyQueueReadIndex + 1) % 2 ^ 32 % 16 })

/-- Successive calls of `addKeyToQueue` on a list of `(pressed, keyCode)`
events. -/
def addKeys (keys : DoomKeys) : InputState → List (Nat × Nat) → Option InputState
  | s, [] => some s
  | s, e :: es =>
    match addKeyToQueue keys s e.1 e.2 with
    | none => none
    | some s1 => addKeys keys s1 es

/-- The results of `n` successive calls of `DG_GetKey`, each started with the
values the call before left behind the two pointers: the list of
(return value, pressed, doomKey) and the state after the last call. -/
def getKeys : Nat → InputState → Int → Nat → List (Int × Int × Nat) × InputState
  | 0, s, _, _ => ([], s)
  | n + 1, s, pressed, doomKey =>
    let r := DG_GetKey s pressed doomKey
    let rest := getKeys n r.2.2.2 r.2.1 r.2.2.1
    ((r.1, r.2.1, r.2.2.1) :: rest.1, rest.2)

/-- An event that `addKeyToQueue` puts into the queue: not an intercepted key
with `pressed` set, not the reboot key, and `pressed` is 0 or 1 as in the
calls of `DG_DrawFrame`. -/
def PlainEvent (e : Nat × Nat) : Prop :=
  e.1 ≤ 1 ∧ e.2 < 256 ∧ e.2 ≠ 136 ∧ (e.1 = 0 ∨ interceptedKey e.2 = false)

instance (e : Nat × Nat) : Decidable (PlainEvent e) := by unfold PlainEvent; infer_instance

/-- The table `keyTable[ 64 ]` of `rad_doom_hijack.cpp`, with the `VK_` names
replaced by the values that `doomgeneric_rad.c` defines for them. -/
def keyTable : List Nat := [
  20, 51, 53, 55, 57, 43, 63, 49,
  13, 87, 82, 89, 73, 80, 42, 95,
  29, 65, 68, 71, 74, 76, 59, 0,
  136, 52, 54, 56, 48, 45, 19, 50,
  133, 90, 67, 66, 77, 46, 6, 32,
  134, 83, 70, 72, 75, 58, 61, 4,
  135, 69, 84, 85, 79, 64, 94, 81,
  17, 1, 88, 86, 78, 44, 47, 0 ]

/-- The static variables of `readKeyDoom`. -/
structure KeyScanState where
  firstKeyScan : Nat
  prevMatrix : List Nat
deriving DecidableEq, Repr

/-- The test `( ( matrix[ a ] >> i ) & 1 ) != ( ( prevMatrix[ a ] >> i ) & 1 )`. -/
def bitChanged (matrix prevMatrix : List Nat) (i a : Nat) : Bool :=
  (matrix.getD a 0 >>> i) &&& 1 != (prevMatrix.getD a 0 >>> i) &&& 1

/-- The value stored in `kbEvents` for position `(i, a)`: the table entry,
with 256 or-ed in when the bit of `matrix` is 0 (key down). -/
def keyEvent (matrix : List Nat) (i a : Nat) : Nat :=
  if (matrix.getD a 0 >>> i) &&& 1 = 0 then keyTable.getD (i * 8 + a) 0 ||| 256
  else keyTable.getD (i * 8 + a) 0

/-- The body of the inner loop of the event generation: `ev` is
`kbEvents[ 0 .. *nEvents )`. -/
def keyEventStep (matrix prevMatrix : List Nat) (i : Nat) (ev : List Nat) (a : Nat) : List Nat :=
  if bitChanged matrix prevMatrix i a = true then ev ++ [keyEvent matrix i a] else ev

/-- The function `readKeyDoom` after the matrix has been read: `matrix` is the
snapshot of the eight columns.  On the first scan `prevMatrix` is set to the
snapshot before the comparison.  The result is the list of stored events, the
value of `*nEvents` (an `unsigned char`) and the new static state. -/
def readKeyDoom (s : KeyScanState) (matrix : List Nat) : List Nat × Nat × KeyScanState :=
  let prevMatrix := if s.firstKeyScan ≠ 0 then matrix else s.prevMatrix
  let ev := (List.range 8).foldl
    (fun ev i => (List.range 8).foldl (keyEventStep matrix prevMatrix i) ev) []
  (ev, ev.length % 256, { firstKeyScan := 0, prevMatrix := matrix })

/-- The positions `(i, a)` in the order the event generation visits them. -/
def scanOrder : List (Nat × Nat) :=
  (List.range 8).flatMap (fun i => (List.range 8).map (fun a => (i, a)))

/-- The body of the loop `for ( int i = 0; i < 2; i++ )` of
`handleMouseUpdate`. -/
def mouseAxisUpdate (mouseData : List Nat) (s : InputState) (i : Nat) : InputState :=
  let span := Int.tdiv (s.mouseMaxVal.getD i 0 - s.mouseMinVal.getD i 0) 2
  let lastDelta := s.delta.getD i 0
  let d0 : Int := (mouseData.getD i 0 : Int) - s.mouseLastVal.getD i 0
  let d : Int :=
    if d0 > 0 ∧ (d0 ≥ span ∨ lastDelta ≥ span) then
      -(s.mouseLastVal.getD i 0 - s.mouseMinVal.getD i 0 + s.mouseMaxVal.getD i 0 -
        (mouseData.getD i 0 : Int))
    else if d0 < 0 ∧ (-d0 ≥ span ∨ -lastDelta ≥ span) then
      (mouseData.getD i 0 : Int) - s.mouseMinVal.getD i 0 + s.mouseMaxVal.getD i 0 -
        s.mouseLastVal.getD i 0
    else d0
  { s with
    delta := s.delta.set i d
    mouseDoomData := s.mouseDoomData.set i (s.mouseDoomData.getD i 0 + d)
    mouseLastVal := s.mouseLastVal.set i (mouseData.getD i 0 : Int) }

/-- The function `handleMouseUpdate`; `mouseData` holds the two raw axis
bytes and the button byte. -/
def handleMouseUpdate (s : InputState) (mouseData : List Nat) : InputState :=
  let s1 : InputState := { s with
    mouseMinVal := (s.mouseMinVal.set 0 (min (s.mouseMinVal.getD 0 0) (mouseData.getD 0 0 : Int))).set 1
      (min (s.mouseMinVal.getD 1 0) (mouseData.getD 1 0 : Int))
    mouseMaxVal := (s.mouseMaxVal.set 0 (max (s.mouseMaxVal.getD 0 0) (mouseData.getD 0 0 : Int))).set 1
      (max (s.mouseMaxVal.getD 1 0) (mouseData.getD 1 0 : Int)) }
  let s2 : InputState :=
    if s1.mouseFirstPos ≠ 0 then
      { s1 with
        mouseFirstPos := 0
        mouseLastVal := (s1.mouseLastVal.set 0 (mouseData.getD 0 0 : Int)).set 1
          (mouseData.getD 1 0 : Int)
        mouseDoomData := ((s1.mouseDoomData.set 2 0).set 1 0).set 0 0 }
    else s1
  let s3 := (List.range 2).foldl (mouseAxisUpdate mouseData) s2
  { s3 with mouseDoomData := (s3.mouseDoomData.set 2 (mouseData.getD 2 0 : Int)).set 3 1 }

/-- The function `DG_MouseData`.  The arguments `mb`, `rx`, `ry` are the
values behind the three pointers before the call; the result is the return
value, the values behind the pointers after the call, and the new state. -/
def DG_MouseData (s : InputState) (mb rx ry : Int) : Int × Int × Int × Int × InputState :=
  if s.mouseDoomData.getD 3 0 ≠ 0 ∧ s.mouseControlActive ≠ 0 then
    let s1 : InputState := { s with mouseDoomData := s.mouseDoomData.set 3 0 }
    let x := s1.mouseDoomData.getD 0 0
    let rx1 : Int := if x.natAbs < 4 then 0 else x * 6
    let s2 : InputState :=
      if x.natAbs < 4 then s1 else { s1 with mouseDoomData := s1.mouseDoomData.set 0 0 }
    let y := s2.mouseDoomData.getD 1 0
    let ry1 : Int := if y.natAbs < 4 then 0 else y * 1
    let s3 : InputState :=
      if y.natAbs < 4 then s2 else { s2 with mouseDoomData := s2.mouseDoomData.set 1 0 }
    (1, s3.mouseDoomData.getD 2 0, rx1, ry1, s3)
  else (0, mb, rx, ry, s)

/-- The static initialisers of the keyboard and mouse variables, with the
queue zero-filled as by `DG_Init` and a zero for the uninitialised
`mouseLastVal`. -/
def initialInput : InputState :=
  { s_KeyQueue := List.replicate 16 0, s_KeyQueueWriteIndex := 0, s_KeyQueueReadIndex := 0,
    ditherMode := 2, selectedPreset := 0, alternatePattern := 1, displayStatus := 0,
    displayPreset := 0, displayHelp := 0, flickerMode := 0, brightnessScale := 20,
    mouseControlActive := 0, delta := [0, 0], mouseDoomData := [0, 0, 0, 0],
    mouseMinVal := [255, 255], mouseMaxVal := [0, 0], mouseLastVal := [0, 0],
    mouseFirstPos := 1 }

/-- The key code values of the `doomkeys.h` of the Doom sources, used where a
concrete instance is needed. -/
def sampleKeys : DoomKeys :=
  { KEY_ENTER := 13, KEY_ESCAPE := 27, KEY_UPARROW := 0xad, KEY_DOWNARROW := 0xaf,
    KEY_LEFTARROW := 0xac, KEY_RIGHTARROW := 0xae, KEY_FIRE := 0xa3, KEY_USE := 0xa2,
    KEY_STRAFE_L := 0xa0, KEY_STRAFE_R := 0xa1, KEY_RSHIFT := 0xb6 }

/-- The decoder state of the wrap-around scenario: fresh, with both axes
calibrated to the range 0 to 255. -/
def calibratedInput : InputState :=
  { initialInput with mouseMinVal := [0, 0], mouseMaxVal := [255, 255] }

/-- The values of `mouseDoomData[ i ]` after each of a list of successive calls
of `handleMouseUpdate`. -/
def mouseTrace (i : Nat) : InputState → List (List Nat) → List Int
  | _, [] => []
  | s, d :: ds =>
    (handleMouseUpdate s d).mouseDoomData.getD i 0 :: mouseTrace i (handleMouseUpdate s d) ds

/-! ## Part 4: `doImageConversion`, the whole frame -/

/-- The static variables of `doImageConversion` that outlive a frame, the
global `bgColor` and the buffer `koalaData`. -/
structure ConvState where
  firstBGGuess : Nat
  bgColor : Nat
  colorOccurence : List Nat
  koalaData : Nat → Nat

/-- The search for the background colour in the `else` branch of
`if ( firstBGGuess )`: `freq = colorOccurence[ 0 ]`, `bgColor = 0`, and the
loop `for ( int i = 1; i < 15; i++ )` takes every `i` with
`colorOccurence[ i ] > freq`.  The result is the pair `(freq, bgColor)`. -/
def chooseBgColor (colorOccurence : List Nat) : Nat × Nat :=
  (List.range' 1 14).foldl
    (fun fb i => if colorOccurence.getD i 0 > fb.1 then (colorOccurence.getD i 0, i) else fb)
    (colorOccurence.getD 0 0, 0)

/-- The loop `for i in 0..15: if ( histo[ i ] ) colorOccurence[ i ] ++`, run
on the histogram of a block before the background bin is forced. -/
def countOccurence (histo colorOccurence : List Nat) : List Nat :=
  (List.range 16).foldl
    (fun occ i => if histo.getD i 0 ≠ 0 then occ.set i (occ.getD i 0 + 1) else occ)
    colorOccurence

/-- The body of the loop over `x` for the block in block row `by`
(`y = by * 8`) and block column `bx` (`x = bx * 8`).  `pix by bx` is
`blockColors` as left by the quantiser.  The previous colour-RAM byte is read
from `koalaData`, then the screen byte, the colour byte and the eight bitmap
bytes `koalaData[ y * 40 + x + c ]` are stored. -/
def blockStep (bgColor : Nat) (pix : Nat → Nat → List Nat) (by_ : Nat)
    (st : List Nat × (Nat → Nat)) (bx : Nat) : List Nat × (Nat → Nat) :=
  let y := by_ * 8
  let x := bx * 8
  let blockColors := pix by_ bx
  let occ := countOccurence (buildHisto blockColors) st.1
  let e := encodeBlock bgColor (st.2 (9000 + (y / 8) * 40 + (x / 8))) blockColors
  let k1 := poke st.2 (8000 + (y / 8) * 40 + (x / 8)) e.screenRAM
  let k2 := poke k1 (9000 + (y / 8) * 40 + (x / 8)) e.colorRAM
  let k3 := (List.range 8).foldl (fun k c => poke k (y * 40 + x + c) (e.bitmap.getD c 0)) k2
  (occ, k3)

/-- The function `doImageConversion` from the choice of the background colour
on.  `DOOMGENERIC_RESX` and `DOOMGENERIC_RESY` come from a header that is not
among the sources, so they are parameters; the loops `for ( y = 0; y <
DOOMGENERIC_RESY; y += 8 )` and `for ( x = 0; x < DOOMGENERIC_RESX; x += 8 )`
make `(DOOMGENERIC_RESY + 7) / 8` and `(DOOMGENERIC_RESX + 7) / 8` iterations.
The background colour is 0 on the first call and the result of the search on
the counts of the frame before otherwise, the counts are cleared, every block
is converted, and `koalaData[ 10000 ] = bgColor`. -/
def doImageConversion (DOOMGENERIC_RESX DOOMGENERIC_RESY : Nat) (pix : Nat → Nat → List Nat)
    (s : ConvState) : ConvState :=
  let bg := if s.firstBGGuess ≠ 0 then 0 else (chooseBgColor s.colorOccurence).2
  let st := (List.range ((DOOMGENERIC_RESY + 7) / 8)).foldl
    (fun st by_ => (List.range ((DOOMGENERIC_RESX + 7) / 8)).foldl (blockStep bg pix by_) st)
    (List.replicate 16 0, s.koalaData)
  { firstBGGuess := 0, bgColor := bg, colorOccurence := st.1, koalaData := poke st.2 10000 bg }

/-- The state before the first frame: `firstBGGuess = 1`, `bgColor = 0`, and
the static `koalaData` zero-filled. -/
def initialConv : ConvState :=
  { firstBGGuess := 1, bgColor := 0, colorOccurence := List.replicate 16 0,
    koalaData := fun _ => 0 }

/-- The number of blocks of a frame of 320 by 200 pixels (25 rows of 40
blocks) in which colour `i` occurs. -/
def occurrenceCount (pix : Nat → Nat → List Nat) (i : Nat) : Nat :=
  ((List.range 25).flatMap (fun by_ => (List.range 40).map (fun bx => pix by_ bx))).countP
    (fun blockColors => decide (i ∈ blockColors))

/-- A frame in which every pixel has colour 15. -/
def greyFrame : Nat → Nat → List Nat := fun _ _ => List.replicate 32 15

/-- The block of row `by` and column `bx` as encoded in a frame of 320 by 200
pixels. -/
def frameBlock (pix : Nat → Nat → List Nat) (s : ConvState) (by_ bx : Nat) : EncodedBlock :=
  encodeBlock (doImageConversion 320 200 pix s).bgColor (s.koalaData (9000 + by_ * 40 + bx)) (pix by_ bx)

/-- The key data words in the queue that `DG_GetKey` has not returned yet: the
slots from the read index up to the write index, in ring order. -/
def pendingKeys (s : InputState) : List Nat :=
  (List.range ((s.s_KeyQueueWriteIndex + 16 - s.s_KeyQueueReadIndex) % 16)).map
    (fun k => s.s_KeyQueue.getD ((s.s_KeyQueueReadIndex + k) % 16) 0)

/-- The queue has its `KEY_QUEUE_SIZE` slots and both indices are inside it. -/
def QueueOK (s : InputState) : Prop :=
  s.s_KeyQueue.length = 16 ∧ s.s_KeyQueueReadIndex < 16 ∧ s.s_KeyQueueWriteIndex < 16

instance (s : InputState) : Decidable (QueueOK s) := by unfold QueueOK; infer_instance

/-- The next iteration of the reduction loop removes colour `m` and merges it
into its first rank-table candidate with a non-zero bin: `m` is the index the
minimum search ends with, every rank-table entry before the one the candidate
search stops at is `m` itself or has a zero bin, the entry it stops at has a
non-zero bin, and the iteration clears the bin of `m`, adds its count to the
bin of that entry and redirects `m` to it. -/
def MergesFirstCandidate (s : ReduceState) (m : Nat) : Prop :=
  stepMinIdx s = m ∧ stepCandidate s < 15 ∧ stepTarget s ≠ m ∧
  s.histo.getD (stepTarget s) 0 ≠ 0 ∧
  (∀ j < stepCandidate s, mapC64Closest.getD (m * 16 + j) 0 = m ∨
    s.histo.getD (mapC64Closest.getD (m * 16 + j) 0) 0 = 0) ∧
  (reduceStep s).histo.getD m 0 = 0 ∧
  (reduceStep s).histo.getD (stepTarget s) 0 =
    s.histo.getD (stepTarget s) 0 + s.histo.getD m 0 ∧
  (reduceStep s).map.getD m 0 = stepTarget s

instance (s : ReduceState) (m : Nat) : Decidable (MergesFirstCandidate s m) := by
  unfold MergesFirstCandidate; infer_instance

/-- A block with the pixel histogram 10, 8, 6, 4, 3, 1 over the colours 2, 3,
4, 1, 9, 0. -/
def tieBlock : List Nat :=
  List.replicate 10 2 ++ List.replicate 8 3 ++ List.replicate 6 4 ++ List.replicate 4 1 ++
    List.replicate 3 9 ++ List.replicate 1 0

/-- The state of `koalaData` inside the block loops of `doImageConversion` when
the blocks with `by * 40 + bx < m` have been encoded, relative to the buffer
`k0` on entry: their bitmap rows, screen register and colour register are in
place, and the colour registers of the other blocks still have their value
from the frame before. -/
def FrameInv (bg : Nat) (pix : Nat → Nat → List Nat) (k0 : Nat → Nat) (m : Nat)
    (k : Nat → Nat) : Prop :=
  (∀ by_ bx, by_ < 25 → bx < 40 → by_ * 40 + bx < m →
    (∀ c < 8, k (by_ * 320 + bx * 8 + c) =
      (encodeBlock bg (k0 (9000 + by_ * 40 + bx)) (pix by_ bx)).bitmap.getD c 0) ∧
    k (8000 + by_ * 40 + bx) =
      (encodeBlock bg (k0 (9000 + by_ * 40 + bx)) (pix by_ bx)).screenRAM ∧
    k (9000 + by_ * 40 + bx) =
      (encodeBlock bg (k0 (9000 + by_ * 40 + bx)) (pix by_ bx)).colorRAM) ∧
  (∀ by_ bx, by_ < 25 → bx < 40 → m ≤ by_ * 40 + bx →
    k (9000 + by_ * 40 + bx) = k0 (9000 + by_ * 40 + bx))

/-! ## Part 5: raster wait, rank table and dither matrix -/

/-- The assignment `u32 scanlinesNeeded = totalTransfer * 8 / 464`, for a
`totalTransfer` that is not negative and small enough for the product to fit
an `s32`. -/
def scanlinesNeeded (totalTransfer : Nat) : Nat := totalTransfer * 8 / 464 % 2 ^ 32

/-- The value of `endRasterLine` when the start decision is taken:
`curRasterLine + scanlinesNeeded` as a `u32`, less 312 when that is 312 or
more. -/
def endRasterLine (totalTransfer curRasterLine : Nat) : Nat :=
  if (curRasterLine + scanlinesNeeded totalTransfer) % 2 ^ 32 ≥ 312 then
    (curRasterLine + scanlinesNeeded totalTransfer) % 2 ^ 32 - 312
  else (curRasterLine + scanlinesNeeded totalTransfer) % 2 ^ 32

/-- One pass from the label `readRasterLine` to the label `blitterLoop`, given
the two raster lines read (`u16`): the result is `true` when one of the three
`goto readRasterLine` is taken and `false` when the transfer starts.  The
first test is `curRasterLine2 -= curRasterLine; if ( curRasterLine2 >= 1 )`. -/
def repollRaster (totalTransfer curRasterLine curRasterLine2 : Nat) : Bool :=
  if (curRasterLine2 + 65536 - curRasterLine) % 65536 ≥ 1 then true
  else if scanlinesNeeded totalTransfer < 110 then decide (curRasterLine < 255)
  else !(decide (endRasterLine totalTransfer curRasterLine < 51) ||
    decide (endRasterLine totalTransfer curRasterLine > 260))

/-- The table `c64PalettePepto[ 16 ][ 3 ]`. -/
def c64PalettePepto : List (Int × Int × Int) := [
  (0x00, 0x00, 0x00), (0xFF, 0xFF, 0xFF), (0x68, 0x37, 0x2B), (0x70, 0xA4, 0xB2),
  (0x6F, 0x3D, 0x86), (0x58, 0x8D, 0x43), (0x35, 0x28, 0x79), (0xB8, 0xC7, 0x6F),
  (0x6F, 0x4F, 0x25), (0x43, 0x39, 0x00), (0x9A, 0x67, 0x59), (0x44, 0x44, 0x44),
  (0x6C, 0x6C, 0x6C), (0x9A, 0xD2, 0x84), (0x6C, 0x5E, 0xB5), (0x95, 0x95, 0x95) ]

/-- The function `colorDistance`. -/
def colorDistance (r g b r_ g_ b_ : Int) : Int :=
  (r - r_) * (r - r_) + (g - g_) * (g - g_) + (b - b_) * (b - b_)

/-- The value of `colorDistance` for the palette entries of the colours `i`
and `j`, as in the ranking loop of `precomputeColorQuantization`. -/
def paletteDistance (i j : Nat) : Int :=
  colorDistance (c64PalettePepto.getD i (0, 0, 0)).1 (c64PalettePepto.getD i (0, 0, 0)).2.1
    (c64PalettePepto.getD i (0, 0, 0)).2.2 (c64PalettePepto.getD j (0, 0, 0)).1
    (c64PalettePepto.getD j (0, 0, 0)).2.1 (c64PalettePepto.getD j (0, 0, 0)).2.2

/-- The entry `mapC64Closest[ i * 16 + k ]`. -/
def rankEntry (i k : Nat) : Nat := mapC64Closest.getD (i * 16 + k) 0

/-- The variables of the bit loops of the matrix generation: `v`, `ofs`, the
mask of the coordinate taken in the outer loop, the mask of the coordinate
taken in the inner loop, and `bit`. -/
structure BitState where
  v : Nat
  ofs : Nat
  mask1 : Int
  mask2 : Int
  bit : Nat
deriving DecidableEq, Repr

/-- The inner loop `for ( ofs += add; ofs >= step; ofs -= step ) v |= ( ( c2
>> --mask2 ) & 1 ) << bit++`, after `ofs += add`.  The first argument bounds
the number of iterations; the result is `none` when the bound is used up or
the shift count is negative. -/
def ditherInner (c2 step : Nat) : Nat → BitState → Option BitState
  | 0, st => if st.ofs ≥ step then none else some st
  | fuel + 1, st =>
    if st.ofs ≥ step then
      if st.mask2 - 1 < 0 then none
      else ditherInner c2 step fuel
        { st with
          v := st.v ||| (((c2 >>> (st.mask2 - 1).toNat) &&& 1) <<< st.bit)
          mask2 := st.mask2 - 1
          bit := st.bit + 1
          ofs := st.ofs - step }
    else some st

/-- The outer loop `for ( int bit = 0; bit < M + L; )`: one bit of the first
coordinate, then the inner loop.  The first argument bounds the number of
iterations. -/
def ditherOuter (c1 c2 add step total : Nat) : Nat → BitState → Option BitState
  | 0, st => if st.bit < total then none else some st
  | fuel + 1, st =>
    if st.bit < total then
      if st.mask1 - 1 < 0 then none
      else
        match ditherInner c2 step (st.ofs + add + 1)
          { st with
            v := st.v ||| (((c1 >>> (st.mask1 - 1).toNat) &&& 1) <<< st.bit)
            mask1 := st.mask1 - 1
            bit := st.bit + 1
            ofs := st.ofs + add } with
        | none => none
        | some st1 => ditherOuter c1 c2 add step total fuel st1
    else some st

/-- The byte stored by `*( p++ ) = v` for the matrix position `(x, y)`: the
first branch takes the bits of `yc = y` in the outer loop and those of
`xc = x ^ ( ( y << M ) >> L )` in the inner loop, the second branch those of
`xc = x` in the outer loop and those of `yc = y ^ ( ( x << L ) >> M )` in the
inner loop. -/
def ditherEntry (M L x y : Nat) : Option Nat :=
  if M = 0 ∨ (M > L ∧ L ≠ 0) then
    (ditherOuter y (x ^^^ ((y <<< M) >>> L)) M L (M + L) (M + L)
      { v := 0, ofs := 0, mask1 := L, mask2 := M, bit := 0 }).map (fun st => st.v % 256)
  else
    (ditherOuter x (y ^^^ ((x <<< L) >>> M)) L M (M + L) (M + L)
      { v := 0, ofs := 0, mask1 := M, mask2 := L, bit := 0 }).map (fun st => st.v % 256)

/-- The contents of `dynDM` after the generation for an ordered dithering
mode: `M = 1 + ditherMode`, `L = M + 1`, `sizeY = 1 << L` rows of
`sizeX = 1 << M` entries. -/
def dynDM (ditherMode : Nat) : List (Option Nat) :=
  (List.range (1 <<< (1 + ditherMode + 1))).flatMap
    (fun y => (List.range (1 <<< (1 + ditherMode))).map
      (fun x => ditherEntry (1 + ditherMode) (1 + ditherMode + 1) x y))

/-- The index `( i & dmaskX ) + ( ( cc & dmaskY ) << dshift )` of the lookup in
an ordered mode, with the `uint8_t` variables `dmaskX = sizeX - 1`,
`dmaskY = sizeY - 1` and `dshift = M`. -/
def ditherIndex (ditherMode i cc : Nat) : Nat :=
  (i &&& ((1 <<< (1 + ditherMode)) - 1) % 256) +
    ((cc &&& ((1 <<< (1 + ditherMode + 1)) - 1) % 256) <<< ((1 + ditherMode) % 256))

/-- The state before invocation `k` of a run of `blitScreenDOOM` on the frames
`frames 0`, `frames 1`, ... -/
def blitRun (frames : Nat → Nat → Nat) (s : BlitState) : Nat → BlitState
  | 0 => s
  | k + 1 => blitScreenDOOM (blitRun frames s k) (frames k)

/-- A keyboard snapshot with 17 keys down: all of columns 0 and 1 and one key
of column 2. -/
def manyKeys : List Nat := [0, 0, 254, 255, 255, 255, 255, 255]

/-- The state of the register assignment when every colour handed to it is
non-zero (background colour 0): `w` counts the registers assigned so far, in
the order shared register, low nibble, high nibble of the screen register; an
assigned register holds a non-zero colour and a register not yet assigned
holds 0. -/
def RegsZeroInv (r : Regs) : Prop :=
  r.w ≤ 3 ∧
  (r.w = 0 → r.colorRAM = 0 ∧ r.screenRAM = 0) ∧
  (r.w = 1 → r.colorRAM ≠ 0 ∧ r.screenRAM = 0) ∧
  (r.w = 2 → r.colorRAM ≠ 0 ∧ r.screenRAM < 16 ∧ r.screenRAM ≠ 0) ∧
  (r.w = 3 → r.colorRAM ≠ 0 ∧ r.screenRAM &&& 15 ≠ 0 ∧ r.screenRAM >>> 4 ≠ 0)

/-- A block with 28 pixels of colour 0 and 4 pixels of colour 5. -/
def twoColourBlock : List Nat := List.replicate 28 0 ++ List.replicate 4 5
/-! ### Lists as byte arrays -/

theorem getD_set (l : List Nat) (i j v : Nat) :
    (l.set i v).getD j 0 = if i = j ∧ i < l.length then v else l.getD j 0 := by
  simp only [List.getD_eq_getElem?_getD, List.getElem?_set]
  by_cases hij : i = j
  · subst hij
    by_cases hi : i < l.length
    · simp [hi]
    · simp [hi, List.getElem?_eq_none (Nat.le_of_not_lt hi)]
  · simp [hij]

theorem getD_set_self (l : List Nat) (i v : Nat) (h : i < l.length) :
    (l.set i v).getD i 0 = v := by
  simp [getD_set, h]

theorem getD_set_ne (l : List Nat) (i j v : Nat) (h : i ≠ j) :
    (l.set i v).getD j 0 = l.getD j 0 := by
  simp [getD_set, h]

theorem sum_set_add (l : List Nat) (i v : Nat) (h : i < l.length) :
    (l.set i v).sum + l.getD i 0 = l.sum + v := by
  induction l generalizing i with
  | nil => simp at h
  | cons a t ih =>
    cases i with
    | zero => simp; omega
    | succ i =>
      have h2 : i < t.length := by simpa using h
      have := ih i h2
      simp only [List.set_cons_succ, List.sum_cons, List.getD_cons_succ]
      omega

theorem getD_le_sum (l : List Nat) (i : Nat) : l.getD i 0 ≤ l.sum := by
  by_cases h : i < l.length
  · have := sum_set_add l i 0 h
    omega
  · simp [List.getD_eq_getElem?_getD, List.getElem?_eq_none (Nat.le_of_not_lt h)]

theorem getD_add_le_sum (l : List Nat) (i j : Nat) (hij : i ≠ j) (hi : i < l.length) :
    l.getD i 0 + l.getD j 0 ≤ l.sum := by
  have h1 := sum_set_add l i 0 hi
  have h2 := getD_le_sum (l.set i 0) j
  rw [getD_set_ne _ _ _ _ hij] at h2
  omega

theorem getD_add_add_le_sum (l : List Nat) (i j k : Nat) (hij : i ≠ j) (hik : i ≠ k)
    (hjk : j ≠ k) (hi : i < l.length) (hj : j < l.length) :
    l.getD i 0 + l.getD j 0 + l.getD k 0 ≤ l.sum := by
  have h1 := sum_set_add l i 0 hi
  have h2 := getD_add_le_sum (l.set i 0) j k hjk (by simpa using hj)
  rw [getD_set_ne _ _ _ _ hij, getD_set_ne _ _ _ _ hik] at h2
  omega

/-- Clearing one counted entry lowers a count by one. -/
theorem countP_remove (l : List Nat) (p q : Nat → Bool) (k : Nat) (hnd : l.Nodup)
    (hk : k ∈ l) (hpk : p k = true) (hqk : q k = false) (hpq : ∀ i, i ≠ k → q i = p i) :
    l.countP q + 1 = l.countP p := by
  induction l with
  | nil => simp at hk
  | cons a t ih =>
    rw [List.nodup_cons] at hnd
    by_cases hak : a = k
    · subst hak
      have : t.countP q = t.countP p := by
        apply List.countP_congr
        intro x hx
        have : x ≠ a := fun h => hnd.1 (h ▸ hx)
        rw [hpq x this]
      simp [List.countP_cons, hpk, hqk, this]
    · have hk2 : k ∈ t := by
        rcases List.mem_cons.1 hk with h | h
        · exact absurd h.symm hak
        · exact h
      have := ih hnd.2 hk2
      simp only [List.countP_cons, hpq a hak]
      omega

theorem countP_same (l : List Nat) (p q : Nat → Bool) (hpq : ∀ i ∈ l, q i = p i) :
    l.countP q = l.countP p := by
  apply List.countP_congr
  intro x hx
  rw [hpq x hx]


/-! ### The rank table -/

theorem mapC64Closest_lt :
    ∀ m < 16, ∀ i < 15, mapC64Closest.getD (m * 16 + i) 0 < 16 := by
  decide!

theorem mapC64Closest_complete :
    ∀ m < 16, ∀ j < 16, j ≠ m → ∃ i < 15, mapC64Closest.getD (m * 16 + i) 0 = j := by
  decide!

/-! ### The loops of the reduction -/

theorem foldl_filter_if {α : Type} (p : Nat → Prop) [DecidablePred p] (f : α → Nat → α)
    (l : List Nat) (r0 : α) :
    l.foldl (fun r i => if p i then f r i else r) r0 = (l.filter (fun i => decide (p i))).foldl f r0 := by
  induction l generalizing r0 with
  | nil => rfl
  | cons a t ih =>
    by_cases h : p a
    · simp [List.filter_cons, h, ih]
    · simp [List.filter_cons, h, ih]

theorem findMin_aux (h : List Nat) (n : Nat) :
    let mv := (List.range n).foldl
      (fun mv i => if h.getD i 0 ≠ 0 ∧ h.getD i 0 < mv.1 then (h.getD i 0, i) else mv)
      ((256, 255) : Nat × Nat)
    (mv = (256, 255) ∧ ∀ i < n, h.getD i 0 = 0 ∨ 256 ≤ h.getD i 0) ∨
    (mv.2 < n ∧ h.getD mv.2 0 = mv.1 ∧ mv.1 ≠ 0 ∧ mv.1 < 256 ∧
      ∀ i < n, h.getD i 0 ≠ 0 → mv.1 ≤ h.getD i 0) := by
  induction n with
  | zero => left; simp
  | succ n ih =>
    simp only [List.range_succ, List.foldl_append, List.foldl_cons, List.foldl_nil]
    generalize (List.range n).foldl
      (fun mv i => if h.getD i 0 ≠ 0 ∧ h.getD i 0 < mv.1 then (h.getD i 0, i) else mv)
      ((256, 255) : Nat × Nat) = mv at ih ⊢
    rcases ih with ⟨hmv, hall⟩ | ⟨h1, h2, h3, h4, h5⟩
    · subst hmv
      by_cases hc : h.getD n 0 ≠ 0 ∧ h.getD n 0 < 256
      · right
        rw [if_pos hc]
        refine ⟨by omega, rfl, hc.1, hc.2, ?_⟩
        intro i hi hne
        rcases Nat.lt_succ_iff_lt_or_eq.1 hi with hlt | heq
        · rcases hall i hlt with h0 | h0
          · exact absurd h0 hne
          · omega
        · subst heq; exact le_refl _
      · left
        rw [if_neg hc]; refine ⟨rfl, ?_⟩
        intro i hi
        rcases Nat.lt_succ_iff_lt_or_eq.1 hi with hlt | heq
        · exact hall i hlt
        · subst heq
          by_cases hz : h.getD i 0 = 0
          · exact Or.inl hz
          · right
            by_contra hlt
            exact hc ⟨hz, by omega⟩
    · right
      by_cases hc : h.getD n 0 ≠ 0 ∧ h.getD n 0 < mv.1
      · rw [if_pos hc]
        refine ⟨by omega, rfl, hc.1, by omega, ?_⟩
        intro i hi hne
        rcases Nat.lt_succ_iff_lt_or_eq.1 hi with hlt | heq
        · have := h5 i hlt hne
          omega
        · subst heq; exact le_refl _
      · rw [if_neg hc]
        refine ⟨by omega, h2, h3, h4, ?_⟩
        intro i hi hne
        rcases Nat.lt_succ_iff_lt_or_eq.1 hi with hlt | heq
        · exact h5 i hlt hne
        · subst heq
          by_contra hlt
          exact hc ⟨hne, by omega⟩

/-- When some bin is non-zero (and fits a byte), `findMin` returns the index of
a smallest non-zero bin. -/
theorem findMin_spec (h : List Nat) (hex : ∃ i < 16, h.getD i 0 ≠ 0 ∧ h.getD i 0 < 256) :
    (findMin h).2 < 16 ∧ h.getD (findMin h).2 0 ≠ 0 ∧ (findMin h).1 = h.getD (findMin h).2 0 ∧
      ∀ i < 16, h.getD i 0 ≠ 0 → h.getD (findMin h).2 0 ≤ h.getD i 0 := by
  have := findMin_aux h 16
  simp only at this
  unfold findMin
  rcases this with ⟨_, hall⟩ | ⟨h1, h2, h3, _, h5⟩
  · obtain ⟨i, hi, hne, hlt⟩ := hex
    rcases hall i hi with h0 | h0
    · exact absurd h0 hne
    · omega
  · refine ⟨h1, ?_, h2.symm, ?_⟩
    · rw [h2]; exact h3
    · rw [h2]; exact h5

theorem findCandidate_spec (h : List Nat) (m : Nat) (fuel i : Nat)
    (hex : ∃ j, i ≤ j ∧ j < 15 ∧ j < i + fuel ∧
      h.getD (mapC64Closest.getD (m * 16 + j) 0) 0 ≠ 0) :
    i ≤ findCandidate h m fuel i ∧ findCandidate h m fuel i < 15 ∧
      h.getD (mapC64Closest.getD (m * 16 + findCandidate h m fuel i) 0) 0 ≠ 0 ∧
      ∀ j, i ≤ j → j < findCandidate h m fuel i →
        h.getD (mapC64Closest.getD (m * 16 + j) 0) 0 = 0 := by
  induction fuel generalizing i with
  | zero =>
    obtain ⟨j, h1, _, h3, _⟩ := hex
    omega
  | succ fuel ih =>
    obtain ⟨j, h1, h2, h3, h4⟩ := hex
    unfold findCandidate
    by_cases hc : i < 15 ∧ h.getD (mapC64Closest.getD (m * 16 + i) 0) 0 = 0
    · rw [if_pos hc]
      have hij : i ≠ j := by
        intro e; subst e; exact h4 hc.2
      obtain ⟨a, b, c, d⟩ := ih (i + 1) ⟨j, by omega, h2, by omega, h4⟩
      refine ⟨by omega, b, c, ?_⟩
      intro k hk1 hk2
      rcases Nat.eq_or_lt_of_le hk1 with e | e
      · subst e; exact hc.2
      · exact d k e hk2
    · rw [if_neg hc]
      have hi : i < 15 := by omega
      refine ⟨le_refl _, hi, ?_, ?_⟩
      · intro e; exact hc ⟨hi, e⟩
      · intro k hk1 hk2; omega

theorem remap_aux (c : Nat → Prop) [DecidablePred c] (k t : Nat) (m0 : List Nat) (n : Nat) :
    let m := (List.range n).foldl
      (fun m j => if c j ∧ m.getD j 0 = k then m.set j t else m) m0
    m.length = m0.length ∧ ∀ x, m.getD x 0 =
      if x < n ∧ x < m0.length ∧ c x ∧ m0.getD x 0 = k then t else m0.getD x 0 := by
  induction n with
  | zero => simp
  | succ n ih =>
    simp only [List.range_succ, List.foldl_append, List.foldl_cons, List.foldl_nil]
    generalize (List.range n).foldl
      (fun m j => if c j ∧ m.getD j 0 = k then m.set j t else m) m0 = m at ih ⊢
    obtain ⟨hl, hg⟩ := ih
    have hn := hg n
    simp only [lt_irrefl, false_and, if_false] at hn
    by_cases hc : c n ∧ m.getD n 0 = k
    · rw [if_pos hc, List.length_set]
      refine ⟨hl, ?_⟩
      intro x
      rw [getD_set, hg x, hl]
      by_cases hx : n = x
      · subst hx
        by_cases hlen : n < m0.length
        · have : m0.getD n 0 = k := by rw [← hn]; exact hc.2
          rw [if_pos ⟨rfl, hlen⟩, if_pos ⟨Nat.lt_succ_self _, hlen, hc.1, this⟩]
        · have hz : m0.getD n 0 = 0 := by
            simp [List.getD_eq_getElem?_getD, List.getElem?_eq_none (Nat.le_of_not_lt hlen)]
          have h2 : ¬ (n = n ∧ n < m0.length) := fun h => hlen h.2
          have h3 : ¬ (n < n ∧ n < m0.length ∧ c n ∧ m0.getD n 0 = k) := fun h => hlen h.2.1
          have h4 : ¬ (n < n + 1 ∧ n < m0.length ∧ c n ∧ m0.getD n 0 = k) := fun h => hlen h.2.1
          rw [if_neg h2, if_neg h3, if_neg h4]
      · have h1 : (x < n + 1) = (x < n) := by
          apply propext; constructor <;> intro h <;> omega
        simp only [hx, false_and, if_false, h1]
    · rw [if_neg hc]
      refine ⟨hl, ?_⟩
      intro x
      rw [hg x]
      by_cases hx : x = n
      · subst hx
        have : ¬ (c x ∧ m0.getD x 0 = k) := by rw [← hn]; exact hc
        have h2 : ¬ (x < x ∧ x < m0.length ∧ c x ∧ m0.getD x 0 = k) := by
          intro h; omega
        have h3 : ¬ (x < x + 1 ∧ x < m0.length ∧ c x ∧ m0.getD x 0 = k) := by
          intro h; exact this ⟨h.2.2.1, h.2.2.2⟩
        simp only [h2, h3, if_false]
      · have h1 : (x < n + 1) = (x < n) := by
          apply propext; constructor <;> intro h <;> omega
        simp only [h1]

theorem exists_of_countP_pos (l : List Nat) (p : Nat → Bool) (h : 0 < l.countP p) :
    ∃ a ∈ l, p a = true := by
  rw [List.countP_pos_iff] at h
  exact h

theorem exists_three_of_countP (l : List Nat) (p : Nat → Bool) (hnd : l.Nodup)
    (h : 3 ≤ l.countP p) :
    ∃ a b c, a ∈ l ∧ b ∈ l ∧ c ∈ l ∧ a ≠ b ∧ a ≠ c ∧ b ≠ c ∧
      p a = true ∧ p b = true ∧ p c = true := by
  obtain ⟨a, ha, hpa⟩ := exists_of_countP_pos l p (by omega)
  have h1 := countP_remove l p (fun i => p i && (i != a)) a hnd ha hpa (by simp)
    (by intro i hi; simp [hi])
  obtain ⟨b, hb, hpb⟩ := exists_of_countP_pos l (fun i => p i && (i != a)) (by omega)
  have h2 := countP_remove l (fun i => p i && (i != a)) (fun i => (p i && (i != a)) && (i != b))
    b hnd hb hpb (by simp) (by intro i hi; simp [hi])
  obtain ⟨c, hc, hpc⟩ := exists_of_countP_pos l (fun i => (p i && (i != a)) && (i != b))
    (by omega)
  simp only [Bool.and_eq_true, bne_iff_ne, ne_eq] at hpb hpc
  exact ⟨a, b, c, ha, hb, hc, fun e => hpb.2 e.symm, fun e => hpc.1.2 e.symm,
    fun e => hpc.2 e.symm, hpa, hpb.1, hpc.1.1⟩

/-- What one reduction step does, when the loop invariant holds and more than
four bins are non-zero. -/
theorem reduceStep_spec (bg : Nat) (h0 : List Nat) (s : ReduceState)
    (inv : ReduceInv bg h0 s) (hn : 4 < s.nColors) :
    stepMinIdx s < 16 ∧ stepMinIdx s ≠ bg ∧ s.histo.getD (stepMinIdx s) 0 ≠ 0 ∧
    (∀ i < 16, s.histo.getD i 0 ≠ 0 → s.histo.getD (stepMinIdx s) 0 ≤ s.histo.getD i 0) ∧
    stepCandidate s < 15 ∧ stepTarget s < 16 ∧ stepTarget s ≠ stepMinIdx s ∧
    s.histo.getD (stepTarget s) 0 ≠ 0 ∧
    (∀ j, j < stepCandidate s →
      s.histo.getD (mapC64Closest.getD (stepMinIdx s * 16 + j) 0) 0 = 0 ∨
      mapC64Closest.getD (stepMinIdx s * 16 + j) 0 = stepMinIdx s) ∧
    (reduceStep s).nColors = s.nColors - 1 ∧
    (reduceStep s).histo.length = 16 ∧ (reduceStep s).map.length = 16 ∧
    (reduceStep s).histo.sum = s.histo.sum ∧
    (∀ j, (reduceStep s).histo.getD j 0 =
      if j = stepMinIdx s then 0
      else if j = stepTarget s then s.histo.getD (stepTarget s) 0 + s.histo.getD (stepMinIdx s) 0
      else s.histo.getD j 0) ∧
    (∀ j < 16, (reduceStep s).map.getD j 0 =
      if j = stepMinIdx s then stepTarget s
      else if s.histo.getD j 0 = 0 ∧ s.map.getD j 0 = stepMinIdx s then stepTarget s
      else s.map.getD j 0) := by
  have hnd : (List.range 16).Nodup := List.nodup_range 16
  have hcnt : 3 ≤ (List.range 16).countP (fun i => s.histo.getD i 0 != 0) := by
    have := inv.cnt; unfold countColors at this; omega
  obtain ⟨a, b, c, ha, hb, hc, hab, hac, hbc, hpa, hpb, hpc⟩ :=
    exists_three_of_countP _ _ hnd hcnt
  simp only [List.mem_range] at ha hb hc
  simp only [bne_iff_ne, ne_eq] at hpa hpb hpc
  have hle : ∀ i, s.histo.getD i 0 ≤ 64 := fun i =>
    le_trans (getD_le_sum s.histo i) inv.sum
  obtain ⟨m1, m2, _, m4⟩ := findMin_spec s.histo ⟨a, ha, hpa, by have := hle a; omega⟩
  have hmbg : stepMinIdx s ≠ bg := by
    intro e
    have e2 : (findMin s.histo).2 = bg := e
    rw [e2] at m4
    have ka := m4 a ha hpa
    have kb := m4 b hb hpb
    have kc := m4 c hc hpc
    have ks := getD_add_add_le_sum s.histo a b c hab hac hbc (by rw [inv.hlen]; exact ha)
      (by rw [inv.hlen]; exact hb)
    have := inv.bgk
    have := inv.sum
    omega
  -- a non-zero bin other than the removed one
  have hother : ∃ x < 16, x ≠ stepMinIdx s ∧ s.histo.getD x 0 ≠ 0 := by
    by_cases e : a = stepMinIdx s
    · exact ⟨b, hb, fun e2 => hab (e.trans e2.symm), hpb⟩
    · exact ⟨a, ha, e, hpa⟩
  obtain ⟨x, hx, hxm, hxp⟩ := hother
  obtain ⟨i0, hi0, hi0x⟩ := mapC64Closest_complete (stepMinIdx s) m1 x hx hxm
  have hcand := findCandidate_spec (s.histo.set (stepMinIdx s) 0) (stepMinIdx s) 15 0
    ⟨i0, Nat.zero_le _, hi0, by omega, by rw [hi0x, getD_set_ne _ _ _ _ (Ne.symm hxm)]; exact hxp⟩
  obtain ⟨_, c2, c3, c4⟩ := hcand
  have ht16 : stepTarget s < 16 := mapC64Closest_lt (stepMinIdx s) m1 _ c2
  have htm : stepTarget s ≠ stepMinIdx s := by
    intro e
    apply c3
    have e2 : mapC64Closest.getD (stepMinIdx s * 16 + stepCandidate s) 0 = stepMinIdx s := e
    have e3 : findCandidate (s.histo.set (stepMinIdx s) 0) (stepMinIdx s) 15 0 = stepCandidate s := rfl
    rw [e3, e2, getD_set_self _ _ _ (by rw [inv.hlen]; exact m1)]
  have htp : s.histo.getD (stepTarget s) 0 ≠ 0 := by
    have e3 : findCandidate (s.histo.set (stepMinIdx s) 0) (stepMinIdx s) 15 0 = stepCandidate s := rfl
    rw [e3] at c3
    have : (s.histo.set (stepMinIdx s) 0).getD (stepTarget s) 0 = s.histo.getD (stepTarget s) 0 :=
      getD_set_ne _ _ _ _ (Ne.symm htm)
    rw [← this]; exact c3
  have hnowrap : (s.histo.getD (stepTarget s) 0 + s.histo.getD (stepMinIdx s) 0) % 256 =
      s.histo.getD (stepTarget s) 0 + s.histo.getD (stepMinIdx s) 0 := by
    apply Nat.mod_eq_of_lt
    have := getD_add_le_sum s.histo (stepTarget s) (stepMinIdx s) htm (by rw [inv.hlen]; exact ht16)
    have := inv.sum
    omega
  have hstep : reduceStep s =
      { histo := (s.histo.set (stepMinIdx s) 0).set (stepTarget s)
          (((s.histo.set (stepMinIdx s) 0).getD (stepTarget s) 0 +
            s.histo.getD (stepMinIdx s) 0) % 256)
        map := (List.range 16).foldl
          (fun m j => if (s.histo.set (stepMinIdx s) 0).getD j 0 = 0 ∧ m.getD j 0 = stepMinIdx s
            then m.set j (stepTarget s) else m) (s.map.set (stepMinIdx s) (stepTarget s))
        nColors := s.nColors - 1 } := rfl
  have hmap := remap_aux (fun j => (s.histo.set (stepMinIdx s) 0).getD j 0 = 0) (stepMinIdx s)
    (stepTarget s) (s.map.set (stepMinIdx s) (stepTarget s)) 16
  simp only at hmap
  refine ⟨m1, hmbg, m2, m4, c2, ht16, htm, htp, ?_, by rw [hstep], ?_, ?_, ?_, ?_, ?_⟩
  · intro j hj
    have := c4 j (Nat.zero_le _) hj
    by_cases e : mapC64Closest.getD (stepMinIdx s * 16 + j) 0 = stepMinIdx s
    · exact Or.inr e
    · left
      rw [getD_set_ne _ _ _ _ (Ne.symm e)] at this
      exact this
  · rw [hstep]; simp [inv.hlen]
  · rw [hstep]; simp only; rw [hmap.1]; simp [inv.mlen]
  · rw [hstep]; simp only
    rw [getD_set_ne _ _ _ _ (Ne.symm htm), hnowrap]
    have k1 := sum_set_add s.histo (stepMinIdx s) 0 (by rw [inv.hlen]; exact m1)
    have k2 := sum_set_add (s.histo.set (stepMinIdx s) 0) (stepTarget s)
      (s.histo.getD (stepTarget s) 0 + s.histo.getD (stepMinIdx s) 0)
      (by rw [List.length_set, inv.hlen]; exact ht16)
    rw [getD_set_ne _ _ _ _ (Ne.symm htm)] at k2
    omega
  · intro j
    rw [hstep]; simp only
    rw [getD_set, getD_set_ne _ _ _ _ (Ne.symm htm), hnowrap, getD_set, List.length_set,
      inv.hlen]
    by_cases e1 : j = stepMinIdx s
    · subst e1
      rw [if_neg (fun h => htm h.1), if_pos ⟨rfl, m1⟩, if_pos rfl]
    · by_cases e2 : j = stepTarget s
      · subst e2
        rw [if_pos ⟨rfl, ht16⟩, if_neg e1, if_pos rfl]
      · rw [if_neg (fun h => e2 h.1.symm), if_neg (fun h => e1 h.1.symm), if_neg e1, if_neg e2]
  · intro j hj
    rw [hstep]; simp only
    rw [hmap.2 j]
    have hl : (s.map.set (stepMinIdx s) (stepTarget s)).length = 16 := by simp [inv.mlen]
    by_cases e1 : j = stepMinIdx s
    · subst e1
      have hm : (s.map.set (stepMinIdx s) (stepTarget s)).getD (stepMinIdx s) 0 = stepTarget s :=
        getD_set_self _ _ _ (by rw [inv.mlen]; exact m1)
      rw [hm, if_pos rfl]
      split <;> rfl
    · have hm : (s.map.set (stepMinIdx s) (stepTarget s)).getD j 0 = s.map.getD j 0 :=
        getD_set_ne _ _ _ _ (Ne.symm e1)
      have hh : (s.histo.set (stepMinIdx s) 0).getD j 0 = s.histo.getD j 0 :=
        getD_set_ne _ _ _ _ (Ne.symm e1)
      rw [hm, hh, hl, if_neg e1]
      by_cases e2 : s.histo.getD j 0 = 0 ∧ s.map.getD j 0 = stepMinIdx s
      · rw [if_pos ⟨hj, hj, e2.1, e2.2⟩, if_pos e2]
      · rw [if_neg (fun h => e2 ⟨h.2.2.1, h.2.2.2⟩), if_neg e2]

/-- The loop invariant is preserved by a reduction step. -/
theorem reduceStep_inv (bg : Nat) (h0 : List Nat) (s : ReduceState)
    (inv : ReduceInv bg h0 s) (hn : 4 < s.nColors) : ReduceInv bg h0 (reduceStep s) := by
  obtain ⟨m1, hmbg, m2, _, _, ht16, htm, htp, _, hnc, hl, ml, hsum, hh, hm⟩ :=
    reduceStep_spec bg h0 s inv hn
  have hnz : ∀ j, (reduceStep s).histo.getD j 0 ≠ 0 ↔ (j ≠ stepMinIdx s ∧ s.histo.getD j 0 ≠ 0) := by
    intro j
    rw [hh j]
    by_cases e1 : j = stepMinIdx s
    · simp [e1]
    · by_cases e2 : j = stepTarget s
      · rw [if_neg e1, if_pos e2, e2]
        constructor
        · intro _; exact ⟨htm, htp⟩
        · intro _; omega
      · rw [if_neg e1, if_neg e2]
        constructor
        · intro h; exact ⟨e1, h⟩
        · intro h; exact h.2
  refine ⟨hl, ml, ?_, ?_, ?_, ?_, ?_⟩
  · intro j hj hne
    obtain ⟨e1, e2⟩ := (hnz j).1 hne
    rw [hm j hj, if_neg e1, if_neg (fun h => e2 h.1)]
    exact inv.fix j hj e2
  · intro j hj hne
    obtain ⟨k1, k2⟩ := inv.live j hj hne
    rw [hm j hj]
    by_cases e1 : j = stepMinIdx s
    · rw [if_pos e1]
      exact ⟨ht16, (hnz _).2 ⟨htm, htp⟩⟩
    · rw [if_neg e1]
      by_cases e2 : s.histo.getD j 0 = 0 ∧ s.map.getD j 0 = stepMinIdx s
      · rw [if_pos e2]
        exact ⟨ht16, (hnz _).2 ⟨htm, htp⟩⟩
      · rw [if_neg e2]
        refine ⟨k1, (hnz _).2 ⟨?_, k2⟩⟩
        intro e3
        by_cases e4 : s.histo.getD j 0 = 0
        · exact e2 ⟨e4, e3⟩
        · have := inv.fix j hj e4
          rw [this] at e3
          exact e1 e3
  · rw [hnc, inv.cnt]
    unfold countColors
    have := countP_remove (List.range 16) (fun i => s.histo.getD i 0 != 0)
      (fun i => (reduceStep s).histo.getD i 0 != 0) (stepMinIdx s) (List.nodup_range 16)
      (List.mem_range.2 m1) (bne_iff_ne.2 m2)
      (by show ((reduceStep s).histo.getD (stepMinIdx s) 0 != 0) = false
          rw [hh, if_pos rfl]; rfl)
      (by
        intro i hi
        show ((reduceStep s).histo.getD i 0 != 0) = (s.histo.getD i 0 != 0)
        by_cases e : s.histo.getD i 0 = 0
        · have h2 : (reduceStep s).histo.getD i 0 = 0 := by
            by_contra h3
            exact ((hnz i).1 h3).2 e
          rw [e, h2]
        · have h2 : (reduceStep s).histo.getD i 0 ≠ 0 := (hnz i).2 ⟨hi, e⟩
          rw [bne_iff_ne.2 h2, bne_iff_ne.2 e])
    omega
  · rw [hsum]; exact inv.sum
  · rw [hh bg, if_neg (Ne.symm hmbg)]
    have := inv.bgk
    by_cases e : bg = stepTarget s
    · rw [if_pos e, ← e]; omega
    · rw [if_neg e]; exact this

theorem buildHisto_aux (l : List Nat) (acc : List Nat) (hacc : acc.length = 16)
    (hl : ∀ c ∈ l, c < 16) (hs : acc.sum + l.length ≤ 255) :
    (l.foldl (fun h c => h.set c ((h.getD c 0 + 1) % 256)) acc).length = 16 ∧
    (l.foldl (fun h c => h.set c ((h.getD c 0 + 1) % 256)) acc).sum = acc.sum + l.length ∧
    ∀ j, acc.getD j 0 ≤ (l.foldl (fun h c => h.set c ((h.getD c 0 + 1) % 256)) acc).getD j 0 ∧
      (j ∈ l → acc.getD j 0 < (l.foldl (fun h c => h.set c ((h.getD c 0 + 1) % 256)) acc).getD j 0) := by
  induction l generalizing acc with
  | nil => simp [hacc]
  | cons a t ih =>
    simp only [List.foldl_cons]
    have ha : a < 16 := hl a (List.mem_cons_self _ _)
    have hle := getD_le_sum acc a
    simp only [List.length_cons] at hs
    have hmod : (acc.getD a 0 + 1) % 256 = acc.getD a 0 + 1 := Nat.mod_eq_of_lt (by omega)
    rw [hmod]
    have hsum := sum_set_add acc a (acc.getD a 0 + 1) (by rw [hacc]; exact ha)
    obtain ⟨i1, i2, i3⟩ := ih (acc.set a (acc.getD a 0 + 1)) (by simp [hacc])
      (fun c hc => hl c (List.mem_cons_of_mem _ hc)) (by omega)
    refine ⟨i1, by rw [i2, List.length_cons]; omega, ?_⟩
    intro j
    obtain ⟨j1, j2⟩ := i3 j
    rw [getD_set] at j1 j2
    by_cases e : a = j
    · subst e
      rw [if_pos ⟨rfl, by rw [hacc]; exact ha⟩] at j1 j2
      exact ⟨by omega, fun _ => by omega⟩
    · rw [if_neg (fun h => e h.1)] at j1 j2
      refine ⟨j1, fun hj => ?_⟩
      rcases List.mem_cons.1 hj with h | h
      · exact absurd h.symm e
      · exact j2 h

/-- The histogram of a valid block: 16 bins that add up to 32, with a non-zero
bin for every colour that occurs. -/
theorem buildHisto_spec (blockColors : List Nat) (hv : ValidBlock blockColors) :
    (buildHisto blockColors).length = 16 ∧ (buildHisto blockColors).sum = 32 ∧
    ∀ c ∈ blockColors, (buildHisto blockColors).getD c 0 ≠ 0 := by
  have h := buildHisto_aux blockColors (List.replicate 16 0) (by simp) hv.2
    (by rw [hv.1]; simp)
  refine ⟨h.1, ?_, ?_⟩
  · have := h.2.1
    rw [hv.1] at this
    unfold buildHisto
    rw [this]; simp
  · intro c hc
    have := (h.2.2 c).2 hc
    unfold buildHisto
    omega

theorem range_getD (n j : Nat) (h : j < n) : (List.range n).getD j 0 = j := by
  simp [List.getD_eq_getElem?_getD, List.getElem?_range h]

/-- The invariant holds on entry to the reduction loop. -/
theorem reduceInit_inv (bg : Nat) (blockColors : List Nat) (hbg : bg < 16)
    (hv : ValidBlock blockColors) :
    ReduceInv bg (reduceInit bg blockColors).histo (reduceInit bg blockColors) := by
  obtain ⟨b1, b2, _⟩ := buildHisto_spec blockColors hv
  have hs := sum_set_add (buildHisto blockColors) bg 32 (by rw [b1]; exact hbg)
  refine ⟨by simp [reduceInit, b1], by simp [reduceInit], ?_, ?_, rfl, ?_, ?_⟩
  · intro j hj _
    exact range_getD 16 j hj
  · intro j hj hne
    have : (reduceInit bg blockColors).map.getD j 0 = j := range_getD 16 j hj
    rw [this]
    exact ⟨hj, hne⟩
  · show ((buildHisto blockColors).set bg 32).sum ≤ 64
    omega
  · show 32 ≤ ((buildHisto blockColors).set bg 32).getD bg 0
    rw [getD_set_self _ _ _ (by rw [b1]; exact hbg)]

theorem countColors_le (h : List Nat) : countColors h ≤ 16 := by
  unfold countColors
  have := List.countP_le_length (fun i => h.getD i 0 != 0) (l := List.range 16)
  simpa using this

theorem reduceLoop_inv (bg : Nat) (h0 : List Nat) (fuel : Nat) (s : ReduceState)
    (inv : ReduceInv bg h0 s) (hf : s.nColors ≤ fuel + 4) :
    ReduceInv bg h0 (reduceLoop fuel s) ∧ (reduceLoop fuel s).nColors ≤ 4 := by
  induction fuel generalizing s with
  | zero => exact ⟨inv, by simpa using hf⟩
  | succ fuel ih =>
    unfold reduceLoop
    by_cases hn : s.nColors > 4
    · rw [if_pos hn]
      have hnc : (reduceStep s).nColors = s.nColors - 1 := rfl
      exact ih (reduceStep s) (reduceStep_inv bg h0 s inv hn) (by rw [hnc]; omega)
    · rw [if_neg hn]
      exact ⟨inv, by omega⟩

/-- The reduction of a valid block ends with the loop condition false and the
invariant in force. -/
theorem reduceBlock_inv (bg : Nat) (blockColors : List Nat) (hbg : bg < 16)
    (hv : ValidBlock blockColors) :
    ReduceInv bg (reduceInit bg blockColors).histo (reduceBlock bg blockColors) ∧
      (reduceBlock bg blockColors).nColors ≤ 4 := by
  apply reduceLoop_inv
  · exact reduceInit_inv bg blockColors hbg hv
  · have := countColors_le (reduceInit bg blockColors).histo
    have h2 : (reduceInit bg blockColors).nColors = countColors (reduceInit bg blockColors).histo := rfl
    omega

/-- Every pixel colour of a valid block has a non-zero bin on entry to the
reduction loop. -/
theorem reduceInit_live (bg : Nat) (blockColors : List Nat) (hbg : bg < 16)
    (hv : ValidBlock blockColors) (c : Nat) (hc : c ∈ blockColors) :
    (reduceInit bg blockColors).histo.getD c 0 ≠ 0 := by
  obtain ⟨b1, _, b3⟩ := buildHisto_spec blockColors hv
  show ((buildHisto blockColors).set bg 32).getD c 0 ≠ 0
  rw [getD_set]
  by_cases e : bg = c
  · rw [if_pos ⟨e, by rw [b1]; exact hbg⟩]; omega
  · rw [if_neg (fun h => e h.1)]; exact b3 c hc

/-! ### Properties of the reduced block -/

/-- The colours with a non-zero bin, as a finite set. -/
theorem liveSet_card (h : List Nat) :
    ((List.range 16).filter (fun i => h.getD i 0 != 0)).toFinset.card ≤ countColors h := by
  unfold countColors
  rw [List.countP_eq_length_filter]
  exact List.toFinset_card_le _

theorem blockColors_getD_mem (blockColors : List Nat) (hv : ValidBlock blockColors) (k : Nat)
    (hk : k < 32) : blockColors.getD k 0 ∈ blockColors := by
  have hk2 : k < blockColors.length := by rw [hv.1]; exact hk
  rw [List.getD_eq_getElem _ _ hk2]
  exact List.getElem_mem hk2

/-- After the reduction every pixel of a valid block has a colour below 16
whose bin is non-zero. -/
theorem reducedColor_live (bg : Nat) (blockColors : List Nat) (hbg : bg < 16)
    (hv : ValidBlock blockColors) (k : Nat) (hk : k < 32) :
    reducedColor (reduceBlock bg blockColors) blockColors k < 16 ∧
      (reduceBlock bg blockColors).histo.getD
        (reducedColor (reduceBlock bg blockColors) blockColors k) 0 ≠ 0 := by
  obtain ⟨inv, _⟩ := reduceBlock_inv bg blockColors hbg hv
  have hm := blockColors_getD_mem blockColors hv k hk
  exact inv.live _ (hv.2 _ hm) (reduceInit_live bg blockColors hbg hv _ hm)

/-- C1: for every block of 32 palette indices and every background colour, the
reduction loop ends with its condition false, and the 32 reduced pixel colours
`map[ blockColors[ k ] ]` take at most 4 distinct values. -/
theorem reduced_colors_at_most_four (bgColor : Nat) (blockColors : List Nat)
    (hbg : bgColor < 16) (hv : ValidBlock blockColors) :
    (reduceBlock bgColor blockColors).nColors ≤ 4 ∧
    ((List.range 32).map
      (reducedColor (reduceBlock bgColor blockColors) blockColors)).toFinset.card ≤ 4 := by
  obtain ⟨inv, hn⟩ := reduceBlock_inv bgColor blockColors hbg hv
  refine ⟨hn, ?_⟩
  have hsub : ((List.range 32).map
      (reducedColor (reduceBlock bgColor blockColors) blockColors)).toFinset ⊆
      ((List.range 16).filter
        (fun i => (reduceBlock bgColor blockColors).histo.getD i 0 != 0)).toFinset := by
    intro c hc
    simp only [List.mem_toFinset, List.mem_map, List.mem_range] at hc
    obtain ⟨k, hk, rfl⟩ := hc
    obtain ⟨l1, l2⟩ := reducedColor_live bgColor blockColors hbg hv k hk
    simp only [List.mem_toFinset, List.mem_filter, List.mem_range, bne_iff_ne]
    exact ⟨l1, l2⟩
  have h1 := Finset.card_le_card hsub
  have h2 := liveSet_card (reduceBlock bgColor blockColors).histo
  have h3 := inv.cnt
  omega

theorem reduced_colors_at_most_four_witness :
    (1 < 16 ∧ ValidBlock sampleBlock) ∧
    ((reduceBlock 1 sampleBlock).nColors ≤ 4 ∧
    ((List.range 32).map (reducedColor (reduceBlock 1 sampleBlock) sampleBlock)).toFinset.card
      ≤ 4) :=
  ⟨by decide, reduced_colors_at_most_four 1 sampleBlock (by decide) (by decide)⟩

/-- C2 as stated fails: in a block whose 32 pixels all have colour 1, encoded
with background colour 0, no pixel has the background colour after reduction. -/
theorem background_not_always_used :
    ValidBlock (List.replicate 32 1) ∧
    ¬ ∃ k, k < 32 ∧
      reducedColor (reduceBlock 0 (List.replicate 32 1)) (List.replicate 32 1) k = 0 := by
  decide!

/-- C2, amended: the background colour keeps a non-zero bin through the
reduction and is mapped to itself, so it is one of the at most four colours
left to the block: the reduced pixel colours together with the background
colour are at most 4 distinct values, and a pixel of background colour exists
after the reduction whenever the block had one before it. -/
theorem background_among_retained (bgColor : Nat) (blockColors : List Nat)
    (hbg : bgColor < 16) (hv : ValidBlock blockColors) :
    (reduceBlock bgColor blockColors).histo.getD bgColor 0 ≠ 0 ∧
    (reduceBlock bgColor blockColors).map.getD bgColor 0 = bgColor ∧
    (insert bgColor ((List.range 32).map
      (reducedColor (reduceBlock bgColor blockColors) blockColors)).toFinset).card ≤ 4 ∧
    (∀ k, k < 32 → blockColors.getD k 0 = bgColor →
      reducedColor (reduceBlock bgColor blockColors) blockColors k = bgColor) := by
  obtain ⟨inv, hn⟩ := reduceBlock_inv bgColor blockColors hbg hv
  have hb : (reduceBlock bgColor blockColors).histo.getD bgColor 0 ≠ 0 := by
    have := inv.bgk; omega
  have hfix := inv.fix bgColor hbg hb
  refine ⟨hb, hfix, ?_, ?_⟩
  · have hsub : insert bgColor ((List.range 32).map
        (reducedColor (reduceBlock bgColor blockColors) blockColors)).toFinset ⊆
        ((List.range 16).filter
          (fun i => (reduceBlock bgColor blockColors).histo.getD i 0 != 0)).toFinset := by
      intro c hc
      rw [Finset.mem_insert] at hc
      simp only [List.mem_toFinset, List.mem_filter, List.mem_range, bne_iff_ne]
      rcases hc with rfl | hc
      · exact ⟨hbg, hb⟩
      · simp only [List.mem_toFinset, List.mem_map, List.mem_range] at hc
        obtain ⟨k, hk, rfl⟩ := hc
        exact reducedColor_live bgColor blockColors hbg hv k hk
    have h1 := Finset.card_le_card hsub
    have h2 := liveSet_card (reduceBlock bgColor blockColors).histo
    have h3 := inv.cnt
    omega
  · intro k _ hk
    unfold reducedColor
    rw [hk]; exact hfix

theorem background_among_retained_witness :
    (0 < 16 ∧ ValidBlock (List.replicate 32 1)) ∧
    ((reduceBlock 0 (List.replicate 32 1)).histo.getD 0 0 ≠ 0 ∧
    (reduceBlock 0 (List.replicate 32 1)).map.getD 0 0 = 0 ∧
    (insert 0 ((List.range 32).map
      (reducedColor (reduceBlock 0 (List.replicate 32 1)) (List.replicate 32 1))).toFinset).card
        ≤ 4 ∧
    (∀ k, k < 32 → (List.replicate 32 1).getD k 0 = 0 →
      reducedColor (reduceBlock 0 (List.replicate 32 1)) (List.replicate 32 1) k = 0)) :=
  ⟨by decide, background_among_retained 0 (List.replicate 32 1) (by decide) (by decide)⟩

/-! ### Register assignment and pixel codes -/

theorem nibbles_of_pair :
    ∀ b < 16, ∀ c < 16,
      (((0 ||| b) % 256 ||| (c <<< 4)) % 256) &&& 15 = b ∧
      (((0 ||| b) % 256 ||| (c <<< 4)) % 256) >>> 4 = c ∧
      ((0 ||| b) % 256) &&& 15 = b := by
  decide

theorem pixelCode_pack :
    ∀ p0 < 4, ∀ p1 < 4, ∀ p2 < 4, ∀ p3 < 4, ∀ a < 4,
      pixelCode (((((((((0 <<< 2) % 256) ||| p0) <<< 2) % 256 ||| p1) <<< 2) % 256 ||| p2) <<< 2)
        % 256 ||| p3) a = [p0, p1, p2, p3].getD a 0 := by
  decide

theorem pixelValue_lt (colorRAM screenRAM c : Nat) : pixelValue colorRAM screenRAM c < 4 := by
  unfold pixelValue
  split
  · omega
  · split
    · omega
    · split <;> omega

/-- Decoding the code of a colour gives the colour back, provided the colour
is the background or is held by one of the registers. -/
theorem decode_pixelValue (bg screenRAM colorRAM c : Nat)
    (h : c = bg ∨ c = colorRAM ∨ c = screenRAM &&& 15 ∨ c = screenRAM >>> 4) :
    decodePixel bg screenRAM colorRAM (pixelValue colorRAM screenRAM c) = c := by
  unfold pixelValue
  by_cases h1 : c = colorRAM
  · rw [if_pos h1]; simp [decodePixel, h1]
  · rw [if_neg h1]
    by_cases h2 : c = screenRAM &&& 15
    · rw [if_pos h2]; simp only [decodePixel]; simp; exact h2.symm
    · rw [if_neg h2]
      by_cases h3 : c = screenRAM >>> 4
      · rw [if_pos h3]; simp only [decodePixel]; simp; exact h3.symm
      · rw [if_neg h3]
        simp only [decodePixel]; simp
        rcases h with h | h | h | h
        · exact h.symm
        · exact absurd h h1
        · exact absurd h h2
        · exact absurd h h3

/-- The code stored for pixel `a` of row `c` is the code of its reduced
colour. -/
theorem pixelCode_bitmapRow (map blockColors : List Nat) (colorRAM screenRAM c a : Nat)
    (ha : a < 4) :
    pixelCode (bitmapRow map blockColors colorRAM screenRAM c) a =
      pixelValue colorRAM screenRAM (map.getD (blockColors.getD (a + c * 4) 0) 0) := by
  have hr : List.range 4 = [0, 1, 2, 3] := by decide
  unfold bitmapRow
  rw [hr]
  simp only [List.foldl_cons, List.foldl_nil]
  rw [pixelCode_pack _ (pixelValue_lt _ _ _) _ (pixelValue_lt _ _ _) _ (pixelValue_lt _ _ _) _
    (pixelValue_lt _ _ _) a ha]
  have : a = 0 ∨ a = 1 ∨ a = 2 ∨ a = 3 := by omega
  rcases this with rfl | rfl | rfl | rfl <;> rfl

/-- The assignment loop run on the list of colours that pass its test. -/
theorem assignRegs_eq (bg prev : Nat) (histo : List Nat) :
    assignRegs bg prev histo =
      ((List.range 16).filter (fun i => decide (i ≠ bg ∧
        (if (prev != bg && histo.getD prev 0 != 0) = true then histo.set prev 0
          else histo).getD i 0 ≠ 0))).foldl assignColor
        (if (prev != bg && histo.getD prev 0 != 0) = true then
          { w := 1, screenRAM := 0, colorRAM := prev }
         else { w := 0, screenRAM := 0, colorRAM := 0 }) := by
  unfold assignRegs
  simp only
  rw [foldl_filter_if]

/-- With no register taken, up to three colours all end up in a register. -/
theorem assign_from_zero (l : List Nat) (hlen : l.length ≤ 3) (hl : ∀ c ∈ l, c < 16)
    (c : Nat) (hc : c ∈ l) :
    let r := l.foldl assignColor { w := 0, screenRAM := 0, colorRAM := 0 }
    c = r.colorRAM ∨ c = r.screenRAM &&& 15 ∨ c = r.screenRAM >>> 4 := by
  match l, hlen with
  | [], _ => simp at hc
  | [x], _ =>
    simp only [List.mem_singleton] at hc
    subst hc
    simp [assignColor]
  | [x, y], _ =>
    have hy := hl y (by simp)
    obtain ⟨_, _, n3⟩ := nibbles_of_pair y hy 0 (by omega)
    simp only [List.foldl_cons, List.foldl_nil, assignColor]
    simp only [List.mem_cons, List.mem_singleton, List.not_mem_nil, or_false] at hc
    rcases hc with rfl | rfl
    · left; simp
    · right; left; simp at n3 ⊢; omega
  | [x, y, z], _ =>
    have hy := hl y (by simp)
    have hz := hl z (by simp)
    obtain ⟨n1, n2, _⟩ := nibbles_of_pair y hy z hz
    simp only [List.foldl_cons, List.foldl_nil, assignColor]
    simp only [List.mem_cons, List.mem_singleton, List.not_mem_nil, or_false] at hc
    rcases hc with rfl | rfl | rfl
    · left; simp
    · right; left; simp at n1 ⊢; omega
    · right; right; simp at n2 ⊢; omega
  | _ :: _ :: _ :: _ :: _, h => simp at h

/-- With colour RAM taken, up to two colours end up in the screen register. -/
theorem assign_from_one (prev : Nat) (l : List Nat) (hlen : l.length ≤ 2)
    (hl : ∀ c ∈ l, c < 16) (c : Nat) (hc : c ∈ l) :
    let r := l.foldl assignColor { w := 1, screenRAM := 0, colorRAM := prev }
    r.colorRAM = prev ∧ (c = r.screenRAM &&& 15 ∨ c = r.screenRAM >>> 4) := by
  match l, hlen with
  | [], _ => simp at hc
  | [y], _ =>
    have hy := hl y (by simp)
    obtain ⟨_, _, n3⟩ := nibbles_of_pair y hy 0 (by omega)
    simp only [List.mem_singleton] at hc
    subst hc
    simp only [List.foldl_cons, List.foldl_nil, assignColor]
    refine ⟨by simp, ?_⟩
    left; simp at n3 ⊢; omega
  | [y, z], _ =>
    have hy := hl y (by simp)
    have hz := hl z (by simp)
    obtain ⟨n1, n2, _⟩ := nibbles_of_pair y hy z hz
    simp only [List.foldl_cons, List.foldl_nil, assignColor]
    simp only [List.mem_cons, List.mem_singleton, List.not_mem_nil, or_false] at hc
    refine ⟨by simp, ?_⟩
    rcases hc with rfl | rfl
    · left; simp at n1 ⊢; omega
    · right; simp at n2 ⊢; omega
  | _ :: _ :: _ :: _, h => simp at h

/-- Once colour RAM is taken the assignment loop leaves it alone. -/
theorem assign_keeps_colorRAM (l : List Nat) (r : Regs) (hw : 1 ≤ r.w) :
    (l.foldl assignColor r).colorRAM = r.colorRAM := by
  induction l generalizing r with
  | nil => rfl
  | cons a t ih =>
    simp only [List.foldl_cons]
    have h1 : 1 ≤ (assignColor r a).w ∧ (assignColor r a).colorRAM = r.colorRAM := by
      unfold assignColor
      split
      · exact ⟨by simp, rfl⟩
      · split
        · exact ⟨by simp, rfl⟩
        · split
          · omega
          · exact ⟨hw, rfl⟩
    rw [ih _ h1.1, h1.2]

theorem decide_and_ne {i bg : Nat} (h : i ≠ bg) (x : Nat) :
    decide (i ≠ bg ∧ x ≠ 0) = (x != 0) := by
  by_cases hx : x = 0
  · subst hx; simp
  · rw [decide_eq_true ⟨h, hx⟩, bne_iff_ne.2 hx]

/-- Every colour with a non-zero bin after the reduction is the background
colour or is held by one of the three registers. -/
theorem assignRegs_covers (bg prev : Nat) (histo : List Nat) (hbg : bg < 16) (hprev : prev < 16)
    (hlen : histo.length = 16) (hb : histo.getD bg 0 ≠ 0) (hcnt : countColors histo ≤ 4)
    (c : Nat) (hc : c < 16) (hne : histo.getD c 0 ≠ 0) :
    c = bg ∨ c = (assignRegs bg prev histo).colorRAM ∨
      c = (assignRegs bg prev histo).screenRAM &&& 15 ∨
      c = (assignRegs bg prev histo).screenRAM >>> 4 := by
  by_cases hcb : c = bg
  · exact Or.inl hcb
  right
  have hnd : (List.range 16).Nodup := List.nodup_range 16
  -- the colours other than the background with a non-zero bin
  have h3 : (List.range 16).countP (fun i => decide (i ≠ bg ∧ histo.getD i 0 ≠ 0)) + 1 =
      (List.range 16).countP (fun i => histo.getD i 0 != 0) :=
    countP_remove _ _ _ bg hnd (List.mem_range.2 hbg) (bne_iff_ne.2 hb)
      (decide_eq_false (fun h => h.1 rfl))
      (by intro i hi; exact decide_and_ne hi _)
  unfold countColors at hcnt
  rw [assignRegs_eq]
  by_cases hk : (prev != bg && histo.getD prev 0 != 0) = true
  · rw [if_pos hk, if_pos hk]
    simp only [Bool.and_eq_true, bne_iff_ne, ne_eq] at hk
    have h2 : (List.range 16).countP
        (fun i => decide (i ≠ bg ∧ (histo.set prev 0).getD i 0 ≠ 0)) + 1 =
        (List.range 16).countP (fun i => decide (i ≠ bg ∧ histo.getD i 0 ≠ 0)) :=
      countP_remove _ _ _ prev hnd (List.mem_range.2 hprev) (decide_eq_true ⟨hk.1, hk.2⟩)
        (decide_eq_false (fun h => h.2 (getD_set_self _ _ _ (by rw [hlen]; exact hprev))))
        (by intro i hi; show decide _ = decide _; rw [getD_set_ne _ _ _ _ (Ne.symm hi)])
    have hmem : ∀ x ∈ (List.range 16).filter
        (fun i => decide (i ≠ bg ∧ (histo.set prev 0).getD i 0 ≠ 0)), x < 16 := by
      intro x hx
      exact List.mem_range.1 (List.mem_filter.1 hx).1
    have hl2 : ((List.range 16).filter
        (fun i => decide (i ≠ bg ∧ (histo.set prev 0).getD i 0 ≠ 0))).length ≤ 2 := by
      rw [← List.countP_eq_length_filter]; omega
    by_cases hcp : c = prev
    · left
      rw [assign_keeps_colorRAM _ _ (by simp)]
      exact hcp
    · right
      have hcm : c ∈ (List.range 16).filter
          (fun i => decide (i ≠ bg ∧ (histo.set prev 0).getD i 0 ≠ 0)) := by
        rw [List.mem_filter]
        refine ⟨List.mem_range.2 hc, ?_⟩
        rw [getD_set_ne _ _ _ _ (Ne.symm hcp)]
        exact decide_eq_true ⟨hcb, hne⟩
      exact (assign_from_one prev _ hl2 hmem c hcm).2
  · rw [if_neg hk, if_neg hk]
    have hmem : ∀ x ∈ (List.range 16).filter
        (fun i => decide (i ≠ bg ∧ histo.getD i 0 ≠ 0)), x < 16 := by
      intro x hx
      exact List.mem_range.1 (List.mem_filter.1 hx).1
    have hl3 : ((List.range 16).filter
        (fun i => decide (i ≠ bg ∧ histo.getD i 0 ≠ 0))).length ≤ 3 := by
      rw [← List.countP_eq_length_filter]; omega
    have hcm : c ∈ (List.range 16).filter (fun i => decide (i ≠ bg ∧ histo.getD i 0 ≠ 0)) := by
      rw [List.mem_filter]
      exact ⟨List.mem_range.2 hc, decide_eq_true ⟨hcb, hne⟩⟩
    exact assign_from_zero _ hl3 hmem c hcm

/-- C3: for every block of 32 palette indices, background colour and previous
colour-RAM byte in 0..15, and every pixel (row `c`, position `a`), decoding the
stored 2-bit code with the fixed mapping 00 -> background, 01 -> high nibble
of the screen register, 10 -> low nibble of the screen register,
11 -> colour-RAM register gives the reduced colour `map[ blockColors[ k ] ]`
of that pixel. -/
theorem pixel_codes_decode (bgColor prevColorRAM : Nat) (blockColors : List Nat)
    (hbg : bgColor < 16) (hprev : prevColorRAM < 16) (hv : ValidBlock blockColors)
    (c a : Nat) (hc : c < 8) (ha : a < 4) :
    decodePixel bgColor (encodeBlock bgColor prevColorRAM blockColors).screenRAM
      (encodeBlock bgColor prevColorRAM blockColors).colorRAM
      (pixelCode ((encodeBlock bgColor prevColorRAM blockColors).bitmap.getD c 0) a) =
    reducedColor (reduceBlock bgColor blockColors) blockColors (a + c * 4) := by
  obtain ⟨inv, hn⟩ := reduceBlock_inv bgColor blockColors hbg hv
  have hb : (reduceBlock bgColor blockColors).histo.getD bgColor 0 ≠ 0 := by
    have := inv.bgk; omega
  obtain ⟨l1, l2⟩ := reducedColor_live bgColor blockColors hbg hv (a + c * 4) (by omega)
  have hcov := assignRegs_covers bgColor prevColorRAM (reduceBlock bgColor blockColors).histo
    hbg hprev inv.hlen hb (by rw [← inv.cnt]; exact hn) _ l1 l2
  have hrow : (encodeBlock bgColor prevColorRAM blockColors).bitmap.getD c 0 =
      bitmapRow (reduceBlock bgColor blockColors).map blockColors
        (assignRegs bgColor prevColorRAM (reduceBlock bgColor blockColors).histo).colorRAM
        (assignRegs bgColor prevColorRAM (reduceBlock bgColor blockColors).histo).screenRAM c := by
    unfold encodeBlock
    simp only
    rw [List.getD_eq_getElem?_getD, List.getElem?_map, List.getElem?_range hc]
    rfl
  rw [hrow, pixelCode_bitmapRow _ _ _ _ _ _ ha]
  exact decode_pixelValue _ _ _ _ hcov

theorem pixel_codes_decode_witness :
    (1 < 16 ∧ 0 < 16 ∧ ValidBlock sampleBlock ∧ 7 < 8 ∧ 3 < 4) ∧
    decodePixel 1 (encodeBlock 1 0 sampleBlock).screenRAM (encodeBlock 1 0 sampleBlock).colorRAM
      (pixelCode ((encodeBlock 1 0 sampleBlock).bitmap.getD 7 0) 3) =
    reducedColor (reduceBlock 1 sampleBlock) sampleBlock (3 + 7 * 4) :=
  ⟨by decide, pixel_codes_decode 1 0 sampleBlock (by decide) (by decide) (by decide) 7 3
    (by decide) (by decide)⟩

/-! ### Span descriptors -/

theorem packSpan_eq (a b f : Nat) (ha : a < 16384) (hb : b < 16384) (hf : f < 4) :
    packSpan a b f = 2 ^ 18 * a + (2 ^ 2 * b + f) := by
  unfold packSpan
  rw [Nat.or_assoc, Nat.shiftLeft_eq, Nat.shiftLeft_eq, Nat.mul_comm a, Nat.mul_comm b,
    ← Nat.mul_add_lt_is_or (by omega) b, ← Nat.mul_add_lt_is_or (by omega) a]
  apply Nat.mod_eq_of_lt
  omega

/-- Reading back the fields of a stored span descriptor. -/
theorem unpack_packSpan (a b f : Nat) (ha : a < 16384) (hb : b < 16384) (hf : f < 4) :
    spanFrom (packSpan a b f) = a ∧ spanTo (packSpan a b f) = b ∧
      spanFlag (packSpan a b f) = f := by
  rw [packSpan_eq a b f ha hb hf]
  have e1 : (16383 : Nat) = 2 ^ 14 - 1 := by norm_num
  have e2 : (3 : Nat) = 2 ^ 2 - 1 := by norm_num
  unfold spanFrom spanTo spanFlag
  rw [e1, e2, Nat.and_pow_two_sub_one_eq_mod, Nat.and_pow_two_sub_one_eq_mod,
    Nat.and_pow_two_sub_one_eq_mod, Nat.shiftRight_eq_div_pow, Nat.shiftRight_eq_div_pow]
  refine ⟨?_, ?_, ?_⟩ <;> omega

/-! ### The scanning loops -/

theorem scanWhile_spec (cond : Nat → Bool) (limit fuel p : Nat) (hf : limit - p ≤ fuel) :
    p ≤ scanWhile cond limit fuel p ∧
    (p ≤ limit → scanWhile cond limit fuel p ≤ limit) ∧
    (limit ≤ p → scanWhile cond limit fuel p = p) ∧
    (∀ i, p ≤ i → i < scanWhile cond limit fuel p → cond i = true) ∧
    (scanWhile cond limit fuel p < limit → cond (scanWhile cond limit fuel p) = false) := by
  induction fuel generalizing p with
  | zero =>
    unfold scanWhile
    refine ⟨le_refl _, fun h => h, fun _ => rfl, ?_, ?_⟩
    · intro i h1 h2; omega
    · intro h; omega
  | succ fuel ih =>
    unfold scanWhile
    by_cases hc : p < limit ∧ cond p = true
    · rw [if_pos hc]
      obtain ⟨a, b, _, d, e⟩ := ih (p + 1) (by omega)
      refine ⟨by omega, fun _ => b (by omega), fun h => by omega, ?_, e⟩
      intro i h1 h2
      rcases Nat.eq_or_lt_of_le h1 with h | h
      · subst h; exact hc.2
      · exact d i h h2
    · rw [if_neg hc]
      refine ⟨le_refl _, fun h => h, fun _ => rfl, ?_, ?_⟩
      · intro i h1 h2; omega
      · intro h
        by_contra h2
        exact hc ⟨h, by simpa using h2⟩

theorem planeScan_succ (same diff : Nat → Bool) (base flag limit fuel p : Nat) (hp : p < limit) :
    planeScan same diff base flag limit (fuel + 1) p =
      ((planeScan same diff base flag limit fuel
          (scanWhile diff limit (limit - (scanWhile same limit (limit - p) p + 1))
            (scanWhile same limit (limit - p) p + 1))).1,
        packSpan (base + scanWhile same limit (limit - p) p)
          (base + scanWhile diff limit (limit - (scanWhile same limit (limit - p) p + 1))
            (scanWhile same limit (limit - p) p + 1)) flag ::
          (planeScan same diff base flag limit fuel
            (scanWhile diff limit (limit - (scanWhile same limit (limit - p) p + 1))
              (scanWhile same limit (limit - p) p + 1))).2.1,
        (scanWhile diff limit (limit - (scanWhile same limit (limit - p) p + 1))
            (scanWhile same limit (limit - p) p + 1) - scanWhile same limit (limit - p) p) +
          (planeScan same diff base flag limit fuel
            (scanWhile diff limit (limit - (scanWhile same limit (limit - p) p + 1))
              (scanWhile same limit (limit - p) p + 1))).2.2) := by
  rw [planeScan, if_pos hp]

theorem planeScan_done (same diff : Nat → Bool) (base flag limit fuel p : Nat)
    (hp : limit ≤ p) : planeScan same diff base flag limit fuel p = (p, [], 0) := by
  cases fuel with
  | zero => rfl
  | succ fuel => rw [planeScan, if_neg (by omega)]

/-- The spans stored by a plane scan started at `p`: what they look like, that
they are ordered, that they cover every differing byte below the final
position, and that the total is the sum of their lengths. -/
theorem planeScan_spec (same diff : Nat → Bool) (hsd : ∀ x, same x = !diff x)
    (base flag limit : Nat) (hbase : base + limit + 1 < 16384) (hflag : flag < 4)
    (fuel p : Nat) (hf : limit - p ≤ fuel) :
    p ≤ (planeScan same diff base flag limit fuel p).1 ∧
    (p < limit → limit ≤ (planeScan same diff base flag limit fuel p).1) ∧
    (p ≤ limit → (planeScan same diff base flag limit fuel p).1 ≤ limit + 1) ∧
    (∀ w ∈ (planeScan same diff base flag limit fuel p).2.1,
      spanFlag w = flag ∧ base + p ≤ spanFrom w ∧ spanFrom w < spanTo w ∧
      spanTo w ≤ base + (planeScan same diff base flag limit fuel p).1) ∧
    List.Pairwise (fun a b => spanTo a ≤ spanFrom b)
      (planeScan same diff base flag limit fuel p).2.1 ∧
    (∀ i, p ≤ i → i < (planeScan same diff base flag limit fuel p).1 → diff i = true →
      ∃ w ∈ (planeScan same diff base flag limit fuel p).2.1,
        spanFrom w ≤ base + i ∧ base + i < spanTo w) ∧
    (planeScan same diff base flag limit fuel p).2.2 =
      ((planeScan same diff base flag limit fuel p).2.1.map
        (fun w => spanTo w - spanFrom w)).sum := by
  induction fuel generalizing p with
  | zero =>
    rw [planeScan_done _ _ _ _ _ _ _ (by omega)]
    refine ⟨le_refl _, fun h => by omega, fun h => by omega, ?_, List.Pairwise.nil, ?_, rfl⟩
    · intro w hw; simp at hw
    · intro i h1 h2; simp at h2; omega
  | succ fuel ih =>
    by_cases hp : p < limit
    · rw [planeScan_succ _ _ _ _ _ _ _ hp]
      obtain ⟨s1, s2, _, s4, s5⟩ := scanWhile_spec same limit (limit - p) p (le_refl _)
      generalize scanWhile same limit (limit - p) p = p1 at s1 s2 s4 s5 ⊢
      have s2 := s2 (by omega)
      obtain ⟨t1, t2, t3, t4, _⟩ := scanWhile_spec diff limit (limit - (p1 + 1)) (p1 + 1)
        (le_refl _)
      generalize scanWhile diff limit (limit - (p1 + 1)) (p1 + 1) = pos2 at t1 t2 t3 t4 ⊢
      have hpos2 : pos2 ≤ limit + 1 := by
        by_cases h : p1 + 1 ≤ limit
        · have := t2 h; omega
        · have := t3 (by omega); omega
      obtain ⟨a, b, c, d, e, f, g⟩ := ih pos2 (by omega)
      have hdone : limit < pos2 → (planeScan same diff base flag limit fuel pos2).1 = pos2 := by
        intro h
        rw [planeScan_done _ _ _ _ _ _ _ (by omega)]
      generalize planeScan same diff base flag limit fuel pos2 = r at a b c d e f g hdone ⊢
      obtain ⟨u1, u2, u3⟩ := unpack_packSpan (base + p1) (base + pos2) flag (by omega)
        (by omega) hflag
      have hr1 : r.1 ≤ limit + 1 := by
        by_cases h : pos2 ≤ limit
        · exact c h
        · have := hdone (by omega); omega
      refine ⟨by omega, fun _ => ?_, fun _ => hr1, ?_, ?_, ?_, ?_⟩
      · by_cases h : pos2 < limit
        · exact b h
        · omega
      · intro w hw
        rcases List.mem_cons.1 hw with h | h
        · subst h
          rw [u1, u2, u3]
          exact ⟨rfl, by omega, by omega, by omega⟩
        · obtain ⟨d1, d2, d3, d4⟩ := d w h
          exact ⟨d1, by omega, d3, d4⟩
      · rw [List.pairwise_cons]
        refine ⟨?_, e⟩
        intro w hw
        obtain ⟨_, d2, _, _⟩ := d w hw
        rw [u2]; exact d2
      · intro i h1 h2 h3
        by_cases hi1 : i < p1
        · have := s4 i h1 hi1
          rw [hsd, h3] at this
          simp at this
        · by_cases hi2 : i < pos2
          · exact ⟨_, List.mem_cons_self _ _, by rw [u1]; omega, by rw [u2]; omega⟩
          · obtain ⟨w, hw, k1, k2⟩ := f i (by omega) h2 h3
            exact ⟨w, List.mem_cons_of_mem _ hw, k1, k2⟩
      · simp only [List.map_cons, List.sum_cons]
        rw [u1, u2, g]
        omega
    · rw [planeScan_done _ _ _ _ _ _ _ (by omega)]
      refine ⟨le_refl _, fun h => by omega, fun h => by omega, ?_, List.Pairwise.nil, ?_, rfl⟩
      · intro w hw; simp at hw
      · intro i h1 h2; simp at h2; omega

theorem bitmapScan_succ (bSame bDiff sSame sDiff : Nat → Bool) (fuel pos spos : Nat)
    (hp : pos < 8000) (p1 pos2 : Nat) (sc : Nat × List Nat × Nat)
    (hp1 : p1 = scanWhile bSame 8000 (8000 - pos) pos)
    (hpos2 : pos2 = scanWhile bDiff 8000 (8000 - (p1 + 1)) (p1 + 1))
    (hsc : sc = planeScan sSame sDiff 8000 1 (pos2 / 8) (pos2 / 8 - spos) spos) :
    bitmapScan bSame bDiff sSame sDiff (fuel + 1) pos spos =
      if pos2 ≥ 8000 then
        ((if p1 < 8000 then [packSpan p1 pos2 0] else []) ++ sc.2.1,
          (if p1 < 8000 then pos2 - p1 else 0) + sc.2.2)
      else
        ((if p1 < 8000 then [packSpan p1 pos2 0] else []) ++ sc.2.1 ++
            (bitmapScan bSame bDiff sSame sDiff fuel pos2 sc.1).1,
          (if p1 < 8000 then pos2 - p1 else 0) + sc.2.2 +
            (bitmapScan bSame bDiff sSame sDiff fuel pos2 sc.1).2) := by
  subst hp1 hpos2 hsc
  rw [bitmapScan, if_pos hp]

theorem bitmapScan_done (bSame bDiff sSame sDiff : Nat → Bool) (fuel pos spos : Nat)
    (hp : 8000 ≤ pos) : bitmapScan bSame bDiff sSame sDiff fuel pos spos = ([], 0) := by
  cases fuel with
  | zero => rfl
  | succ fuel => rw [bitmapScan, if_neg (by omega)]

/-- The spans stored by the interleaved bitmap and screen scan started at
bitmap position `pos` and screen position `spos`. -/
theorem bitmapScan_spec (bSame bDiff sSame sDiff : Nat → Bool)
    (hb : ∀ x, bSame x = !bDiff x) (hs : ∀ x, sSame x = !sDiff x)
    (fuel pos spos : Nat) (hf : 8000 - pos ≤ fuel) :
    (∀ w ∈ (bitmapScan bSame bDiff sSame sDiff fuel pos spos).1,
      (spanFlag w = 0 ∧ pos ≤ spanFrom w ∧ spanFrom w < spanTo w ∧ spanTo w ≤ 8000) ∨
      (spanFlag w = 1 ∧ 8000 + spos ≤ spanFrom w ∧ spanFrom w < spanTo w ∧
        spanTo w ≤ 9001)) ∧
    List.Pairwise (fun a b => spanFlag a = spanFlag b → spanTo a ≤ spanFrom b)
      (bitmapScan bSame bDiff sSame sDiff fuel pos spos).1 ∧
    (pos < 8000 → ∀ i, spos ≤ i → i < 1000 → sDiff i = true →
      ∃ w ∈ (bitmapScan bSame bDiff sSame sDiff fuel pos spos).1,
        spanFlag w = 1 ∧ spanFrom w ≤ 8000 + i ∧ 8000 + i < spanTo w) ∧
    (∀ i, pos ≤ i → i < 8000 → bDiff i = true →
      ∃ w ∈ (bitmapScan bSame bDiff sSame sDiff fuel pos spos).1,
        spanFlag w = 0 ∧ spanFrom w ≤ i ∧ i < spanTo w) ∧
    (∀ w ∈ (bitmapScan bSame bDiff sSame sDiff fuel pos spos).1, spanFlag w = 0 →
      ∀ i, spanFrom w ≤ i → i < spanTo w → bDiff i = true) ∧
    (bitmapScan bSame bDiff sSame sDiff fuel pos spos).2 =
      ((bitmapScan bSame bDiff sSame sDiff fuel pos spos).1.map
        (fun w => spanTo w - spanFrom w)).sum := by
  induction fuel generalizing pos spos with
  | zero =>
    rw [bitmapScan_done _ _ _ _ _ _ _ (by omega)]
    refine ⟨?_, List.Pairwise.nil, fun h => by omega, ?_, ?_, rfl⟩
    · intro w hw; simp at hw
    · intro i h1 h2; omega
    · intro w hw; simp at hw
  | succ fuel ih =>
    by_cases hp : pos < 8000
    · rw [bitmapScan_succ bSame bDiff sSame sDiff fuel pos spos hp _ _ _ rfl rfl rfl]
      obtain ⟨s1, s2, _, s4, s5⟩ := scanWhile_spec bSame 8000 (8000 - pos) pos (le_refl _)
      generalize scanWhile bSame 8000 (8000 - pos) pos = p1 at s1 s2 s4 s5 ⊢
      have s2 := s2 (by omega)
      obtain ⟨t1, t2, t3, t4, _⟩ := scanWhile_spec bDiff 8000 (8000 - (p1 + 1)) (p1 + 1)
        (le_refl _)
      generalize scanWhile bDiff 8000 (8000 - (p1 + 1)) (p1 + 1) = pos2 at t1 t2 t3 t4 ⊢
      have hpos2 : pos2 ≤ 8001 := by
        by_cases h : p1 + 1 ≤ 8000
        · have := t2 h; omega
        · have := t3 (by omega); omega
      have hpos2' : p1 < 8000 → pos2 ≤ 8000 := fun h => t2 (by omega)
      have hend : pos2 / 8 ≤ 1000 := by omega
      obtain ⟨a, b, c, d, e, f, g⟩ := planeScan_spec sSame sDiff hs 8000 1 (pos2 / 8)
        (by omega) (by omega) (pos2 / 8 - spos) spos (le_refl _)
      have hdone : pos2 / 8 ≤ spos →
          (planeScan sSame sDiff 8000 1 (pos2 / 8) (pos2 / 8 - spos) spos).2.1 = [] := by
        intro h
        rw [planeScan_done _ _ _ _ _ _ _ h]
      generalize planeScan sSame sDiff 8000 1 (pos2 / 8) (pos2 / 8 - spos) spos = sc
        at a b c d e f g hdone ⊢
      -- the spans of the screen scan
      have hsc : ∀ w ∈ sc.2.1, spanFlag w = 1 ∧ 8000 + spos ≤ spanFrom w ∧
          spanFrom w < spanTo w ∧ spanTo w ≤ 8000 + sc.1 ∧ spanTo w ≤ 9001 := by
        intro w hw
        obtain ⟨d1, d2, d3, d4⟩ := d w hw
        have : spos < pos2 / 8 := by
          by_contra h
          rw [hdone (by omega)] at hw
          simp at hw
        have := c (by omega)
        exact ⟨d1, d2, d3, d4, by omega⟩
      -- the bitmap span of this iteration
      have hown : ∀ w ∈ (if p1 < 8000 then [packSpan p1 pos2 0] else []),
          spanFlag w = 0 ∧ spanFrom w = p1 ∧ spanTo w = pos2 ∧ p1 < 8000 := by
        intro w hw
        by_cases h : p1 < 8000
        · rw [if_pos h] at hw
          simp only [List.mem_singleton] at hw
          subst hw
          obtain ⟨u1, u2, u3⟩ := unpack_packSpan p1 pos2 0 (by omega) (by omega) (by omega)
          exact ⟨u3, u1, u2, h⟩
        · rw [if_neg h] at hw
          simp at hw
      have hownT : (if p1 < 8000 then pos2 - p1 else 0) =
          ((if p1 < 8000 then [packSpan p1 pos2 0] else []).map
            (fun w => spanTo w - spanFrom w)).sum := by
        by_cases h : p1 < 8000
        · obtain ⟨u1, u2, _⟩ := unpack_packSpan p1 pos2 0 (by omega) (by omega) (by omega)
          rw [if_pos h, if_pos h]
          simp [u1, u2]
        · rw [if_neg h, if_neg h]; rfl
      have hownP : List.Pairwise (fun a b => spanFlag a = spanFlag b → spanTo a ≤ spanFrom b)
          (if p1 < 8000 then [packSpan p1 pos2 0] else []) := by
        by_cases h : p1 < 8000
        · rw [if_pos h]; exact List.pairwise_singleton _ _
        · rw [if_neg h]; exact List.Pairwise.nil
      have hscP : List.Pairwise (fun a b => spanFlag a = spanFlag b → spanTo a ≤ spanFrom b)
          sc.2.1 := List.Pairwise.imp (R := fun a b => spanTo a ≤ spanFrom b)
            (S := fun a b => spanFlag a = spanFlag b → spanTo a ≤ spanFrom b)
            (fun h _ => h) e
      have hownsc : List.Pairwise (fun a b => spanFlag a = spanFlag b → spanTo a ≤ spanFrom b)
          ((if p1 < 8000 then [packSpan p1 pos2 0] else []) ++ sc.2.1) := by
        rw [List.pairwise_append]
        refine ⟨hownP, hscP, ?_⟩
        intro x hx y hy hxy
        have := (hown x hx).1
        have := (hsc y hy).1
        omega
      have hcov0 : ∀ i, pos ≤ i → i < pos2 → i < 8000 → bDiff i = true →
          ∃ w ∈ (if p1 < 8000 then [packSpan p1 pos2 0] else []),
            spanFlag w = 0 ∧ spanFrom w ≤ i ∧ i < spanTo w := by
        intro i h1 h2 h3 h4
        have hi1 : p1 ≤ i := by
          by_contra h
          have := s4 i h1 (by omega)
          rw [hb, h4] at this
          simp at this
        have hp1 : p1 < 8000 := by omega
        refine ⟨packSpan p1 pos2 0, by rw [if_pos hp1]; exact List.mem_singleton_self _, ?_⟩
        obtain ⟨u1, u2, u3⟩ := unpack_packSpan p1 pos2 0 (by omega) (by omega) (by omega)
        rw [u1, u2, u3]
        exact ⟨rfl, hi1, h2⟩
      have hex0 : ∀ w ∈ (if p1 < 8000 then [packSpan p1 pos2 0] else []),
          ∀ i, spanFrom w ≤ i → i < spanTo w → bDiff i = true := by
        intro w hw i h1 h2
        obtain ⟨_, o2, o3, o4⟩ := hown w hw
        rw [o2] at h1
        rw [o3] at h2
        rcases Nat.eq_or_lt_of_le h1 with h | h
        · subst h
          have := s5 o4
          rw [hb] at this
          simpa using this
        · exact t4 i h h2
      by_cases hfin : pos2 ≥ 8000
      · rw [if_pos hfin]
        simp only
        have hend2 : pos2 / 8 = 1000 := by omega
        refine ⟨?_, hownsc, ?_, ?_, ?_, ?_⟩
        · intro w hw
          rcases List.mem_append.1 hw with h | h
          · obtain ⟨o1, o2, o3, o4⟩ := hown w h
            left
            exact ⟨o1, by omega, by omega, by have := hpos2' o4; omega⟩
          · obtain ⟨o1, o2, o3, _, o5⟩ := hsc w h
            right
            exact ⟨o1, o2, o3, o5⟩
        · intro _ i h1 h2 h3
          have hlt : spos < pos2 / 8 := by omega
          have := b hlt
          obtain ⟨w, hw, k1, k2⟩ := f i h1 (by omega) h3
          exact ⟨w, List.mem_append_right _ hw, (hsc w hw).1, k1, k2⟩
        · intro i h1 h2 h3
          obtain ⟨w, hw, k⟩ := hcov0 i h1 (by omega) h2 h3
          exact ⟨w, List.mem_append_left _ hw, k⟩
        · intro w hw hfl i h1 h2
          rcases List.mem_append.1 hw with h | h
          · exact hex0 w h i h1 h2
          · have := (hsc w h).1; omega
        · rw [List.map_append, List.sum_append, ← hownT, g]
      · rw [if_neg hfin]
        simp only
        obtain ⟨i1, i2, i3, i4, i5, i6⟩ := ih pos2 sc.1 (by omega)
        generalize bitmapScan bSame bDiff sSame sDiff fuel pos2 sc.1 = r
          at i1 i2 i3 i4 i5 i6 ⊢
        refine ⟨?_, ?_, ?_, ?_, ?_, ?_⟩
        · intro w hw
          rcases List.mem_append.1 hw with h | h
          · rcases List.mem_append.1 h with h | h
            · obtain ⟨o1, o2, o3, o4⟩ := hown w h
              left
              exact ⟨o1, by omega, by omega, by have := hpos2' o4; omega⟩
            · obtain ⟨o1, o2, o3, _, o5⟩ := hsc w h
              right
              exact ⟨o1, o2, o3, o5⟩
          · rcases i1 w h with ⟨o1, o2, o3, o4⟩ | ⟨o1, o2, o3, o4⟩
            · left; exact ⟨o1, by omega, o3, o4⟩
            · right; exact ⟨o1, by omega, o3, o4⟩
        · rw [List.pairwise_append]
          refine ⟨hownsc, i2, ?_⟩
          intro x hx y hy hxy
          rcases List.mem_append.1 hx with h | h
          · obtain ⟨o1, _, o3, _⟩ := hown x h
            rcases i1 y hy with ⟨q1, q2, _, _⟩ | ⟨q1, _, _, _⟩
            · omega
            · omega
          · obtain ⟨o1, _, _, o4, _⟩ := hsc x h
            rcases i1 y hy with ⟨q1, _, _, _⟩ | ⟨_, q2, _, _⟩
            · omega
            · omega
        · intro _ i h1 h2 h3
          by_cases hi : i < sc.1
          · obtain ⟨w, hw, k1, k2⟩ := f i h1 hi h3
            exact ⟨w, List.mem_append_left _ (List.mem_append_right _ hw), (hsc w hw).1, k1, k2⟩
          · obtain ⟨w, hw, k⟩ := i3 (by omega) i (by omega) h2 h3
            exact ⟨w, List.mem_append_right _ hw, k⟩
        · intro i h1 h2 h3
          by_cases hi : i < pos2
          · obtain ⟨w, hw, k⟩ := hcov0 i h1 hi h2 h3
            exact ⟨w, List.mem_append_left _ (List.mem_append_left _ hw), k⟩
          · obtain ⟨w, hw, k⟩ := i4 i (by omega) h2 h3
            exact ⟨w, List.mem_append_right _ hw, k⟩
        · intro w hw hfl i h1 h2
          rcases List.mem_append.1 hw with h | h
          · rcases List.mem_append.1 h with h | h
            · exact hex0 w h i h1 h2
            · have := (hsc w h).1; omega
          · exact i5 w h hfl i h1 h2
        · rw [List.map_append, List.map_append, List.sum_append, List.sum_append, ← hownT, g, i6]
    · rw [bitmapScan_done _ _ _ _ _ _ _ (by omega)]
      refine ⟨?_, List.Pairwise.nil, fun h => by omega, ?_, ?_, rfl⟩
      · intro w hw; simp at hw
      · intro i h1 h2; omega
      · intro w hw; simp at hw

theorem bitmapSame_eq (inval : Nat → Bool) (prev koala : Nat → Nat) (ofs x : Nat) :
    bitmapSame inval prev koala ofs x = !bitmapDiff inval prev koala ofs x := by
  unfold bitmapSame bitmapDiff
  cases inval x <;> cases h : (prev (x + ofs) == koala x) <;> simp [bne, h]

theorem screenSame_eq (inval : Nat → Bool) (prev koala : Nat → Nat) (ofs x : Nat) :
    screenSame inval prev koala ofs x = !screenDiff inval prev koala ofs x := by
  unfold screenSame screenDiff
  cases inval (x * 8) <;> cases h : (prev (8000 + x + ofs) == koala (8000 + x)) <;>
    simp [bne, h]

theorem colorSame_eq (inval : Nat → Bool) (prev koala : Nat → Nat) (x : Nat) :
    colorSame inval prev koala x = !colorDiff inval prev koala x := by
  unfold colorSame colorDiff
  cases inval (x * 8) <;> cases h : (prev (9000 + x) == koala (9000 + x)) <;> simp [bne, h]

/-- A frame byte passes the scan test exactly when it differs from the stored
byte it is compared with or the invalidation test holds at its position. -/
theorem frameDiff_iff (inval : Nat → Bool) (prev koala : Nat → Nat) (fc i : Nat) :
    frameDiff inval prev koala (prevScreenOfs fc) i = true ↔
      (koala i ≠ prev (prevIndex fc i) ∨ inval (invalArg i) = true) := by
  unfold frameDiff prevIndex invalArg bitmapDiff screenDiff colorDiff
  by_cases h1 : i < 8000
  · have h2 : i < 9000 := by omega
    simp only [if_pos h1, if_pos h2, Bool.or_eq_true, bne_iff_ne, ne_eq]
    constructor
    · rintro (h | h)
      · exact Or.inl (fun e => h e.symm)
      · exact Or.inr h
    · rintro (h | h)
      · exact Or.inl (fun e => h e.symm)
      · exact Or.inr h
  · by_cases h2 : i < 9000
    · have e : 8000 + (i - 8000) = i := by omega
      simp only [if_neg h1, if_pos h2, Bool.or_eq_true, bne_iff_ne, ne_eq, e]
      constructor
      · rintro (h | h)
        · exact Or.inl (fun e => h e.symm)
        · exact Or.inr h
      · rintro (h | h)
        · exact Or.inl (fun e => h e.symm)
        · exact Or.inr h
    · have e : 9000 + (i - 9000) = i := by omega
      simp only [if_neg h1, if_neg h2, Bool.or_eq_true, bne_iff_ne, ne_eq, e]
      constructor
      · rintro (h | h)
        · exact Or.inl (fun e => h e.symm)
        · exact Or.inr h
      · rintro (h | h)
        · exact Or.inl (fun e => h e.symm)
        · exact Or.inr h

/-- The invalidation test in terms of rows: it holds at the first byte of
every row and on the two rows `invalidateRow` and `invalidateRow2`. -/
theorem INVALIDATE_RECT_iff (invalidateRow invalidateRow2 i : Nat) :
    INVALIDATE_RECT invalidateRow invalidateRow2 (invalArg i) = true ↔
      (invalArg i % 320 = 0 ∨ rowOf i = invalidateRow2 ∨ rowOf i = invalidateRow) := by
  unfold INVALIDATE_RECT
  simp only [Bool.or_eq_true, Bool.and_eq_true, decide_eq_true_eq, beq_iff_eq, or_assoc]
  unfold invalArg rowOf
  by_cases h1 : i < 8000
  · simp only [if_pos h1]; omega
  · by_cases h2 : i < 9000
    · simp only [if_neg h1, if_pos h2]; omega
    · simp only [if_neg h1, if_neg h2]; omega

/-- The span list of a diffing invocation. -/
theorem buildSpans_spec (inval : Nat → Bool) (prev koala : Nat → Nat) (ofs : Nat) :
    (∀ w ∈ (buildSpans inval prev koala ofs).1,
      (spanFlag w = 0 ∧ spanFrom w < spanTo w ∧ spanTo w ≤ 8000) ∨
      (spanFlag w = 1 ∧ 8000 ≤ spanFrom w ∧ spanFrom w < spanTo w ∧ spanTo w ≤ 9001) ∨
      (spanFlag w = 2 ∧ 9000 ≤ spanFrom w ∧ spanFrom w < spanTo w ∧ spanTo w ≤ 10001)) ∧
    List.Pairwise (fun a b => spanFlag a = spanFlag b → spanTo a ≤ spanFrom b)
      (buildSpans inval prev koala ofs).1 ∧
    List.Pairwise (fun a b => spanFlag a = 2 → spanFlag b = 2)
      (buildSpans inval prev koala ofs).1 ∧
    (∀ i, i < 10000 → frameDiff inval prev koala ofs i = true →
      ∃ w ∈ (buildSpans inval prev koala ofs).1, Covers w i) ∧
    (∀ w ∈ (buildSpans inval prev koala ofs).1, spanFlag w = 0 →
      ∀ i, spanFrom w ≤ i → i < spanTo w → bitmapDiff inval prev koala ofs i = true) ∧
    (buildSpans inval prev koala ofs).2 =
      ((buildSpans inval prev koala ofs).1.map (fun w => spanTo w - spanFrom w)).sum := by
  obtain ⟨b1, b2, b3, b4, b5, b6⟩ := bitmapScan_spec (bitmapSame inval prev koala ofs)
    (bitmapDiff inval prev koala ofs) (screenSame inval prev koala ofs)
    (screenDiff inval prev koala ofs) (bitmapSame_eq inval prev koala ofs)
    (screenSame_eq inval prev koala ofs) 8000 0 0 (by omega)
  obtain ⟨_, _, c3, c4, c5, c6, c7⟩ := planeScan_spec (colorSame inval prev koala)
    (colorDiff inval prev koala) (colorSame_eq inval prev koala) 9000 2 1000 (by omega)
    (by omega) 1000 0 (by omega)
  have c1 := planeScan_spec (colorSame inval prev koala)
    (colorDiff inval prev koala) (colorSame_eq inval prev koala) 9000 2 1000 (by omega)
    (by omega) 1000 0 (by omega)
  have c2 := c1.2.1 (by omega)
  have c3 := c3 (by omega)
  unfold buildSpans
  simp only
  generalize bitmapScan (bitmapSame inval prev koala ofs) (bitmapDiff inval prev koala ofs)
    (screenSame inval prev koala ofs) (screenDiff inval prev koala ofs) 8000 0 0 = bs
    at b1 b2 b3 b4 b5 b6 ⊢
  generalize planeScan (colorSame inval prev koala) (colorDiff inval prev koala) 9000 2 1000
    1000 0 = cs at c2 c3 c4 c5 c6 c7 ⊢
  clear c1
  have hbs : ∀ w ∈ bs.1, spanFlag w ≤ 1 := by
    intro w hw
    rcases b1 w hw with h | h <;> omega
  refine ⟨?_, ?_, ?_, ?_, ?_, ?_⟩
  · intro w hw
    rcases List.mem_append.1 hw with h | h
    · rcases b1 w h with ⟨o1, _, o3, o4⟩ | ⟨o1, o2, o3, o4⟩
      · exact Or.inl ⟨o1, o3, o4⟩
      · exact Or.inr (Or.inl ⟨o1, by omega, o3, o4⟩)
    · obtain ⟨o1, o2, o3, o4⟩ := c4 w h
      exact Or.inr (Or.inr ⟨o1, by omega, o3, by omega⟩)
  · rw [List.pairwise_append]
    refine ⟨b2, List.Pairwise.imp (R := fun a b => spanTo a ≤ spanFrom b)
      (S := fun a b => spanFlag a = spanFlag b → spanTo a ≤ spanFrom b) (fun h _ => h) c5, ?_⟩
    intro x hx y hy hxy
    have := hbs x hx
    have := (c4 y hy).1
    omega
  · rw [List.pairwise_append]
    refine ⟨?_, ?_, ?_⟩
    · apply List.Pairwise.imp_of_mem (R := fun _ _ => True)
      · intro a b ha _ _ h
        have := hbs a ha
        omega
      · exact List.pairwise_of_forall (fun _ _ => trivial)
    · apply List.Pairwise.imp_of_mem (R := fun _ _ => True)
      · intro a b _ hb' _ _
        exact (c4 b hb').1
      · exact List.pairwise_of_forall (fun _ _ => trivial)
    · intro x _ y hy _
      exact (c4 y hy).1
  · intro i hi hd
    unfold frameDiff at hd
    unfold Covers regionFlag
    by_cases h1 : i < 8000
    · rw [if_pos h1] at hd
      obtain ⟨w, hw, k1, k2, k3⟩ := b4 i (by omega) h1 hd
      exact ⟨w, List.mem_append_left _ hw, by rw [if_pos h1]; exact k1, k2, k3⟩
    · by_cases h2 : i < 9000
      · rw [if_neg h1, if_pos h2] at hd
        obtain ⟨w, hw, k1, k2, k3⟩ := b3 (by omega) (i - 8000) (by omega) (by omega) hd
        exact ⟨w, List.mem_append_left _ hw, by rw [if_neg h1, if_pos h2]; exact k1,
          by omega, by omega⟩
      · rw [if_neg h1, if_neg h2] at hd
        obtain ⟨w, hw, k1, k2⟩ := c6 (i - 9000) (by omega) (by omega) hd
        exact ⟨w, List.mem_append_right _ hw, by rw [if_neg h1, if_neg h2]; exact (c4 w hw).1,
          by omega, by omega⟩
  · intro w hw hfl i h1 h2
    rcases List.mem_append.1 hw with h | h
    · exact b5 w h hfl i h1 h2
    · have := (c4 w h).1; omega
  · rw [List.map_append, List.sum_append, b6, c7]

/-! ### The span list of one invocation -/

theorem firstBlitSpans_fields :
    firstBlitSpans.map (fun w => (spanFrom w, spanTo w, spanFlag w)) =
      [(0, 8000, 0), (8000, 9000, 1), (9000, 10000, 2)] := by
  decide

theorem blitSpans_first (s : BlitState) (koalaData : Nat → Nat) (h : s.firstBlit ≠ 0) :
    blitSpans s koalaData = (firstBlitSpans, 0) := by
  unfold blitSpans
  rw [if_pos h]

theorem blitSpans_diff (s : BlitState) (koalaData : Nat → Nat) (h : s.firstBlit = 0) :
    blitSpans s koalaData = buildSpans
      (INVALIDATE_RECT (nextInvalidateRow s.invalidateRow) (nextInvalidateRow2 s.invalidateRow2))
      s.prevScreenBuffer koalaData (prevScreenOfs s.fc) := by
  unfold blitSpans
  rw [if_neg (by simpa using h)]

/-- Every stored span lies in the frame range that the transfer loop can
address for its flag; the screen and colour ranges include one byte past the
plane. -/
theorem blitSpans_range (s : BlitState) (koalaData : Nat → Nat) :
    ∀ w ∈ (blitSpans s koalaData).1,
      (spanFlag w = 0 ∧ spanFrom w < spanTo w ∧ spanTo w ≤ 8000) ∨
      (spanFlag w = 1 ∧ 8000 ≤ spanFrom w ∧ spanFrom w < spanTo w ∧ spanTo w ≤ 9001) ∨
      (spanFlag w = 2 ∧ 9000 ≤ spanFrom w ∧ spanFrom w < spanTo w ∧ spanTo w ≤ 10001) := by
  by_cases h : s.firstBlit = 0
  · rw [blitSpans_diff s koalaData h]
    exact (buildSpans_spec _ _ _ _).1
  · rw [blitSpans_first s koalaData h]
    decide

/-- C5 as stated fails: on a diffing invocation with an unchanged all-zero
frame and invalidation rows 1 and 22, frame byte 0 lies in a stored span
although it neither differs from the stored byte nor lies in row 1 or 22. -/
theorem span_union_not_exact :
    idleState.firstBlit = 0 ∧
    ¬ ((∃ w ∈ (blitSpans idleState zeroFrame).1, spanFrom w ≤ 0 ∧ 0 < spanTo w) ↔
      (zeroFrame 0 ≠ idleState.prevScreenBuffer (prevIndex idleState.fc 0) ∨
        rowOf 0 = nextInvalidateRow idleState.invalidateRow ∨
        rowOf 0 = nextInvalidateRow2 idleState.invalidateRow2)) := by
  decide!

/-- C5, amended: on a diffing invocation every frame byte that differs from
the stored previous value, or lies in one of the two current invalidation
rows, or is the first byte of a row, is contained in a stored span of its
region; and every byte contained in a bitmap span is such a byte.  (Nothing
is said here about which other bytes screen and colour spans contain.) -/
theorem span_coverage (s : BlitState) (koalaData : Nat → Nat) (h : s.firstBlit = 0) :
    (∀ i, i < 10000 →
      (koalaData i ≠ s.prevScreenBuffer (prevIndex s.fc i) ∨ invalArg i % 320 = 0 ∨
        rowOf i = nextInvalidateRow2 s.invalidateRow2 ∨
        rowOf i = nextInvalidateRow s.invalidateRow) →
      ∃ w ∈ (blitSpans s koalaData).1, Covers w i) ∧
    (∀ w ∈ (blitSpans s koalaData).1, spanFlag w = 0 →
      ∀ i, spanFrom w ≤ i → i < spanTo w →
        i < 8000 ∧
        (koalaData i ≠ s.prevScreenBuffer (prevIndex s.fc i) ∨ invalArg i % 320 = 0 ∨
          rowOf i = nextInvalidateRow2 s.invalidateRow2 ∨
          rowOf i = nextInvalidateRow s.invalidateRow)) := by
  rw [blitSpans_diff s koalaData h]
  obtain ⟨r1, _, _, r4, r5, _⟩ := buildSpans_spec
    (INVALIDATE_RECT (nextInvalidateRow s.invalidateRow) (nextInvalidateRow2 s.invalidateRow2))
    s.prevScreenBuffer koalaData (prevScreenOfs s.fc)
  constructor
  · intro i hi hc
    apply r4 i hi
    rw [frameDiff_iff, INVALIDATE_RECT_iff]
    exact hc
  · intro w hw hfl i h1 h2
    have hi : i < 8000 := by
      rcases r1 w hw with ⟨_, _, o⟩ | ⟨o, _⟩ | ⟨o, _⟩ <;> omega
    refine ⟨hi, ?_⟩
    have := r5 w hw hfl i h1 h2
    have hd : frameDiff
        (INVALIDATE_RECT (nextInvalidateRow s.invalidateRow)
          (nextInvalidateRow2 s.invalidateRow2))
        s.prevScreenBuffer koalaData (prevScreenOfs s.fc) i = true := by
      unfold frameDiff
      rw [if_pos hi]; exact this
    rw [frameDiff_iff, INVALIDATE_RECT_iff] at hd
    exact hd

theorem span_coverage_witness :
    idleState.firstBlit = 0 ∧
    ((∀ i, i < 10000 →
      (sampleFrame i ≠ idleState.prevScreenBuffer (prevIndex idleState.fc i) ∨
        invalArg i % 320 = 0 ∨
        rowOf i = nextInvalidateRow2 idleState.invalidateRow2 ∨
        rowOf i = nextInvalidateRow idleState.invalidateRow) →
      ∃ w ∈ (blitSpans idleState sampleFrame).1, Covers w i) ∧
    (∀ w ∈ (blitSpans idleState sampleFrame).1, spanFlag w = 0 →
      ∀ i, spanFrom w ≤ i → i < spanTo w →
        i < 8000 ∧
        (sampleFrame i ≠ idleState.prevScreenBuffer (prevIndex idleState.fc i) ∨
          invalArg i % 320 = 0 ∨
          rowOf i = nextInvalidateRow2 idleState.invalidateRow2 ∨
          rowOf i = nextInvalidateRow idleState.invalidateRow))) :=
  ⟨by decide, span_coverage idleState sampleFrame (by decide)⟩

/-- C6: on a diffing invocation every frame byte `i` below 10000 whose value
differs from the stored previous value it is compared with (the slot of the
parity for bitmap and screen bytes, the shared range for colour bytes) lies in
a stored span that carries the flag of the region of `i`. -/
theorem changed_bytes_covered (s : BlitState) (koalaData : Nat → Nat) (h : s.firstBlit = 0)
    (i : Nat) (hi : i < 10000)
    (hne : koalaData i ≠ s.prevScreenBuffer (prevIndex s.fc i)) :
    ∃ w ∈ (blitSpans s koalaData).1, Covers w i := by
  rw [blitSpans_diff s koalaData h]
  apply (buildSpans_spec _ _ _ _).2.2.2.1 i hi
  rw [frameDiff_iff]
  exact Or.inl hne

theorem changed_bytes_covered_witness :
    (idleState.firstBlit = 0 ∧ 16 < 10000 ∧
      sampleFrame 16 ≠ idleState.prevScreenBuffer (prevIndex idleState.fc 16)) ∧
    ∃ w ∈ (blitSpans idleState sampleFrame).1, Covers w 16 :=
  ⟨by decide, changed_bytes_covered idleState sampleFrame (by decide) 16 (by decide)
    (by decide)⟩

/-- C7: in every invocation each stored span is non-empty, and of two spans
with the same flag the one stored later starts at or after the end of the one
stored earlier; spans of one flag are therefore pairwise disjoint and
ascending in the order they were stored. -/
theorem spans_ordered_per_flag (s : BlitState) (koalaData : Nat → Nat) :
    (∀ w ∈ (blitSpans s koalaData).1, spanFrom w < spanTo w) ∧
    List.Pairwise (fun a b => spanFlag a = spanFlag b → spanTo a ≤ spanFrom b)
      (blitSpans s koalaData).1 := by
  constructor
  · intro w hw
    rcases blitSpans_range s koalaData w hw with ⟨_, o, _⟩ | ⟨_, _, o, _⟩ | ⟨_, _, o, _⟩ <;>
      exact o
  · by_cases h : s.firstBlit = 0
    · rw [blitSpans_diff s koalaData h]
      exact (buildSpans_spec _ _ _ _).2.1
    · rw [blitSpans_first s koalaData h]
      decide

/-- C8 fails on the code: on a diffing invocation with an unchanged all-zero
frame (invalidation rows 1 and 22) the span list holds a span with flag 1
that consists of frame byte 9000, one past the screen plane, and a span with
flag 2 that consists of frame byte 10000, one past the colour plane. -/
theorem span_outside_region :
    idleState.firstBlit = 0 ∧
    (∃ w ∈ (blitSpans idleState zeroFrame).1,
      spanFlag w = 1 ∧ spanFrom w = 9000 ∧ spanTo w = 9001) ∧
    (∃ w ∈ (blitSpans idleState zeroFrame).1,
      spanFlag w = 2 ∧ spanFrom w = 10000 ∧ spanTo w = 10001) := by
  decide!

/-- C9 fails on the code: with the invalidation test replaced by false and the
current frame equal to the stored previous frame (both all zero), the span
builder stores two spans, one byte past the screen plane and one byte past the
colour plane, and a total of 2. -/
theorem identical_frame_spans :
    (buildSpans (fun _ => false) zeroFrame zeroFrame 0).1.map
        (fun w => (spanFrom w, spanTo w, spanFlag w)) =
      [(9000, 9001, 1), (10000, 10001, 2)] ∧
    (buildSpans (fun _ => false) zeroFrame zeroFrame 0).2 = 2 := by
  decide!

theorem pokeRange_weak (koala : Nat → Nat) (addr n i : Nat) (mem : Nat → Nat) (a : Nat) :
    pokeRange koala addr n i mem a = mem a ∨
    ∃ j, i ≤ j ∧ j < i + n ∧ (addr + j) % 2 ^ 32 = a ∧
      pokeRange koala addr n i mem a = koala j := by
  induction n generalizing i mem with
  | zero => left; rfl
  | succ n ih =>
    rw [pokeRange]
    rcases ih (i + 1) (poke mem ((addr + i) % 2 ^ 32) (koala i)) with h | ⟨j, h1, h2, h3, h4⟩
    · rw [h]
      unfold poke
      by_cases e : a = (addr + i) % 2 ^ 32
      · right
        exact ⟨i, le_refl _, by omega, e.symm, by rw [if_pos e]⟩
      · left
        rw [if_neg e]
    · right
      exact ⟨j, by omega, by omega, h3, h4⟩

theorem pokeRange_strong (koala : Nat → Nat) (addr n i : Nat) (mem : Nat → Nat) (a j : Nat)
    (h1 : i ≤ j) (h2 : j < i + n) (h3 : (addr + j) % 2 ^ 32 = a)
    (hinj : ∀ k, i ≤ k → k < i + n → (addr + k) % 2 ^ 32 = a → k = j) :
    pokeRange koala addr n i mem a = koala j := by
  induction n generalizing i mem with
  | zero => omega
  | succ n ih =>
    rw [pokeRange]
    by_cases e : i = j
    · subst e
      rcases pokeRange_weak koala addr n (i + 1) (poke mem ((addr + i) % 2 ^ 32) (koala i)) a
        with h | ⟨k, k1, k2, k3, _⟩
      · rw [h]
        unfold poke
        rw [if_pos h3.symm]
      · have := hinj k (by omega) (by omega) k3
        omega
    · exact ih (i + 1) _ (by omega) (by omega)
        (fun k k1 k2 k3 => hinj k (by omega) (by omega) k3)

theorem transferSpans_cons (koala : Nat → Nat) (base w : Nat) (l : List Nat) (mem : Nat → Nat) :
    transferSpans koala base (w :: l) mem =
      transferSpans koala base l (pokeSpan koala base mem w) := rfl

theorem transferSpans_weak (koala : Nat → Nat) (base : Nat) (l : List Nat) (mem : Nat → Nat)
    (a : Nat) :
    transferSpans koala base l mem a = mem a ∨
    ∃ w ∈ l, ∃ j, spanFrom w ≤ j ∧ j < spanTo w ∧
      (spanAddr base (spanFlag w) + j) % 2 ^ 32 = a ∧
      transferSpans koala base l mem a = koala j := by
  induction l generalizing mem with
  | nil => left; rfl
  | cons w l ih =>
    rw [transferSpans_cons]
    rcases ih (pokeSpan koala base mem w) with h | ⟨w', hw', j, h1, h2, h3, h4⟩
    · rw [h]
      unfold pokeSpan
      rcases pokeRange_weak koala (spanAddr base (spanFlag w)) (spanTo w - spanFrom w)
        (spanFrom w) mem a with h' | ⟨j, h1, h2, h3, h4⟩
      · left; exact h'
      · right
        exact ⟨w, List.mem_cons_self _ _, j, h1, by omega, h3, h4⟩
    · right
      exact ⟨w', List.mem_cons_of_mem _ hw', j, h1, h2, h3, h4⟩

theorem blitBase_cases (fc : Nat) : blitBase fc = 0 ∨ blitBase fc = 0x4000 := by
  unfold blitBase
  split
  · right; rfl
  · left; rfl

/-- The remote address written for frame byte `j` of a span. -/
theorem writeAddr_eq (fc w j : Nat) (hw : SpanOK w) (h1 : spanFrom w ≤ j)
    (h2 : j < spanTo w) :
    (spanAddr (blitBase fc) (spanFlag w) + j) % 2 ^ 32 =
      if spanFlag w = 0 then 8192 + blitBase fc + j
      else if spanFlag w = 1 then 1024 + blitBase fc + (j - 8000)
      else 55296 + (j - 9000) := by
  have e32 : (2 : Nat) ^ 32 = 4294967296 := by norm_num
  rw [e32]
  unfold spanAddr
  rw [e32]
  rcases blitBase_cases fc with hb | hb <;> rw [hb] <;>
    rcases hw with ⟨f, a, b⟩ | ⟨f, a, b, c⟩ | ⟨f, a, b, c⟩ <;> rw [f] <;>
    norm_num <;> omega

/-- A write of the transfer loop that hits the remote address of frame byte
`i` in the buffer of the same parity is the write of byte `i` by a span whose
flag is the region of `i`. -/
theorem write_hits_same (fc w j i : Nat) (hw : SpanOK w) (h1 : spanFrom w ≤ j)
    (h2 : j < spanTo w) (hi : i < 10000)
    (h : (spanAddr (blitBase fc) (spanFlag w) + j) % 2 ^ 32 = remoteAddr fc i) :
    j = i ∧ spanFlag w = regionFlag i := by
  rw [writeAddr_eq fc w j hw h1 h2] at h
  unfold remoteAddr at h
  unfold regionFlag
  rcases blitBase_cases fc with hb | hb <;> rw [hb] at h <;>
    rcases hw with ⟨f, a, b⟩ | ⟨f, a, b, c⟩ | ⟨f, a, b, c⟩ <;> rw [f] at h ⊢ <;>
    norm_num at h <;> split_ifs at h ⊢ <;> omega

/-- A write of the transfer loop never hits the bitmap or screen buffer of the
other parity. -/
theorem write_misses_other (fc fc2 w j i : Nat) (hw : SpanOK w) (h1 : spanFrom w ≤ j)
    (h2 : j < spanTo w) (hi : i < 9000) (hne : blitBase fc ≠ blitBase fc2) :
    (spanAddr (blitBase fc) (spanFlag w) + j) % 2 ^ 32 ≠ remoteAddr fc2 i := by
  rw [writeAddr_eq fc w j hw h1 h2]
  unfold remoteAddr
  rcases blitBase_cases fc with hb | hb <;> rcases blitBase_cases fc2 with hb2 | hb2 <;>
    rcases hw with ⟨f, a, b⟩ | ⟨f, a, b, c⟩ | ⟨f, a, b, c⟩ <;> rw [f] <;>
    norm_num <;> split_ifs <;> omega

theorem blitSpans_ok (s : BlitState) (koalaData : Nat → Nat) :
    ∀ w ∈ (blitSpans s koalaData).1, SpanOK w :=
  blitSpans_range s koalaData

theorem writeAddr_covers (fc w i : Nat) (hw : SpanOK w) (hc : Covers w i) :
    (spanAddr (blitBase fc) (spanFlag w) + i) % 2 ^ 32 = remoteAddr fc i := by
  obtain ⟨c1, c2, c3⟩ := hc
  rw [writeAddr_eq fc w i hw c2 c3]
  unfold remoteAddr
  unfold regionFlag at c1
  rcases hw with ⟨f, a, b⟩ | ⟨f, a, b, c⟩ | ⟨f, a, b, c⟩ <;> rw [f] at c1 ⊢ <;>
    norm_num <;> split_ifs at c1 ⊢ <;> omega

/-- A frame byte covered by a span is on the remote machine after the
transfer. -/
theorem transfer_covered (koala : Nat → Nat) (fc : Nat) (l : List Nat) (mem : Nat → Nat)
    (i : Nat) (hall : ∀ w ∈ l, SpanOK w) (hi : i < 10000) (hc : ∃ w ∈ l, Covers w i) :
    transferSpans koala (blitBase fc) l mem (remoteAddr fc i) = koala i := by
  induction l generalizing mem with
  | nil => obtain ⟨w, hw, _⟩ := hc; simp at hw
  | cons w0 l ih =>
    rw [transferSpans_cons]
    by_cases hl : ∃ w ∈ l, Covers w i
    · exact ih _ (fun w hw => hall w (List.mem_cons_of_mem _ hw)) hl
    · have hc0 : Covers w0 i := by
        obtain ⟨w, hw, hcw⟩ := hc
        rcases List.mem_cons.1 hw with h | h
        · rw [← h]; exact hcw
        · exact absurd ⟨w, h, hcw⟩ hl
      have hok0 := hall w0 (List.mem_cons_self _ _)
      have h1 : pokeSpan koala (blitBase fc) mem w0 (remoteAddr fc i) = koala i := by
        unfold pokeSpan
        apply pokeRange_strong koala _ _ _ mem (remoteAddr fc i) i hc0.2.1 (by
          have := hc0.2.2; have := hc0.2.1; omega) (writeAddr_covers fc w0 i hok0 hc0)
        intro k k1 k2 k3
        exact (write_hits_same fc w0 k i hok0 k1 (by omega) hi k3).1
      rcases transferSpans_weak koala (blitBase fc) l (pokeSpan koala (blitBase fc) mem w0)
        (remoteAddr fc i) with h | ⟨w, hw, j, j1, j2, j3, j4⟩
      · rw [h, h1]
      · have := (write_hits_same fc w j i (hall w (List.mem_cons_of_mem _ hw)) j1 j2 hi j3).1
        rw [j4, this]

/-- After the transfer the remote byte of frame byte `i` is either what it
was or the current frame byte. -/
theorem transfer_frame_weak (koala : Nat → Nat) (fc : Nat) (l : List Nat) (mem : Nat → Nat)
    (i : Nat) (hall : ∀ w ∈ l, SpanOK w) (hi : i < 10000) :
    transferSpans koala (blitBase fc) l mem (remoteAddr fc i) = mem (remoteAddr fc i) ∨
    transferSpans koala (blitBase fc) l mem (remoteAddr fc i) = koala i := by
  rcases transferSpans_weak koala (blitBase fc) l mem (remoteAddr fc i)
    with h | ⟨w, hw, j, j1, j2, j3, j4⟩
  · exact Or.inl h
  · right
    have := (write_hits_same fc w j i (hall w hw) j1 j2 hi j3).1
    rw [j4, this]

/-- The transfer leaves the bitmap and screen buffer of the other parity
alone. -/
theorem transfer_other (koala : Nat → Nat) (fc fc2 : Nat) (l : List Nat) (mem : Nat → Nat)
    (i : Nat) (hall : ∀ w ∈ l, SpanOK w) (hi : i < 9000) (hne : blitBase fc ≠ blitBase fc2) :
    transferSpans koala (blitBase fc) l mem (remoteAddr fc2 i) = mem (remoteAddr fc2 i) := by
  rcases transferSpans_weak koala (blitBase fc) l mem (remoteAddr fc2 i)
    with h | ⟨w, hw, j, j1, j2, j3, _⟩
  · exact h
  · exact absurd j3 (write_misses_other fc fc2 w j i (hall w hw) j1 j2 hi hne)

theorem firstBlitSpans_cover (i : Nat) (hi : i < 10000) : ∃ w ∈ firstBlitSpans, Covers w i := by
  have h0 : Covers (((0 <<< 18) ||| (8000 <<< 2) ||| 0) % 2 ^ 32) i ↔ i < 8000 := by
    unfold Covers regionFlag
    have e1 : spanFlag (((0 <<< 18) ||| (8000 <<< 2) ||| 0) % 2 ^ 32) = 0 := by decide
    have e2 : spanFrom (((0 <<< 18) ||| (8000 <<< 2) ||| 0) % 2 ^ 32) = 0 := by decide
    have e3 : spanTo (((0 <<< 18) ||| (8000 <<< 2) ||| 0) % 2 ^ 32) = 8000 := by decide
    rw [e1, e2, e3]
    split_ifs <;> omega
  have h1 : Covers (((8000 <<< 18) ||| (9000 <<< 2) ||| 1) % 2 ^ 32) i ↔
      (8000 ≤ i ∧ i < 9000) := by
    unfold Covers regionFlag
    have e1 : spanFlag (((8000 <<< 18) ||| (9000 <<< 2) ||| 1) % 2 ^ 32) = 1 := by decide
    have e2 : spanFrom (((8000 <<< 18) ||| (9000 <<< 2) ||| 1) % 2 ^ 32) = 8000 := by decide
    have e3 : spanTo (((8000 <<< 18) ||| (9000 <<< 2) ||| 1) % 2 ^ 32) = 9000 := by decide
    rw [e1, e2, e3]
    split_ifs <;> omega
  have h2 : Covers (((9000 <<< 18) ||| (10000 <<< 2) ||| 2) % 2 ^ 32) i ↔
      (9000 ≤ i ∧ i < 10000) := by
    unfold Covers regionFlag
    have e1 : spanFlag (((9000 <<< 18) ||| (10000 <<< 2) ||| 2) % 2 ^ 32) = 2 := by decide
    have e2 : spanFrom (((9000 <<< 18) ||| (10000 <<< 2) ||| 2) % 2 ^ 32) = 9000 := by decide
    have e3 : spanTo (((9000 <<< 18) ||| (10000 <<< 2) ||| 2) % 2 ^ 32) = 10000 := by decide
    rw [e1, e2, e3]
    split_ifs <;> omega
  unfold firstBlitSpans
  by_cases c1 : i < 8000
  · exact ⟨_, List.mem_cons_self _ _, h0.2 c1⟩
  · by_cases c2 : i < 9000
    · exact ⟨_, List.mem_cons_of_mem _ (List.mem_cons_self _ _), h1.2 ⟨by omega, c2⟩⟩
    · exact ⟨_, List.mem_cons_of_mem _ (List.mem_cons_of_mem _ (List.mem_cons_self _ _)),
        h2.2 ⟨by omega, hi⟩⟩

/-! ### Parity -/

theorem and_one_cases (fc : Nat) : fc &&& 1 = 0 ∨ fc &&& 1 = 1 := by
  rw [Nat.and_one_is_mod]; omega

theorem parity_congr (fc fc2 : Nat) (h : fc % 2 = fc2 % 2) :
    blitBase fc = blitBase fc2 ∧ prevScreenOfs fc = prevScreenOfs fc2 ∧
    (∀ i, remoteAddr fc i = remoteAddr fc2 i) ∧ (∀ i, prevIndex fc i = prevIndex fc2 i) := by
  have hb : blitBase fc = blitBase fc2 := by
    unfold blitBase
    rw [Nat.and_one_is_mod, Nat.and_one_is_mod, h]
  have ho : prevScreenOfs fc = prevScreenOfs fc2 := by
    unfold prevScreenOfs
    rw [Nat.and_one_is_mod, Nat.and_one_is_mod, h]
  refine ⟨hb, ho, ?_, ?_⟩
  · intro i; unfold remoteAddr; rw [hb]
  · intro i; unfold prevIndex; rw [ho]

theorem parity_ne (fc fc2 : Nat) (h : fc % 2 ≠ fc2 % 2) :
    blitBase fc ≠ blitBase fc2 ∧
    ((prevScreenOfs fc = 0 ∧ prevScreenOfs fc2 = 10000) ∨
      (prevScreenOfs fc = 10000 ∧ prevScreenOfs fc2 = 0)) := by
  unfold blitBase prevScreenOfs
  rw [Nat.and_one_is_mod, Nat.and_one_is_mod]
  have h1 : fc % 2 = 0 ∨ fc % 2 = 1 := by omega
  have h2 : fc2 % 2 = 0 ∨ fc2 % 2 = 1 := by omega
  rcases h1 with h1 | h1 <;> rcases h2 with h2 | h2 <;> rw [h1, h2] <;> simp <;> omega

theorem prevScreenOfs_cases (fc : Nat) : prevScreenOfs fc = 0 ∨ prevScreenOfs fc = 10000 := by
  unfold prevScreenOfs
  split
  · right; rfl
  · left; rfl

theorem synced_congr (s : BlitState) (fc fc2 : Nat) (h : fc % 2 = fc2 % 2)
    (hs : Synced s fc) : Synced s fc2 := by
  obtain ⟨_, _, h3, h4⟩ := parity_congr fc fc2 h
  intro i hi
  rw [← h3 i, ← h4 i]
  exact hs i hi

/-! ### One invocation and sequences of invocations -/

theorem blit_fields (s : BlitState) (f : Nat → Nat) :
    (blitScreenDOOM s f).fc = (s.fc + 1) % 256 ∧
    (blitScreenDOOM s f).firstBlit = (if s.firstBlit ≠ 0 then s.firstBlit - 1 else s.firstBlit) ∧
    (blitScreenDOOM s f).mem =
      transferSpans f (blitBase s.fc) (blitSpans s f).1 s.mem ∧
    (blitScreenDOOM s f).prevScreenBuffer =
      memcpy (memcpy s.prevScreenBuffer (prevScreenOfs s.fc) f 0 10000) 9000 f 9000 1000 :=
  ⟨rfl, rfl, rfl, rfl⟩

theorem memcpy_in (dst : Nat → Nat) (d : Nat) (src : Nat → Nat) (s n x : Nat)
    (h1 : d ≤ x) (h2 : x < d + n) : memcpy dst d src s n x = src (x - d + s) := by
  unfold memcpy
  rw [if_pos ⟨h1, h2⟩]

theorem memcpy_out (dst : Nat → Nat) (d : Nat) (src : Nat → Nat) (s n x : Nat)
    (h : x < d ∨ d + n ≤ x) : memcpy dst d src s n x = dst x := by
  unfold memcpy
  rw [if_neg (by omega)]

/-- After an invocation the previous-frame buffer holds the frame in the slot
of the invocation. -/
theorem blit_prev_cur (s : BlitState) (f : Nat → Nat) (i : Nat) (hi : i < 10000) :
    (blitScreenDOOM s f).prevScreenBuffer (prevIndex s.fc i) = f i := by
  rw [(blit_fields s f).2.2.2]
  unfold prevIndex
  by_cases h9 : i < 9000
  · rw [if_pos h9]
    rcases prevScreenOfs_cases s.fc with h | h
    · rw [memcpy_out _ _ _ _ _ _ (by omega), memcpy_in _ _ _ _ _ _ (by omega) (by omega)]
      exact congrArg f (by omega)
    · rw [memcpy_out _ _ _ _ _ _ (by omega), memcpy_in _ _ _ _ _ _ (by omega) (by omega)]
      exact congrArg f (by omega)
  · rw [if_neg h9, memcpy_in _ _ _ _ _ _ (by omega) (by omega)]
    exact congrArg f (by omega)

/-- The bitmap and screen part of the slot of the other parity is not
touched. -/
theorem blit_prev_other (s : BlitState) (f : Nat → Nat) (fc2 : Nat)
    (hne : s.fc % 2 ≠ fc2 % 2) (i : Nat) (hi : i < 9000) :
    (blitScreenDOOM s f).prevScreenBuffer (prevIndex fc2 i) =
      s.prevScreenBuffer (prevIndex fc2 i) := by
  rw [(blit_fields s f).2.2.2]
  unfold prevIndex
  rw [if_pos hi]
  rcases (parity_ne s.fc fc2 hne).2 with ⟨h1, h2⟩ | ⟨h1, h2⟩
  · rw [memcpy_out _ _ _ _ _ _ (by omega), memcpy_out _ _ _ _ _ _ (by omega)]
  · rw [memcpy_out _ _ _ _ _ _ (by omega), memcpy_out _ _ _ _ _ _ (by omega)]

/-- After an invocation the remote buffer of its parity and colour RAM hold
the frame, provided the buffer was in step with the previous-frame buffer
whenever the invocation diffs. -/
theorem blit_mem_cur (s : BlitState) (f : Nat → Nat)
    (hs : s.firstBlit = 0 → Synced s s.fc) (i : Nat) (hi : i < 10000) :
    (blitScreenDOOM s f).mem (remoteAddr s.fc i) = f i := by
  rw [(blit_fields s f).2.2.1]
  by_cases hfb : s.firstBlit = 0
  · by_cases hch : f i = s.prevScreenBuffer (prevIndex s.fc i)
    · rcases transfer_frame_weak f s.fc (blitSpans s f).1 s.mem i (blitSpans_ok s f) hi
        with h | h
      · rw [h, hs hfb i hi, hch]
      · exact h
    · apply transfer_covered f s.fc _ s.mem i (blitSpans_ok s f) hi
      rw [blitSpans_diff s f hfb]
      apply (buildSpans_spec _ _ _ _).2.2.2.1 i hi
      rw [frameDiff_iff]
      exact Or.inl hch
  · apply transfer_covered f s.fc _ s.mem i (blitSpans_ok s f) hi
    rw [blitSpans_first s f hfb]
    exact firstBlitSpans_cover i hi

theorem blit_synced_cur (s : BlitState) (f : Nat → Nat)
    (hs : s.firstBlit = 0 → Synced s s.fc) : Synced (blitScreenDOOM s f) s.fc := by
  intro i hi
  rw [blit_mem_cur s f hs i hi, blit_prev_cur s f i hi]

theorem blit_synced_other (s : BlitState) (f : Nat → Nat) (fc2 : Nat)
    (hne : s.fc % 2 ≠ fc2 % 2) (hs : s.firstBlit = 0 → Synced s s.fc)
    (h2 : Synced s fc2) : Synced (blitScreenDOOM s f) fc2 := by
  intro i hi
  by_cases h9 : i < 9000
  · rw [blit_prev_other s f fc2 hne i h9, (blit_fields s f).2.2.1,
      transfer_other f s.fc fc2 _ s.mem i (blitSpans_ok s f) h9 (parity_ne s.fc fc2 hne).1]
    exact h2 i hi
  · have e1 : remoteAddr fc2 i = remoteAddr s.fc i := by
      unfold remoteAddr
      rw [if_neg (by omega), if_neg h9, if_neg (by omega), if_neg h9]
    have e2 : prevIndex fc2 i = prevIndex s.fc i := by
      unfold prevIndex
      rw [if_neg h9, if_neg h9]
    rw [e1, e2]
    exact blit_synced_cur s f hs i hi

/-- The invariant is kept by an invocation. -/
theorem blit_inv (s : BlitState) (f : Nat → Nat) (inv : BlitInv s) :
    BlitInv (blitScreenDOOM s f) := by
  obtain ⟨i1, i2, i3⟩ := inv
  have hs : s.firstBlit = 0 → Synced s s.fc := by
    intro h
    have p : s.fc % 2 = 0 ∨ s.fc % 2 = 1 := by omega
    rcases p with p | p
    · exact synced_congr s 0 s.fc (by omega) (i2 h).1
    · exact synced_congr s 1 s.fc (by omega) (i2 h).2
  have hcur := blit_synced_cur s f hs
  obtain ⟨e1, e2, _, _⟩ := blit_fields s f
  refine ⟨?_, ?_, ?_⟩
  · rw [e2]; split_ifs <;> omega
  · intro h0
    rw [e2] at h0
    have hfb : s.firstBlit = 0 ∨ s.firstBlit = 1 := by
      split_ifs at h0 <;> omega
    -- the buffer of the other parity was in step before the invocation
    have hoth : Synced s (s.fc + 1) := by
      rcases hfb with h | h
      · have p : s.fc % 2 = 0 ∨ s.fc % 2 = 1 := by omega
        rcases p with p | p
        · exact synced_congr s 1 (s.fc + 1) (by omega) (i2 h).2
        · exact synced_congr s 0 (s.fc + 1) (by omega) (i2 h).1
      · exact i3 h
    have hoth2 := blit_synced_other s f (s.fc + 1) (by omega) hs hoth
    have p : s.fc % 2 = 0 ∨ s.fc % 2 = 1 := by omega
    rcases p with p | p
    · exact ⟨synced_congr _ s.fc 0 (by omega) hcur, synced_congr _ (s.fc + 1) 1 (by omega) hoth2⟩
    · exact ⟨synced_congr _ (s.fc + 1) 0 (by omega) hoth2, synced_congr _ s.fc 1 (by omega) hcur⟩
  · intro _
    rw [e1]
    exact synced_congr _ s.fc _ (by omega) hcur

theorem blit_inv_foldl (frames : List (Nat → Nat)) (s : BlitState) (inv : BlitInv s) :
    BlitInv (frames.foldl blitScreenDOOM s) := by
  induction frames generalizing s with
  | nil => exact inv
  | cons f t ih => exact ih _ (blit_inv s f inv)

theorem restart_inv (s : BlitState) (h : s.firstBlit = 2) : BlitInv s :=
  ⟨by omega, fun h0 => by omega, fun h1 => by omega⟩

/-- C4: with the remote memory as a function of the address and every write
of the transfer loop taking effect, start from any state in which
`firstBlit` is 2 (a start or a restart) and run `blitScreenDOOM` on any
frames, then on a frame `f`.  After that invocation the remote buffer of the
invocation's parity holds bytes 0 to 8999 of `f` (bitmap at `0x2000 + base`,
screen RAM at `0x0400 + base`), colour RAM at `0xd800` holds bytes 9000 to
9999, and the previous-frame buffer holds the same bytes in the slot that the
next diff of this parity reads. -/
theorem remote_matches_frame (s0 : BlitState) (h : s0.firstBlit = 2)
    (frames : List (Nat → Nat)) (f : Nat → Nat) (i : Nat) (hi : i < 10000) :
    (blitScreenDOOM (frames.foldl blitScreenDOOM s0) f).mem
        (remoteAddr (frames.foldl blitScreenDOOM s0).fc i) = f i ∧
    (blitScreenDOOM (frames.foldl blitScreenDOOM s0) f).prevScreenBuffer
        (prevIndex (frames.foldl blitScreenDOOM s0).fc i) = f i := by
  have inv := blit_inv_foldl frames s0 (restart_inv s0 h)
  generalize frames.foldl blitScreenDOOM s0 = s at inv ⊢
  obtain ⟨_, i2, _⟩ := inv
  have hs : s.firstBlit = 0 → Synced s s.fc := by
    intro h
    have p : s.fc % 2 = 0 ∨ s.fc % 2 = 1 := by omega
    rcases p with p | p
    · exact synced_congr s 0 s.fc (by omega) (i2 h).1
    · exact synced_congr s 1 s.fc (by omega) (i2 h).2
  exact ⟨blit_mem_cur s f hs i hi, blit_prev_cur s f i hi⟩

theorem remote_matches_frame_witness :
    ((restartIncrementalBlitter idleState).firstBlit = 2 ∧ 16 < 10000) ∧
    ((blitScreenDOOM ([zeroFrame, zeroFrame, sampleFrame].foldl blitScreenDOOM
        (restartIncrementalBlitter idleState)) zeroFrame).mem
        (remoteAddr ([zeroFrame, zeroFrame, sampleFrame].foldl blitScreenDOOM
          (restartIncrementalBlitter idleState)).fc 16) = zeroFrame 16 ∧
    (blitScreenDOOM ([zeroFrame, zeroFrame, sampleFrame].foldl blitScreenDOOM
        (restartIncrementalBlitter idleState)) zeroFrame).prevScreenBuffer
        (prevIndex ([zeroFrame, zeroFrame, sampleFrame].foldl blitScreenDOOM
          (restartIncrementalBlitter idleState)).fc 16) = zeroFrame 16) :=
  ⟨by decide, remote_matches_frame (restartIncrementalBlitter idleState) (by decide)
    [zeroFrame, zeroFrame, sampleFrame] zeroFrame 16 (by decide)⟩

/-! ### Span descriptors and the first blit -/

/-- C18: for every start offset and exclusive end offset below 16384 and every
flag below 4, the fields that the transfer loop unpacks from the 32-bit word
`( from << 18 ) | ( to << 2 ) | flag` are the packed triple, and bits 16 and
17 of the word are zero. -/
theorem span_pack_roundtrip (a b f : Nat) (ha : a < 16384) (hb : b < 16384) (hf : f < 4) :
    spanFrom (packSpan a b f) = a ∧ spanTo (packSpan a b f) = b ∧
    spanFlag (packSpan a b f) = f ∧ (packSpan a b f >>> 16) &&& 3 = 0 ∧
    packSpan a b f < 2 ^ 32 := by
  obtain ⟨u1, u2, u3⟩ := unpack_packSpan a b f ha hb hf
  refine ⟨u1, u2, u3, ?_, ?_⟩
  · rw [packSpan_eq a b f ha hb hf]
    have e2 : (3 : Nat) = 2 ^ 2 - 1 := by norm_num
    rw [e2, Nat.and_pow_two_sub_one_eq_mod, Nat.shiftRight_eq_div_pow]
    omega
  · rw [packSpan_eq a b f ha hb hf]
    omega

theorem span_pack_roundtrip_witness :
    (9000 < 16384 ∧ 9001 < 16384 ∧ 1 < 4) ∧
    (spanFrom (packSpan 9000 9001 1) = 9000 ∧ spanTo (packSpan 9000 9001 1) = 9001 ∧
    spanFlag (packSpan 9000 9001 1) = 1 ∧ (packSpan 9000 9001 1 >>> 16) &&& 3 = 0 ∧
    packSpan 9000 9001 1 < 2 ^ 32) :=
  ⟨by decide, span_pack_roundtrip 9000 9001 1 (by decide) (by decide) (by decide)⟩

/-- C20: on an invocation that finds `firstBlit = 2`, the value set at start
and by `restartIncrementalBlitter`, the span list is exactly the three spans
0 to 8000 with flag 0, 8000 to 9000 with flag 1 and 9000 to 10000 with flag 2,
whatever the frame and the previous-frame buffer hold. -/
theorem first_blit_spans (s t : BlitState) (koalaData : Nat → Nat) (h : s.firstBlit = 2) :
    (blitSpans s koalaData).1.map (fun w => (spanFrom w, spanTo w, spanFlag w)) =
      [(0, 8000, 0), (8000, 9000, 1), (9000, 10000, 2)] ∧
    (restartIncrementalBlitter t).firstBlit = 2 ∧
    (blitSpans (restartIncrementalBlitter t) koalaData).1.map
        (fun w => (spanFrom w, spanTo w, spanFlag w)) =
      [(0, 8000, 0), (8000, 9000, 1), (9000, 10000, 2)] := by
  refine ⟨?_, rfl, ?_⟩
  · rw [blitSpans_first s koalaData (by omega)]
    exact firstBlitSpans_fields
  · rw [blitSpans_first (restartIncrementalBlitter t) koalaData
      (by show (2 : Nat) ≠ 0; omega)]
    exact firstBlitSpans_fields

theorem first_blit_spans_witness :
    (restartIncrementalBlitter idleState).firstBlit = 2 ∧
    ((blitSpans (restartIncrementalBlitter idleState) sampleFrame).1.map
        (fun w => (spanFrom w, spanTo w, spanFlag w)) =
      [(0, 8000, 0), (8000, 9000, 1), (9000, 10000, 2)] ∧
    (restartIncrementalBlitter idleState).firstBlit = 2 ∧
    (blitSpans (restartIncrementalBlitter idleState) sampleFrame).1.map
        (fun w => (spanFrom w, spanTo w, spanFlag w)) =
      [(0, 8000, 0), (8000, 9000, 1), (9000, 10000, 2)]) :=
  ⟨by decide, first_blit_spans (restartIncrementalBlitter idleState) idleState sampleFrame
    (by decide)⟩

/-! ### The mouse -/

theorem getD_set_int (l : List Int) (i j : Nat) (v : Int) :
    (l.set i v).getD j 0 = if i = j ∧ i < l.length then v else l.getD j 0 := by
  simp only [List.getD_eq_getElem?_getD, List.getElem?_set]
  by_cases hij : i = j
  · subst hij
    by_cases hi : i < l.length
    · simp [hi]
    · simp [hi, List.getElem?_eq_none (Nat.le_of_not_lt hi)]
  · simp [hij]

/-- C15 as stated fails: with an accumulated x delta of 2 and an accumulated y
delta of -7, `DG_MouseData` returns 1 and reports 0 for x, and the accumulated
x delta is still 2 after the call. -/
theorem mouse_delta_kept_in_dead_zone :
    (DG_MouseData { initialInput with mouseDoomData := [2, -7, 1, 1], mouseControlActive := 1 }
      0 0 0).1 = 1 ∧
    (DG_MouseData { initialInput with mouseDoomData := [2, -7, 1, 1], mouseControlActive := 1 }
      0 0 0).2.2.2.2.mouseDoomData = [2, 0, 1, 0] ∧
    (DG_MouseData { initialInput with mouseDoomData := [2, -7, 1, 1], mouseControlActive := 1 }
      0 0 0).2.2.1 = 0 := by
  decide

/-- C15, amended: when `DG_MouseData` returns 1, each accumulated delta whose
magnitude is at least 4 has been reported (x times 6, y times 1) and is zero
after the call, and each accumulated delta of magnitude below 4 has been
reported as 0 and is unchanged; so both have magnitude below 4 after the
call, and the event flag `mouseDoomData[ 3 ]` is cleared. -/
theorem mouse_read_clears_reported (s : InputState) (mb rx ry : Int)
    (hlen : s.mouseDoomData.length = 4) (h : (DG_MouseData s mb rx ry).1 = 1) :
    ((s.mouseDoomData.getD 0 0).natAbs < 4 →
      (DG_MouseData s mb rx ry).2.2.2.2.mouseDoomData.getD 0 0 = s.mouseDoomData.getD 0 0 ∧
      (DG_MouseData s mb rx ry).2.2.1 = 0) ∧
    (4 ≤ (s.mouseDoomData.getD 0 0).natAbs →
      (DG_MouseData s mb rx ry).2.2.2.2.mouseDoomData.getD 0 0 = 0 ∧
      (DG_MouseData s mb rx ry).2.2.1 = s.mouseDoomData.getD 0 0 * 6) ∧
    ((s.mouseDoomData.getD 1 0).natAbs < 4 →
      (DG_MouseData s mb rx ry).2.2.2.2.mouseDoomData.getD 1 0 = s.mouseDoomData.getD 1 0 ∧
      (DG_MouseData s mb rx ry).2.2.2.1 = 0) ∧
    (4 ≤ (s.mouseDoomData.getD 1 0).natAbs →
      (DG_MouseData s mb rx ry).2.2.2.2.mouseDoomData.getD 1 0 = 0 ∧
      (DG_MouseData s mb rx ry).2.2.2.1 = s.mouseDoomData.getD 1 0 * 1) ∧
    ((DG_MouseData s mb rx ry).2.2.2.2.mouseDoomData.getD 0 0).natAbs < 4 ∧
    ((DG_MouseData s mb rx ry).2.2.2.2.mouseDoomData.getD 1 0).natAbs < 4 ∧
    (DG_MouseData s mb rx ry).2.2.2.2.mouseDoomData.getD 3 0 = 0 ∧
    (DG_MouseData s mb rx ry).2.1 = s.mouseDoomData.getD 2 0 := by
  by_cases hc : s.mouseDoomData.getD 3 0 ≠ 0 ∧ s.mouseControlActive ≠ 0
  · have e0 : (s.mouseDoomData.set 3 0).getD 0 0 = s.mouseDoomData.getD 0 0 := by
      rw [getD_set_int, if_neg (by omega)]
    have e1 : (s.mouseDoomData.set 3 0).getD 1 0 = s.mouseDoomData.getD 1 0 := by
      rw [getD_set_int, if_neg (by omega)]
    have e2 : (s.mouseDoomData.set 3 0).getD 2 0 = s.mouseDoomData.getD 2 0 := by
      rw [getD_set_int, if_neg (by omega)]
    have e3 : (s.mouseDoomData.set 3 0).getD 3 0 = 0 := by
      rw [getD_set_int, if_pos ⟨rfl, by omega⟩]
    have f0 : ∀ l : List Int, l.length = 4 → (l.set 0 0).getD 0 0 = 0 ∧
        (l.set 0 0).getD 1 0 = l.getD 1 0 ∧ (l.set 0 0).getD 2 0 = l.getD 2 0 ∧
        (l.set 0 0).getD 3 0 = l.getD 3 0 := by
      intro l hl
      refine ⟨?_, ?_, ?_, ?_⟩
      · rw [getD_set_int, if_pos ⟨rfl, by omega⟩]
      · rw [getD_set_int, if_neg (by omega)]
      · rw [getD_set_int, if_neg (by omega)]
      · rw [getD_set_int, if_neg (by omega)]
    have f1 : ∀ l : List Int, l.length = 4 → (l.set 1 0).getD 0 0 = l.getD 0 0 ∧
        (l.set 1 0).getD 1 0 = 0 ∧ (l.set 1 0).getD 2 0 = l.getD 2 0 ∧
        (l.set 1 0).getD 3 0 = l.getD 3 0 := by
      intro l hl
      refine ⟨?_, ?_, ?_, ?_⟩
      · rw [getD_set_int, if_neg (by omega)]
      · rw [getD_set_int, if_pos ⟨rfl, by omega⟩]
      · rw [getD_set_int, if_neg (by omega)]
      · rw [getD_set_int, if_neg (by omega)]
    have hl3 : (s.mouseDoomData.set 3 0).length = 4 := by rw [List.length_set]; exact hlen
    obtain ⟨a0, a1, a2, a3⟩ := f0 _ hl3
    obtain ⟨b0, b1, b2, b3⟩ := f1 _ hl3
    have hl30 : ((s.mouseDoomData.set 3 0).set 0 0).length = 4 := by
      rw [List.length_set]; exact hl3
    obtain ⟨c0, c1, c2, c3⟩ := f1 _ hl30
    by_cases hx : (s.mouseDoomData.getD 0 0).natAbs < 4
    · by_cases hy : (s.mouseDoomData.getD 1 0).natAbs < 4
      · have hres : DG_MouseData s mb rx ry =
            (1, s.mouseDoomData.getD 2 0, 0, 0,
              { s with mouseDoomData := s.mouseDoomData.set 3 0 }) := by
          unfold DG_MouseData
          rw [if_pos hc]
          simp only [e0, e1, e2, hx, hy, if_true]
        rw [hres]
        dsimp only
        rw [e0, e1, e3]
        exact ⟨fun _ => ⟨rfl, rfl⟩, fun h4 => by omega, fun _ => ⟨rfl, rfl⟩,
          fun h4 => by omega, hx, hy, rfl, rfl⟩
      · have hres : DG_MouseData s mb rx ry =
            (1, s.mouseDoomData.getD 2 0, 0, s.mouseDoomData.getD 1 0 * 1,
              { s with mouseDoomData := (s.mouseDoomData.set 3 0).set 1 0 }) := by
          unfold DG_MouseData
          rw [if_pos hc]
          simp only [e0, e1, e2, hx, hy, if_true, if_false, b2]
        rw [hres]
        dsimp only
        rw [b0, b1, b3, e0, e3]
        exact ⟨fun _ => ⟨rfl, rfl⟩, fun h4 => by omega, fun h4 => by omega,
          fun _ => ⟨rfl, rfl⟩, hx, by decide, rfl, rfl⟩
    · by_cases hy : (s.mouseDoomData.getD 1 0).natAbs < 4
      · have hres : DG_MouseData s mb rx ry =
            (1, s.mouseDoomData.getD 2 0, s.mouseDoomData.getD 0 0 * 6, 0,
              { s with mouseDoomData := (s.mouseDoomData.set 3 0).set 0 0 }) := by
          unfold DG_MouseData
          rw [if_pos hc]
          simp only [e0, e1, e2, hx, hy, if_true, if_false, a1, a2]
        rw [hres]
        dsimp only
        rw [a0, a1, a3, e1, e3]
        exact ⟨fun h4 => by omega, fun _ => ⟨rfl, rfl⟩, fun _ => ⟨rfl, rfl⟩,
          fun h4 => by omega, by decide, hy, rfl, rfl⟩
      · have hres : DG_MouseData s mb rx ry =
            (1, s.mouseDoomData.getD 2 0, s.mouseDoomData.getD 0 0 * 6,
              s.mouseDoomData.getD 1 0 * 1,
              { s with mouseDoomData := ((s.mouseDoomData.set 3 0).set 0 0).set 1 0 }) := by
          unfold DG_MouseData
          rw [if_pos hc]
          simp only [e0, e1, e2, hx, hy, if_true, if_false, a1, a2, c2]
        rw [hres]
        dsimp only
        rw [c0, c1, c3, a0, a3, e3]
        exact ⟨fun h4 => by omega, fun _ => ⟨rfl, rfl⟩, fun h4 => by omega,
          fun _ => ⟨rfl, rfl⟩, by decide, by decide, rfl, rfl⟩
  · unfold DG_MouseData at h
    rw [if_neg hc] at h
    simp at h

theorem mouse_read_clears_reported_witness :
    (({ initialInput with mouseDoomData := [2, -7, 1, 1], mouseControlActive := 1 } :
        InputState).mouseDoomData.length = 4 ∧
      (DG_MouseData { initialInput with mouseDoomData := [2, -7, 1, 1], mouseControlActive := 1 }
        0 0 0).1 = 1) ∧
    (DG_MouseData { initialInput with mouseDoomData := [2, -7, 1, 1], mouseControlActive := 1 }
      0 0 0).2.1 = 1 :=
  ⟨by decide, (mouse_read_clears_reported
    { initialInput with mouseDoomData := [2, -7, 1, 1], mouseControlActive := 1 } 0 0 0
    (by decide) (by decide)).2.2.2.2.2.2.2⟩

theorem mouseAxisUpdate_other (mouseData : List Nat) (s : InputState) (i j : Nat) (h : j ≠ i) :
    (mouseAxisUpdate mouseData s j).delta.getD i 0 = s.delta.getD i 0 ∧
    (mouseAxisUpdate mouseData s j).mouseDoomData.getD i 0 = s.mouseDoomData.getD i 0 ∧
    (mouseAxisUpdate mouseData s j).mouseLastVal.getD i 0 = s.mouseLastVal.getD i 0 ∧
    (mouseAxisUpdate mouseData s j).mouseMinVal = s.mouseMinVal ∧
    (mouseAxisUpdate mouseData s j).mouseMaxVal = s.mouseMaxVal ∧
    (mouseAxisUpdate mouseData s j).delta.length = s.delta.length ∧
    (mouseAxisUpdate mouseData s j).mouseDoomData.length = s.mouseDoomData.length ∧
    (mouseAxisUpdate mouseData s j).mouseLastVal.length = s.mouseLastVal.length := by
  unfold mouseAxisUpdate
  dsimp only
  refine ⟨?_, ?_, ?_, rfl, rfl, ?_, ?_, ?_⟩
  · rw [getD_set_int, if_neg (fun e => h e.1)]
  · rw [getD_set_int, if_neg (fun e => h e.1)]
  · rw [getD_set_int, if_neg (fun e => h e.1)]
  · rw [List.length_set]
  · rw [List.length_set]
  · rw [List.length_set]

/-- The wrap-around branch of the axis update: with the axis calibrated to 0
and 255 and a drop of at least 127, the delta is `cur + 255 - last`. -/
theorem mouseAxisUpdate_wrap (mouseData : List Nat) (s : InputState) (i : Nat)
    (hd : i < s.delta.length) (hm : i < s.mouseDoomData.length)
    (hmin : s.mouseMinVal.getD i 0 = 0) (hmax : s.mouseMaxVal.getD i 0 = 255)
    (hdrop : 127 ≤ s.mouseLastVal.getD i 0 - (mouseData.getD i 0 : Int)) :
    (mouseAxisUpdate mouseData s i).delta.getD i 0 =
      (mouseData.getD i 0 : Int) + 255 - s.mouseLastVal.getD i 0 ∧
    (mouseAxisUpdate mouseData s i).mouseDoomData.getD i 0 =
      s.mouseDoomData.getD i 0 + ((mouseData.getD i 0 : Int) + 255 - s.mouseLastVal.getD i 0) := by
  unfold mouseAxisUpdate
  dsimp only
  rw [getD_set_int, getD_set_int,
    if_pos (⟨rfl, hd⟩ : i = i ∧ i < s.delta.length),
    if_pos (⟨rfl, hm⟩ : i = i ∧ i < s.mouseDoomData.length), hmin, hmax]
  have hspan : Int.tdiv (255 - 0) 2 = 127 := by decide
  rw [hspan]
  have h1 : ¬ ((mouseData.getD i 0 : Int) - s.mouseLastVal.getD i 0 > 0 ∧
      ((mouseData.getD i 0 : Int) - s.mouseLastVal.getD i 0 ≥ 127 ∨ s.delta.getD i 0 ≥ 127)) := by
    intro h; omega
  have h2 : (mouseData.getD i 0 : Int) - s.mouseLastVal.getD i 0 < 0 ∧
      (-((mouseData.getD i 0 : Int) - s.mouseLastVal.getD i 0) ≥ 127 ∨
        -s.delta.getD i 0 ≥ 127) := ⟨by omega, Or.inl (by omega)⟩
  rw [if_neg h1, if_pos h2]
  constructor <;> omega

/-- C14: with the axis calibrated to min 0 and max 255 and a fresh decoder
state, the raw samples 250, 252, 254, 0, 2 on an axis (the other axis held at
128) give the accumulated motion 0, 2, 4, 5, 7 on that axis, which increases
strictly after the first sample; and in general, for an axis calibrated to 0
and 255 in a state past its first sample, a call of `handleMouseUpdate` whose
sample `cur` lies at least 127 below the previous sample `last` sets the
delta of the axis to `cur + 255 - last`, which is not negative, and adds it
to the accumulated motion. -/
theorem mouse_wraparound (s : InputState) (mouseData : List Nat) (i : Nat) (hi : i < 2)
    (hfirst : s.mouseFirstPos = 0)
    (hlen : s.delta.length = 2 ∧ s.mouseDoomData.length = 4 ∧ s.mouseLastVal.length = 2 ∧
      s.mouseMinVal.length = 2 ∧ s.mouseMaxVal.length = 2)
    (hmin : s.mouseMinVal.getD i 0 = 0) (hmax : s.mouseMaxVal.getD i 0 = 255)
    (hcur : mouseData.getD i 0 < 256) (hlast : s.mouseLastVal.getD i 0 ≤ 255)
    (hdrop : 127 ≤ s.mouseLastVal.getD i 0 - (mouseData.getD i 0 : Int)) :
    ((handleMouseUpdate s mouseData).delta.getD i 0 =
        (mouseData.getD i 0 : Int) + 255 - s.mouseLastVal.getD i 0 ∧
      0 ≤ (handleMouseUpdate s mouseData).delta.getD i 0 ∧
      (handleMouseUpdate s mouseData).mouseDoomData.getD i 0 =
        s.mouseDoomData.getD i 0 +
          ((mouseData.getD i 0 : Int) + 255 - s.mouseLastVal.getD i 0)) ∧
    mouseTrace 0 calibratedInput
        [[250, 128, 0], [252, 128, 0], [254, 128, 0], [0, 128, 0], [2, 128, 0]] =
      [0, 2, 4, 5, 7] ∧
    mouseTrace 1 calibratedInput
        [[128, 250, 0], [128, 252, 0], [128, 254, 0], [128, 0, 0], [128, 2, 0]] =
      [0, 2, 4, 5, 7] := by
  refine ⟨?_, by decide, by decide⟩
  obtain ⟨l1, l2, l3, l4, l5⟩ := hlen
  -- the state handed to the loop over the two axes
  have hs2 : ∃ s2 : InputState, handleMouseUpdate s mouseData =
      { (List.range 2).foldl (mouseAxisUpdate mouseData) s2 with
        mouseDoomData := (((List.range 2).foldl (mouseAxisUpdate mouseData) s2).mouseDoomData.set 2
          (mouseData.getD 2 0 : Int)).set 3 1 } ∧
      s2.delta = s.delta ∧ s2.mouseDoomData = s.mouseDoomData ∧
      s2.mouseLastVal = s.mouseLastVal ∧ s2.mouseMinVal.getD i 0 = 0 ∧
      s2.mouseMaxVal.getD i 0 = 255 := by
    refine ⟨{ s with
      mouseMinVal := (s.mouseMinVal.set 0
        (min (s.mouseMinVal.getD 0 0) (mouseData.getD 0 0 : Int))).set 1
        (min (s.mouseMinVal.getD 1 0) (mouseData.getD 1 0 : Int))
      mouseMaxVal := (s.mouseMaxVal.set 0
        (max (s.mouseMaxVal.getD 0 0) (mouseData.getD 0 0 : Int))).set 1
        (max (s.mouseMaxVal.getD 1 0) (mouseData.getD 1 0 : Int)) }, ?_, ?_, ?_, ?_, ?_, ?_⟩
    · unfold handleMouseUpdate
      dsimp only
      rw [if_neg (by rw [hfirst]; decide)]
    · rfl
    · rfl
    · rfl
    · dsimp only
      have hi2 : i = 0 ∨ i = 1 := by omega
      rcases hi2 with rfl | rfl
      · rw [getD_set_int, if_neg (by omega), getD_set_int, if_pos ⟨rfl, by omega⟩, hmin]
        omega
      · rw [getD_set_int, if_pos ⟨rfl, by rw [List.length_set]; omega⟩, hmin]
        omega
    · dsimp only
      have hi2 : i = 0 ∨ i = 1 := by omega
      rcases hi2 with rfl | rfl
      · rw [getD_set_int, if_neg (by omega), getD_set_int, if_pos ⟨rfl, by omega⟩, hmax]
        omega
      · rw [getD_set_int, if_pos ⟨rfl, by rw [List.length_set]; omega⟩, hmax]
        omega
  obtain ⟨s2, e, d1, d2, d3, d4, d5⟩ := hs2
  have hr : List.range 2 = [0, 1] := by decide
  rw [e, hr]
  simp only [List.foldl_cons, List.foldl_nil]
  have hfin : ∀ l : List Int, ((l.set 2 (mouseData.getD 2 0 : Int)).set 3 1).getD i 0 =
      l.getD i 0 := by
    intro l
    rw [getD_set_int, if_neg (by omega), getD_set_int, if_neg (by omega)]
  rw [hfin]
  have hi2 : i = 0 ∨ i = 1 := by omega
  rcases hi2 with rfl | rfl
  · obtain ⟨o1, o2, _⟩ := mouseAxisUpdate_other mouseData (mouseAxisUpdate mouseData s2 0) 0 1
      (by omega)
    obtain ⟨w1, w2⟩ := mouseAxisUpdate_wrap mouseData s2 0 (by rw [d1]; omega)
      (by rw [d2]; omega) d4 d5 (by rw [d3]; exact hdrop)
    rw [o1, o2, w1, w2, d2, d3]
    refine ⟨rfl, by omega, rfl⟩
  · obtain ⟨o1, o2, o3, o4, o5, o6, o7, _⟩ := mouseAxisUpdate_other mouseData s2 1 0 (by omega)
    obtain ⟨w1, w2⟩ := mouseAxisUpdate_wrap mouseData (mouseAxisUpdate mouseData s2 0) 1
      (by rw [o6, d1]; omega) (by rw [o7, d2]; omega) (by rw [o4]; exact d4)
      (by rw [o5]; exact d5) (by rw [o3, d3]; exact hdrop)
    rw [w1, w2, o2, o3, d2, d3]
    refine ⟨rfl, by omega, rfl⟩

theorem mouse_wraparound_witness :
    (0 < 2 ∧
      ({ calibratedInput with mouseFirstPos := 0, mouseLastVal := [254, 128] } :
        InputState).mouseFirstPos = 0 ∧
      (127 : Int) ≤ ({ calibratedInput with mouseFirstPos := 0, mouseLastVal := [254, 128] } :
        InputState).mouseLastVal.getD 0 0 - (([0, 128, 0] : List Nat).getD 0 0 : Int)) ∧
    (handleMouseUpdate { calibratedInput with mouseFirstPos := 0, mouseLastVal := [254, 128] }
      [0, 128, 0]).delta.getD 0 0 = 1 :=
  ⟨by decide, ((mouse_wraparound
    { calibratedInput with mouseFirstPos := 0, mouseLastVal := [254, 128] } [0, 128, 0] 0
    (by decide) (by decide) (by decide) (by decide) (by decide) (by decide) (by decide)
    (by decide)).1.1).trans (by decide)⟩

/-! ### The keyboard scan -/

theorem keyEvent_inner (matrix prevMatrix : List Nat) (i : Nat) (l : List Nat) (ev : List Nat) :
    l.foldl (keyEventStep matrix prevMatrix i) ev =
      ev ++ (((l.map (fun a => (i, a))).filter
        (fun p => bitChanged matrix prevMatrix p.1 p.2)).map
        (fun p => keyEvent matrix p.1 p.2)) := by
  induction l generalizing ev with
  | nil => simp
  | cons a t ih =>
    rw [List.foldl_cons, ih]
    unfold keyEventStep
    by_cases h : bitChanged matrix prevMatrix i a = true
    · rw [if_pos h]
      simp [List.filter_cons, h]
    · rw [if_neg h]
      simp [List.filter_cons, h]

theorem keyEvent_outer (matrix prevMatrix : List Nat) (l : List Nat) (ev : List Nat) :
    l.foldl (fun ev i => (List.range 8).foldl (keyEventStep matrix prevMatrix i) ev) ev =
      ev ++ (((l.flatMap (fun i => (List.range 8).map (fun a => (i, a)))).filter
        (fun p => bitChanged matrix prevMatrix p.1 p.2)).map
        (fun p => keyEvent matrix p.1 p.2)) := by
  induction l generalizing ev with
  | nil => simp
  | cons i t ih =>
    rw [List.foldl_cons, ih, keyEvent_inner]
    simp [List.flatMap_cons, List.filter_append]

theorem keyTable_byte : ∀ k < 64, keyTable.getD k 0 < 256 ∧
    keyTable.getD k 0 ||| 256 = keyTable.getD k 0 + 256 := by
  decide

theorem bitChanged_self (matrix : List Nat) (i a : Nat) : bitChanged matrix matrix i a = false := by
  unfold bitChanged
  simp

/-- C13: for every static state and every snapshot of the matrix, the events
stored by `readKeyDoom` are, in scan order (row bit `i` in the outer loop,
column `a` in the inner loop), one event for each position whose bit in the
snapshot differs from the bit in the previous snapshot and none for the other
positions; the event of position `(i, a)` is `keyTable[ i*8+a ]` with bit 8
set exactly when the bit of the snapshot is 0; the snapshot becomes the
previous snapshot; and on the first scan (`firstKeyScan` non-zero) no event is
stored. -/
theorem key_events_per_changed_bit (s : KeyScanState) (matrix : List Nat) :
    (readKeyDoom s matrix).1 =
      (scanOrder.filter (fun p => bitChanged matrix
          (if s.firstKeyScan ≠ 0 then matrix else s.prevMatrix) p.1 p.2)).map
        (fun p => keyEvent matrix p.1 p.2) ∧
    (∀ i a, i < 8 → a < 8 →
      keyEvent matrix i a % 256 = keyTable.getD (i * 8 + a) 0 ∧
      (keyEvent matrix i a / 256 = 1 ↔ (matrix.getD a 0 >>> i) &&& 1 = 0) ∧
      keyEvent matrix i a / 256 ≤ 1) ∧
    (s.firstKeyScan = 0 ∨ (readKeyDoom s matrix).1 = []) ∧
    (readKeyDoom s matrix).2.1 = (readKeyDoom s matrix).1.length % 256 ∧
    (readKeyDoom s matrix).2.2 = { firstKeyScan := 0, prevMatrix := matrix } := by
  have h1 : (readKeyDoom s matrix).1 =
      (scanOrder.filter (fun p => bitChanged matrix
          (if s.firstKeyScan ≠ 0 then matrix else s.prevMatrix) p.1 p.2)).map
        (fun p => keyEvent matrix p.1 p.2) := by
    unfold readKeyDoom scanOrder
    dsimp only
    rw [keyEvent_outer]
    simp
  refine ⟨h1, ?_, ?_, rfl, rfl⟩
  · intro i a hi ha
    have hk := keyTable_byte (i * 8 + a) (by omega)
    unfold keyEvent
    by_cases hb : (matrix.getD a 0 >>> i) &&& 1 = 0
    · rw [if_pos hb, hk.2]
      refine ⟨by omega, ?_, by omega⟩
      constructor
      · intro _; exact hb
      · intro _; omega
    · rw [if_neg hb]
      refine ⟨by omega, ?_, by omega⟩
      constructor
      · intro h; omega
      · intro h; exact absurd h hb
  · by_cases hf : s.firstKeyScan = 0
    · exact Or.inl hf
    · right
      rw [h1, if_pos hf]
      simp [bitChanged_self]

/-! ### The key queue -/

theorem convertToDoomKey_some (keys : DoomKeys) (m : Int) (key : Nat) (h : key ≠ 136) :
    ∃ k, convertToDoomKey keys m key = some k ∧ k < 256 := by
  have hite : ∀ (c : Prop) [Decidable c] (a b : Option Nat),
      (∃ k, a = some k ∧ k < 256) → (∃ k, b = some k ∧ k < 256) →
      ∃ k, (if c then a else b) = some k ∧ k < 256 := by
    intro c _ a b ha hb
    by_cases hc : c
    · rw [if_pos hc]; exact ha
    · rw [if_neg hc]; exact hb
  unfold convertToDoomKey
  rw [if_neg h]
  repeat' apply hite
  all_goals
    first
    | exact ⟨_, rfl, Nat.mod_lt _ (by decide)⟩
    | exact ⟨0, rfl, by decide⟩

theorem keyData_decode : ∀ p < 2, ∀ k < 256,
    ((p <<< 8 ||| k) % 65536) >>> 8 = p ∧ ((p <<< 8 ||| k) % 65536) &&& 0xFF = k := by
  decide!

theorem addKeyToQueue_plain (keys : DoomKeys) (s : InputState) (e : Nat × Nat)
    (he : PlainEvent e) :
    ∃ k, convertToDoomKey keys s.mouseControlActive e.2 = some k ∧ k < 256 ∧
      addKeyToQueue keys s e.1 e.2 = some { s with
        s_KeyQueue := s.s_KeyQueue.set s.s_KeyQueueWriteIndex ((e.1 <<< 8 ||| k) % 65536)
        s_KeyQueueWriteIndex := (s.s_KeyQueueWriteIndex + 1) % 2 ^ 32 % 16 } := by
  obtain ⟨k, hk, hlt⟩ := convertToDoomKey_some keys s.mouseControlActive e.2 he.2.2.1
  refine ⟨k, hk, hlt, ?_⟩
  unfold addKeyToQueue
  rw [hk]
  dsimp only
  rw [if_neg]
  rintro ⟨h0, h1⟩
  rcases he.2.2.2 with h | h
  · exact h0 h
  · rw [h] at h1
    exact Bool.noConfusion h1

theorem pendingKeys_length (s : InputState) :
    (pendingKeys s).length = (s.s_KeyQueueWriteIndex + 16 - s.s_KeyQueueReadIndex) % 16 := by
  unfold pendingKeys
  rw [List.length_map, List.length_range]

theorem push_pending (s : InputState) (kd : Nat) (h : QueueOK s)
    (hc : (pendingKeys s).length < 15) :
    QueueOK { s with
        s_KeyQueue := s.s_KeyQueue.set s.s_KeyQueueWriteIndex kd
        s_KeyQueueWriteIndex := (s.s_KeyQueueWriteIndex + 1) % 2 ^ 32 % 16 } ∧
    pendingKeys { s with
        s_KeyQueue := s.s_KeyQueue.set s.s_KeyQueueWriteIndex kd
        s_KeyQueueWriteIndex := (s.s_KeyQueueWriteIndex + 1) % 2 ^ 32 % 16 } =
      pendingKeys s ++ [kd] := by
  obtain ⟨hl, hr, hw⟩ := h
  rw [pendingKeys_length] at hc
  have h32 : (2 : Nat) ^ 32 = 4294967296 := by norm_num
  refine ⟨⟨?_, hr, ?_⟩, ?_⟩
  · show (s.s_KeyQueue.set s.s_KeyQueueWriteIndex kd).length = 16
    rw [List.length_set]; exact hl
  · show (s.s_KeyQueueWriteIndex + 1) % 2 ^ 32 % 16 < 16
    exact Nat.mod_lt _ (by decide)
  · unfold pendingKeys
    dsimp only
    have hcount : ((s.s_KeyQueueWriteIndex + 1) % 2 ^ 32 % 16 + 16 - s.s_KeyQueueReadIndex) % 16 =
        (s.s_KeyQueueWriteIndex + 16 - s.s_KeyQueueReadIndex) % 16 + 1 := by
      rw [h32]; omega
    rw [hcount, List.range_succ, List.map_append, List.map_singleton]
    congr 1
    · apply List.map_congr_left
      intro k hk
      rw [List.mem_range] at hk
      apply getD_set_ne
      omega
    · have hidx : (s.s_KeyQueueReadIndex +
          (s.s_KeyQueueWriteIndex + 16 - s.s_KeyQueueReadIndex) % 16) % 16 =
          s.s_KeyQueueWriteIndex := by omega
      rw [hidx, getD_set_self _ _ _ (by omega)]

theorem pop_pending (s : InputState) (kd : Nat) (rest : List Nat) (pressed : Int)
    (doomKey : Nat) (h : QueueOK s) (hp : pendingKeys s = kd :: rest) :
    DG_GetKey s pressed doomKey = ((1 : Int), ((kd >>> 8 : Nat) : Int), kd &&& 0xFF,
      { s with s_KeyQueueReadIndex := (s.s_KeyQueueReadIndex + 1) % 2 ^ 32 % 16 }) ∧
    QueueOK { s with s_KeyQueueReadIndex := (s.s_KeyQueueReadIndex + 1) % 2 ^ 32 % 16 } ∧
    pendingKeys { s with s_KeyQueueReadIndex := (s.s_KeyQueueReadIndex + 1) % 2 ^ 32 % 16 } =
      rest := by
  obtain ⟨hl, hr, hw⟩ := h
  have h32 : (2 : Nat) ^ 32 = 4294967296 := by norm_num
  have hlen := congrArg List.length hp
  rw [pendingKeys_length, List.length_cons] at hlen
  have hne : s.s_KeyQueueReadIndex ≠ s.s_KeyQueueWriteIndex := by
    intro he; rw [he] at hlen; omega
  have hcount : (s.s_KeyQueueWriteIndex + 16 - s.s_KeyQueueReadIndex) % 16 =
      (s.s_KeyQueueWriteIndex + 16 - (s.s_KeyQueueReadIndex + 1) % 4294967296 % 16) % 16 + 1 := by
    omega
  unfold pendingKeys at hp
  rw [hcount, List.range_succ_eq_map, List.map_cons, List.map_map] at hp
  injection hp with hhead htail
  have hr0 : (s.s_KeyQueueReadIndex + 0) % 16 = s.s_KeyQueueReadIndex := by omega
  rw [hr0] at hhead
  refine ⟨?_, ⟨hl, ?_, hw⟩, ?_⟩
  · unfold DG_GetKey
    rw [if_neg hne]
    dsimp only
    rw [hhead]
  · show (s.s_KeyQueueReadIndex + 1) % 2 ^ 32 % 16 < 16
    exact Nat.mod_lt _ (by decide)
  · unfold pendingKeys
    dsimp only
    rw [h32, ← htail]
    apply List.map_congr_left
    intro k _
    show s.s_KeyQueue.getD (((s.s_KeyQueueReadIndex + 1) % 4294967296 % 16 + k) % 16) 0 =
      s.s_KeyQueue.getD ((s.s_KeyQueueReadIndex + (k + 1)) % 16) 0
    exact congrArg (fun i => s.s_KeyQueue.getD i 0) (by omega)

theorem empty_pending (s : InputState) (pressed : Int) (doomKey : Nat) (h : QueueOK s)
    (hp : pendingKeys s = []) :
    s.s_KeyQueueReadIndex = s.s_KeyQueueWriteIndex ∧
    DG_GetKey s pressed doomKey = (0, pressed, doomKey, s) := by
  obtain ⟨hl, hr, hw⟩ := h
  have hlen := congrArg List.length hp
  rw [pendingKeys_length, List.length_nil] at hlen
  have he : s.s_KeyQueueReadIndex = s.s_KeyQueueWriteIndex := by omega
  refine ⟨he, ?_⟩
  unfold DG_GetKey
  rw [if_pos he]

theorem pending_of_empty (s : InputState)
    (he : s.s_KeyQueueReadIndex = s.s_KeyQueueWriteIndex) : pendingKeys s = [] := by
  unfold pendingKeys
  rw [he]
  have : (s.s_KeyQueueWriteIndex + 16 - s.s_KeyQueueWriteIndex) % 16 = 0 := by omega
  rw [this]
  rfl

theorem addKeys_cons (keys : DoomKeys) (e : Nat × Nat) (es : List (Nat × Nat)) (s : InputState) :
    addKeys keys s (e :: es) =
      match addKeyToQueue keys s e.1 e.2 with
      | none => none
      | some s1 => addKeys keys s1 es := rfl

theorem addKeys_append (keys : DoomKeys) (a b : List (Nat × Nat)) (s : InputState) :
    addKeys keys s (a ++ b) =
      match addKeys keys s a with
      | none => none
      | some s1 => addKeys keys s1 b := by
  induction a generalizing s with
  | nil => rfl
  | cons e t ih =>
    rw [List.cons_append, addKeys_cons, addKeys_cons]
    cases addKeyToQueue keys s e.1 e.2 with
    | none => rfl
    | some s1 => exact ih s1

theorem addKeys_index (keys : DoomKeys) (events : List (Nat × Nat)) (s : InputState)
    (hq : QueueOK s) (hplain : ∀ e ∈ events, PlainEvent e) :
    ∃ s1, addKeys keys s events = some s1 ∧ QueueOK s1 ∧
      s1.s_KeyQueueReadIndex = s.s_KeyQueueReadIndex ∧
      s1.s_KeyQueueWriteIndex = (s.s_KeyQueueWriteIndex + events.length) % 16 ∧
      s1.mouseControlActive = s.mouseControlActive := by
  induction events generalizing s with
  | nil =>
    refine ⟨s, rfl, hq, rfl, ?_, rfl⟩
    have := hq.2.2
    rw [List.length_nil]; omega
  | cons e t ih =>
    obtain ⟨k, _, _, hadd⟩ := addKeyToQueue_plain keys s e (hplain e (List.mem_cons_self _ _))
    have h32 : (2 : Nat) ^ 32 = 4294967296 := by norm_num
    have hq1 : QueueOK { s with
        s_KeyQueue := s.s_KeyQueue.set s.s_KeyQueueWriteIndex ((e.1 <<< 8 ||| k) % 65536)
        s_KeyQueueWriteIndex := (s.s_KeyQueueWriteIndex + 1) % 2 ^ 32 % 16 } := by
      refine ⟨?_, hq.2.1, ?_⟩
      · show (s.s_KeyQueue.set s.s_KeyQueueWriteIndex _).length = 16
        rw [List.length_set]; exact hq.1
      · show (s.s_KeyQueueWriteIndex + 1) % 2 ^ 32 % 16 < 16
        exact Nat.mod_lt _ (by decide)
    obtain ⟨s1, h1, hq2, hr, hw, hm⟩ := ih _ hq1 (fun x hx => hplain x (List.mem_cons_of_mem _ hx))
    refine ⟨s1, ?_, hq2, hr, ?_, hm⟩
    · rw [addKeys_cons, hadd]
      exact h1
    · rw [hw, List.length_cons]
      show ((s.s_KeyQueueWriteIndex + 1) % 2 ^ 32 % 16 + t.length) % 16 = _
      rw [h32]
      have := hq.2.2
      omega

theorem addKeys_pending (keys : DoomKeys) (events : List (Nat × Nat)) (s : InputState)
    (hq : QueueOK s) (hplain : ∀ e ∈ events, PlainEvent e)
    (hroom : (pendingKeys s).length + events.length ≤ 15) :
    ∃ s1 kds, addKeys keys s events = some s1 ∧ QueueOK s1 ∧
      pendingKeys s1 = pendingKeys s ++ kds ∧
      kds.map (fun kd => ((1 : Int), ((kd >>> 8 : Nat) : Int), some (kd &&& 0xFF))) =
        events.map (fun e => ((1 : Int), (e.1 : Int),
          convertToDoomKey keys s.mouseControlActive e.2)) := by
  induction events generalizing s with
  | nil => exact ⟨s, [], rfl, hq, (List.append_nil _).symm, rfl⟩
  | cons e t ih =>
    have he := hplain e (List.mem_cons_self _ _)
    obtain ⟨k, hk, hlt, hadd⟩ := addKeyToQueue_plain keys s e he
    rw [List.length_cons] at hroom
    obtain ⟨hq1, hp1⟩ := push_pending s ((e.1 <<< 8 ||| k) % 65536) hq (by omega)
    obtain ⟨s1, kds, h1, hq2, hp2, hmap⟩ := ih _ hq1
      (fun x hx => hplain x (List.mem_cons_of_mem _ hx)) (by
        rw [hp1, List.length_append, List.length_singleton]; omega)
    refine ⟨s1, ((e.1 <<< 8 ||| k) % 65536) :: kds, ?_, hq2, ?_, ?_⟩
    · rw [addKeys_cons, hadd]
      exact h1
    · rw [hp2, hp1, List.append_assoc, List.singleton_append]
    · rw [List.map_cons, List.map_cons, hmap]
      have hd := keyData_decode e.1 (by have := he.1; omega) k hlt
      rw [hd.1, hd.2, hk]

theorem getKeys_pending (l : List Nat) (s : InputState) (pressed : Int) (doomKey : Nat)
    (hq : QueueOK s) (hp : pendingKeys s = l) :
    (getKeys l.length s pressed doomKey).1 =
      l.map (fun kd => ((1 : Int), ((kd >>> 8 : Nat) : Int), kd &&& 0xFF)) ∧
    QueueOK (getKeys l.length s pressed doomKey).2 ∧
    pendingKeys (getKeys l.length s pressed doomKey).2 = [] := by
  induction l generalizing s pressed doomKey with
  | nil => exact ⟨rfl, hq, hp⟩
  | cons kd rest ih =>
    obtain ⟨hget, hq1, hp1⟩ := pop_pending s kd rest pressed doomKey hq hp
    rw [List.length_cons]
    unfold getKeys
    dsimp only
    rw [hget]
    dsimp only
    obtain ⟨h1, h2, h3⟩ := ih _ ((kd >>> 8 : Nat) : Int) (kd &&& 0xFF) hq1 hp1
    refine ⟨?_, h2, h3⟩
    rw [h1, List.map_cons]

theorem queue_from_empty (keys : DoomKeys) (s : InputState) (events : List (Nat × Nat))
    (pressed : Int) (doomKey : Nat)
    (hq : QueueOK s) (hempty : s.s_KeyQueueReadIndex = s.s_KeyQueueWriteIndex)
    (hn : events.length ≤ 15) (hplain : ∀ e ∈ events, PlainEvent e) :
    ∃ s1, addKeys keys s events = some s1 ∧
      (getKeys events.length s1 pressed doomKey).1.map (fun r => (r.1, r.2.1, some r.2.2)) =
        events.map (fun e => ((1 : Int), (e.1 : Int),
          convertToDoomKey keys s.mouseControlActive e.2)) ∧
      ∀ p2 d2, DG_GetKey (getKeys events.length s1 pressed doomKey).2 p2 d2 =
        (0, p2, d2, (getKeys events.length s1 pressed doomKey).2) := by
  have hp0 := pending_of_empty s hempty
  obtain ⟨s1, kds, h1, hq1, hp1, hmap⟩ := addKeys_pending keys events s hq hplain (by
    rw [hp0, List.length_nil]; omega)
  rw [hp0, List.nil_append] at hp1
  have hlen : kds.length = events.length := by
    have := congrArg List.length hmap
    rw [List.length_map, List.length_map] at this
    exact this
  obtain ⟨hg, hq2, hp2⟩ := getKeys_pending kds s1 pressed doomKey hq1 hp1
  rw [hlen] at hg hq2 hp2
  refine ⟨s1, h1, ?_, ?_⟩
  · rw [hg, List.map_map, ← hmap]
    rfl
  · intro p2 d2
    exact (empty_pending _ p2 d2 hq2 hp2).2

/-- C12: for every list of at most 15 events that `addKeyToQueue` stores
(`PlainEvent`: not an intercepted key with `pressed` set, not the reboot key)
pushed onto an empty queue, all the pushes return, the next `n` calls of
`DG_GetKey` each return 1 and deliver the events in push order as the pressed
flag and the key code that `convertToDoomKey` gave, and a further call returns
0 and leaves the values behind its two pointers and the whole state, the two
queue indices included, as they were. -/
theorem key_queue_fifo (keys : DoomKeys) (s : InputState) (events : List (Nat × Nat))
    (pressed : Int) (doomKey : Nat)
    (hq : QueueOK s) (hempty : s.s_KeyQueueReadIndex = s.s_KeyQueueWriteIndex)
    (hn : events.length ≤ 15) (hplain : ∀ e ∈ events, PlainEvent e) :
    ∃ s1, addKeys keys s events = some s1 ∧
      (getKeys events.length s1 pressed doomKey).1.map (fun r => (r.1, r.2.1, some r.2.2)) =
        events.map (fun e => ((1 : Int), (e.1 : Int),
          convertToDoomKey keys s.mouseControlActive e.2)) ∧
      ∀ p2 d2, DG_GetKey (getKeys events.length s1 pressed doomKey).2 p2 d2 =
        (0, p2, d2, (getKeys events.length s1 pressed doomKey).2) :=
  queue_from_empty keys s events pressed doomKey hq hempty hn hplain

/-- Witness of `key_queue_fifo`: space pressed, space released and return
pressed, pushed onto the initial queue. -/
theorem key_queue_fifo_witness :
    ∃ s1, addKeys sampleKeys initialInput [(1, 32), (0, 32), (1, 13)] = some s1 ∧
      (getKeys 3 s1 0 0).1.map (fun r => (r.1, r.2.1, some r.2.2)) =
        [(1, 1, some 0xa2), (1, 0, some 0xa2), (1, 1, some 13)] ∧
      ∀ p2 d2, DG_GetKey (getKeys 3 s1 0 0).2 p2 d2 = (0, p2, d2, (getKeys 3 s1 0 0).2) :=
  key_queue_fifo sampleKeys initialInput [(1, 32), (0, 32), (1, 13)] 0 0
    (by decide) rfl (by decide) (by decide)

/-- C11, counterexample: 20 events `(1, 200)`, ..., `(1, 219)` are pushed
onto the initial, empty queue and none is read in between.  The first four
calls of `DG_GetKey` return the events pushed 17th to 20th and the fifth call
returns 0: the write index has passed the read index once, so the 16 events
before them are lost, and not only the oldest 4. -/
theorem key_queue_overflow_loses_sixteen :
    (addKeys sampleKeys initialInput ((List.range 20).map (fun i => (1, 200 + i)))).map
      (fun s1 => (getKeys 5 s1 0 0).1) =
      some [(1, 1, 216), (1, 1, 217), (1, 1, 218), (1, 1, 219), (0, 1, 219)] := by
  decide

/-- C11, amended: for every list of 20 events that `addKeyToQueue` stores,
pushed onto an empty queue with none read in between, all the pushes return,
the next 4 calls of `DG_GetKey` each return 1 and deliver the 4 most recently
pushed events, oldest of those first, and a further call returns 0 and changes
nothing. -/
theorem key_queue_overflow_keeps_four (keys : DoomKeys) (s : InputState)
    (events : List (Nat × Nat)) (pressed : Int) (doomKey : Nat)
    (hq : QueueOK s) (hempty : s.s_KeyQueueReadIndex = s.s_KeyQueueWriteIndex)
    (hn : events.length = 20) (hplain : ∀ e ∈ events, PlainEvent e) :
    ∃ s1, addKeys keys s events = some s1 ∧
      (getKeys 4 s1 pressed doomKey).1.map (fun r => (r.1, r.2.1, some r.2.2)) =
        (events.drop 16).map (fun e => ((1 : Int), (e.1 : Int),
          convertToDoomKey keys s.mouseControlActive e.2)) ∧
      ∀ p2 d2, DG_GetKey (getKeys 4 s1 pressed doomKey).2 p2 d2 =
        (0, p2, d2, (getKeys 4 s1 pressed doomKey).2) := by
  obtain ⟨s16, h16, hq16, hr16, hw16, hm16⟩ := addKeys_index keys (events.take 16) s hq
    (fun e he => hplain e (List.mem_of_mem_take he))
  have htake : (events.take 16).length = 16 := by
    rw [List.length_take]; omega
  have hdrop : (events.drop 16).length = 4 := by
    rw [List.length_drop]; omega
  have hempty16 : s16.s_KeyQueueReadIndex = s16.s_KeyQueueWriteIndex := by
    have := hq.2.2
    rw [hr16, hw16, htake, hempty]; omega
  obtain ⟨s1, h1, hres, hstop⟩ := queue_from_empty keys s16 (events.drop 16) pressed doomKey
    hq16 hempty16 (by omega) (fun e he => hplain e (List.mem_of_mem_drop he))
  rw [hdrop, hm16] at hres
  rw [hdrop] at hstop
  refine ⟨s1, ?_, hres, hstop⟩
  rw [← List.take_append_drop 16 events, addKeys_append, h16]
  exact h1

/-- Witness of `key_queue_overflow_keeps_four`: the 20 events of the
counterexample. -/
theorem key_queue_overflow_keeps_four_witness :
    ∃ s1, addKeys sampleKeys initialInput ((List.range 20).map (fun i => (1, 200 + i))) =
        some s1 ∧
      (getKeys 4 s1 0 0).1.map (fun r => (r.1, r.2.1, some r.2.2)) =
        [(1, 1, some 216), (1, 1, some 217), (1, 1, some 218), (1, 1, some 219)] ∧
      ∀ p2 d2, DG_GetKey (getKeys 4 s1 0 0).2 p2 d2 = (0, p2, d2, (getKeys 4 s1 0 0).2) :=
  key_queue_overflow_keeps_four sampleKeys initialInput
    ((List.range 20).map (fun i => (1, 200 + i))) 0 0 (by decide) rfl (by decide) (by decide)

/-! ### The histogram scenario -/

theorem findMin_first_aux (h : List Nat) (n : Nat) :
    let mv := (List.range n).foldl
      (fun mv i => if h.getD i 0 ≠ 0 ∧ h.getD i 0 < mv.1 then (h.getD i 0, i) else mv)
      ((256, 255) : Nat × Nat)
    mv = (256, 255) ∨ ∀ i < mv.2, h.getD i 0 ≠ 0 → mv.1 < h.getD i 0 := by
  induction n with
  | zero => left; simp
  | succ n ih =>
    have aux := findMin_aux h n
    simp only at aux ih
    simp only [List.range_succ, List.foldl_append, List.foldl_cons, List.foldl_nil]
    generalize (List.range n).foldl
      (fun mv i => if h.getD i 0 ≠ 0 ∧ h.getD i 0 < mv.1 then (h.getD i 0, i) else mv)
      ((256, 255) : Nat × Nat) = mv at aux ih ⊢
    by_cases hc : h.getD n 0 ≠ 0 ∧ h.getD n 0 < mv.1
    · rw [if_pos hc]
      right
      intro i hi hne
      show h.getD n 0 < h.getD i 0
      have hi2 : i < n := hi
      rcases aux with ⟨he, hall⟩ | ⟨_, _, _, _, hmin⟩
      · rw [he] at hc
        have hc2 : h.getD n 0 < 256 := hc.2
        rcases hall i hi2 with h0 | h0
        · exact absurd h0 hne
        · omega
      · have := hmin i hi2 hne
        omega
    · rw [if_neg hc]
      exact ih

theorem findMin_first (h : List Nat) (hex : ∃ i < 16, h.getD i 0 ≠ 0 ∧ h.getD i 0 < 256) :
    ∀ i < (findMin h).2, h.getD i 0 ≠ 0 → h.getD (findMin h).2 0 < h.getD i 0 := by
  obtain ⟨h1, _, h3, _⟩ := findMin_spec h hex
  have := findMin_first_aux h 16
  simp only at this
  rw [← h3]
  unfold findMin at h1 ⊢
  rcases this with he | hf
  · rw [he] at h1
    omega
  · exact hf

theorem sum_map_getD_le (l : List Nat) (h : List Nat) (hnd : l.Nodup) :
    (l.map (fun i => h.getD i 0)).sum ≤ h.sum := by
  induction l generalizing h with
  | nil => simp
  | cons a t ih =>
    rw [List.nodup_cons] at hnd
    rw [List.map_cons, List.sum_cons]
    by_cases ha : a < h.length
    · have hs := sum_set_add h a 0 ha
      have h1 := ih (h.set a 0) hnd.2
      have hmap : t.map (fun i => (h.set a 0).getD i 0) = t.map (fun i => h.getD i 0) :=
        List.map_congr_left (fun i hi => getD_set_ne h a i 0 (by
          intro e; rw [e] at hnd; exact hnd.1 hi))
      rw [hmap] at h1
      omega
    · have h0 : h.getD a 0 = 0 := List.getD_eq_default _ _ (by omega)
      have h1 := ih h hnd.2
      omega

theorem countColors_of_support (h : List Nat) (l : List Nat) (hnd : l.Nodup)
    (hsupp : ∀ i, i < 16 ∧ h.getD i 0 ≠ 0 ↔ i ∈ l) : countColors h = l.length := by
  unfold countColors
  rw [List.countP_eq_length_filter, ← List.toFinset_card_of_nodup hnd,
    ← List.toFinset_card_of_nodup ((List.nodup_range 16).filter _)]
  congr 1
  ext i
  simp only [List.mem_toFinset, List.mem_filter, List.mem_range, bne_iff_ne, ne_eq]
  exact hsupp i

theorem reduceLoop_succ (fuel : Nat) (s : ReduceState) :
    reduceLoop (fuel + 1) s = if s.nColors > 4 then reduceLoop fuel (reduceStep s) else s := rfl

theorem mergesFirst_of_inv (bg : Nat) (h0 : List Nat) (s : ReduceState)
    (inv : ReduceInv bg h0 s) (hn : 4 < s.nColors) :
    MergesFirstCandidate s (stepMinIdx s) := by
  obtain ⟨m16, _, _, _, hc, _, htm, htp, hfirst, _, _, _, _, hh, hm⟩ :=
    reduceStep_spec bg h0 s inv hn
  refine ⟨rfl, hc, htm, htp, ?_, ?_, ?_, ?_⟩
  · intro j hj
    rcases hfirst j hj with h | h
    · exact Or.inr h
    · exact Or.inl h
  · rw [hh, if_pos rfl]
  · rw [hh, if_neg htm, if_pos rfl]
  · rw [hm _ m16, if_pos rfl]

theorem second_min_choice (f g : Nat → Nat) (A B C D E F T m : Nat)
    (vA : f A = 32) (vB : f B = 8) (vC : f C = 6) (vD : f D = 4) (vE : f E = 3)
    (vF : f F = 1)
    (hm : m = A ∨ m = B ∨ m = C ∨ m = D ∨ m = E)
    (hg : ∀ j, j ≠ F → g j = if j = T then f T + f F else f j)
    (minE : g E ≠ 0 → g m ≤ g E)
    (firstD : D < m → g D ≠ 0 → g m < g D) (firstE : E < m → g E ≠ 0 → g m < g E) :
    m = if T = E ∧ D < E then D else E := by
  have hDE : D ≠ E := by intro e; rw [e] at vD; omega
  have hDF : D ≠ F := by intro e; rw [e] at vD; omega
  have hEF : E ≠ F := by intro e; rw [e] at vE; omega
  have hmF : m ≠ F := by
    intro e2
    rw [e2] at hm
    rcases hm with e | e | e | e | e <;> rw [e] at vF <;> omega
  have gD := hg D hDF
  have gE := hg E hEF
  have gm := hg m hmF
  have hle : f m ≤ g m := by
    rw [gm]
    by_cases c : m = T
    · rw [if_pos c, c]; omega
    · rw [if_neg c]
  by_cases hTE : T = E
  · rw [hTE] at gD gE gm
    rw [if_neg hDE] at gD
    rw [if_pos rfl] at gE
    have hm4 : f m ≤ 4 := by omega
    rcases hm with e | e | e | e | e
    · rw [e] at hm4; omega
    · rw [e] at hm4; omega
    · rw [e] at hm4; omega
    · rw [e] at firstE ⊢
      have hlt : D < E := by omega
      rw [if_pos ⟨hTE, hlt⟩]
    · rw [e] at firstD ⊢
      have hlt : ¬ D < E := by omega
      rw [if_neg (fun c => hlt c.2)]
  · rw [if_neg (fun c => hTE c.1)]
    rw [if_neg (fun c => hTE c.symm)] at gE
    have hm3 : f m ≤ 3 := by omega
    rcases hm with e | e | e | e | e
    · rw [e] at hm3; omega
    · rw [e] at hm3; omega
    · rw [e] at hm3; omega
    · rw [e] at hm3; omega
    · exact e

theorem scenario_core (blockColors : List Nat) (A B C D E F : Nat)
    (hv : ValidBlock blockColors)
    (hA : (buildHisto blockColors).getD A 0 = 10) (hB : (buildHisto blockColors).getD B 0 = 8)
    (hC : (buildHisto blockColors).getD C 0 = 6) (hD : (buildHisto blockColors).getD D 0 = 4)
    (hE : (buildHisto blockColors).getD E 0 = 3) (hF : (buildHisto blockColors).getD F 0 = 1) :
    ReduceInv A (reduceInit A blockColors).histo (reduceInit A blockColors) ∧
    (reduceInit A blockColors).nColors = 6 ∧
    stepMinIdx (reduceInit A blockColors) = F ∧
    stepMinIdx (reduceStep (reduceInit A blockColors)) =
      (if stepTarget (reduceInit A blockColors) = E ∧ D < E then D else E) := by
  obtain ⟨hlen, hsum, _⟩ := buildHisto_spec blockColors hv
  have lt16 : ∀ x, (buildHisto blockColors).getD x 0 ≠ 0 → x < 16 := by
    intro x hx
    by_contra hge
    exact hx (List.getD_eq_default _ _ (by omega))
  have A16 := lt16 A (by omega)
  have B16 := lt16 B (by omega)
  have C16 := lt16 C (by omega)
  have D16 := lt16 D (by omega)
  have E16 := lt16 E (by omega)
  have F16 := lt16 F (by omega)
  have ne : ∀ x y, (buildHisto blockColors).getD x 0 ≠ (buildHisto blockColors).getD y 0 →
      x ≠ y := by
    intro x y hxy e
    rw [e] at hxy
    exact hxy rfl
  have hAB := ne A B (by omega)
  have hAC := ne A C (by omega)
  have hAD := ne A D (by omega)
  have hAE := ne A E (by omega)
  have hAF := ne A F (by omega)
  have hBC := ne B C (by omega)
  have hBD := ne B D (by omega)
  have hBE := ne B E (by omega)
  have hBF := ne B F (by omega)
  have hCD := ne C D (by omega)
  have hCE := ne C E (by omega)
  have hCF := ne C F (by omega)
  have hDE := ne D E (by omega)
  have hDF := ne D F (by omega)
  have hEF := ne E F (by omega)
  have hz : ∀ j, j ≠ A → j ≠ B → j ≠ C → j ≠ D → j ≠ E → j ≠ F →
      (buildHisto blockColors).getD j 0 = 0 := by
    intro j h1 h2 h3 h4 h5 h6
    have hnd : [j, A, B, C, D, E, F].Nodup := by
      simp [h1, h2, h3, h4, h5, h6, hAB, hAC, hAD, hAE, hAF, hBC, hBD, hBE, hBF, hCD, hCE, hCF,
        hDE, hDF, hEF]
    have := sum_map_getD_le [j, A, B, C, D, E, F] (buildHisto blockColors) hnd
    simp only [List.map_cons, List.map_nil, List.sum_cons, List.sum_nil] at this
    omega
  have hval0 : ∀ j, (reduceInit A blockColors).histo.getD j 0 =
      if j = A then 32 else (buildHisto blockColors).getD j 0 := by
    intro j
    show ((buildHisto blockColors).set A 32).getD j 0 = _
    rw [getD_set]
    by_cases e : j = A
    · rw [if_pos ⟨e.symm, by omega⟩, if_pos e]
    · rw [if_neg (fun c => e c.1.symm), if_neg e]
  have v0A : (reduceInit A blockColors).histo.getD A 0 = 32 := by rw [hval0, if_pos rfl]
  have v0B : (reduceInit A blockColors).histo.getD B 0 = 8 := by
    rw [hval0, if_neg (Ne.symm hAB), hB]
  have v0C : (reduceInit A blockColors).histo.getD C 0 = 6 := by
    rw [hval0, if_neg (Ne.symm hAC), hC]
  have v0D : (reduceInit A blockColors).histo.getD D 0 = 4 := by
    rw [hval0, if_neg (Ne.symm hAD), hD]
  have v0E : (reduceInit A blockColors).histo.getD E 0 = 3 := by
    rw [hval0, if_neg (Ne.symm hAE), hE]
  have v0F : (reduceInit A blockColors).histo.getD F 0 = 1 := by
    rw [hval0, if_neg (Ne.symm hAF), hF]
  have supp0 : ∀ j, (reduceInit A blockColors).histo.getD j 0 ≠ 0 →
      j = A ∨ j = B ∨ j = C ∨ j = D ∨ j = E ∨ j = F := by
    intro j hj
    by_contra hn
    simp only [not_or] at hn
    rw [hval0, if_neg hn.1, hz j hn.1 hn.2.1 hn.2.2.1 hn.2.2.2.1 hn.2.2.2.2.1 hn.2.2.2.2.2] at hj
    exact hj rfl
  have inv0 := reduceInit_inv A blockColors A16 hv
  have n0 : (reduceInit A blockColors).nColors = 6 := by
    have hnd : [A, B, C, D, E, F].Nodup := by
      simp [hAB, hAC, hAD, hAE, hAF, hBC, hBD, hBE, hBF, hCD, hCE, hCF, hDE, hDF, hEF]
    have := countColors_of_support (reduceInit A blockColors).histo [A, B, C, D, E, F] hnd (by
      intro i
      simp only [List.mem_cons, List.mem_singleton, List.not_mem_nil, or_false]
      constructor
      · intro hi
        exact supp0 i hi.2
      · intro hi
        rcases hi with e | e | e | e | e | e <;> rw [e] <;> constructor <;> omega)
    rw [inv0.cnt, this]
    rfl
  obtain ⟨m16, _, m1ne, m1min, _, T16, Tm, Tne, _, n1, _, _, _, hh1, _⟩ :=
    reduceStep_spec A _ _ inv0 (by omega)
  have hm1 : stepMinIdx (reduceInit A blockColors) = F := by
    have h1 := m1min F F16 (by omega)
    rcases supp0 _ m1ne with e | e | e | e | e | e
    · rw [e] at h1; omega
    · rw [e] at h1; omega
    · rw [e] at h1; omega
    · rw [e] at h1; omega
    · rw [e] at h1; omega
    · exact e
  refine ⟨inv0, n0, hm1, ?_⟩
  rw [hm1] at Tm hh1
  have inv1 := reduceStep_inv A _ _ inv0 (by omega)
  obtain ⟨m216, _, m2ne, m2min, _, _, _, _, _, _, _, _, _, _, _⟩ :=
    reduceStep_spec A _ _ inv1 (by omega)
  have supp1 : ∀ j, (reduceStep (reduceInit A blockColors)).histo.getD j 0 ≠ 0 →
      (reduceInit A blockColors).histo.getD j 0 ≠ 0 := by
    intro j hj e
    rw [hh1] at hj
    by_cases c1 : j = F
    · rw [if_pos c1] at hj; exact hj rfl
    · rw [if_neg c1] at hj
      by_cases c2 : j = stepTarget (reduceInit A blockColors)
      · rw [c2] at e; exact Tne e
      · rw [if_neg c2] at hj; exact hj e
  have hm2F : stepMinIdx (reduceStep (reduceInit A blockColors)) ≠ F := by
    intro e
    rw [e, hh1, if_pos rfl] at m2ne
    exact m2ne rfl
  have hT : ∀ x, x ≠ F → (x = A ∨ x = B ∨ x = C ∨ x = D ∨ x = E ∨ x = F) →
      x = A ∨ x = B ∨ x = C ∨ x = D ∨ x = E := by
    intro x hx h
    rcases h with e | e | e | e | e | e
    · exact Or.inl e
    · exact Or.inr (Or.inl e)
    · exact Or.inr (Or.inr (Or.inl e))
    · exact Or.inr (Or.inr (Or.inr (Or.inl e)))
    · exact Or.inr (Or.inr (Or.inr (Or.inr e)))
    · exact absurd e hx
  have hD256 : (reduceStep (reduceInit A blockColors)).histo.getD D 0 ≠ 0 ∧
      (reduceStep (reduceInit A blockColors)).histo.getD D 0 < 256 := by
    rw [hh1, if_neg hDF]
    by_cases c : D = stepTarget (reduceInit A blockColors)
    · rw [if_pos c, ← c]; omega
    · rw [if_neg c]; omega
  have hfirst := findMin_first (reduceStep (reduceInit A blockColors)).histo ⟨D, D16, hD256⟩
  exact second_min_choice (fun j => (reduceInit A blockColors).histo.getD j 0)
    (fun j => (reduceStep (reduceInit A blockColors)).histo.getD j 0) A B C D E F
    (stepTarget (reduceInit A blockColors))
    (stepMinIdx (reduceStep (reduceInit A blockColors)))
    v0A v0B v0C v0D v0E v0F (hT _ hm2F (supp0 _ (supp1 _ m2ne)))
    (fun j hj => by
      show (reduceStep (reduceInit A blockColors)).histo.getD j 0 = _
      rw [hh1, if_neg hj])
    (m2min E E16) (hfirst D) (hfirst E)

/-- C16, counterexample: the colours A = 2, B = 3, C = 4, D = 1, E = 9, F = 0
are distinct and `tieBlock` has the histogram A:10, B:8, C:6, D:4, E:3, F:1.
With background colour A the first iteration removes F and merges it into E,
the first entry of its rank-table row; E and D then both have 4 pixels, the
minimum search keeps the lower index, and the second iteration removes D, not
E: E still has a non-zero bin when the loop has ended. -/
theorem scenario_second_removal_not_E :
    ValidBlock tieBlock ∧
    (buildHisto tieBlock).getD 2 0 = 10 ∧ (buildHisto tieBlock).getD 3 0 = 8 ∧
    (buildHisto tieBlock).getD 4 0 = 6 ∧ (buildHisto tieBlock).getD 1 0 = 4 ∧
    (buildHisto tieBlock).getD 9 0 = 3 ∧ (buildHisto tieBlock).getD 0 0 = 1 ∧
    MergesFirstCandidate (reduceInit 2 tieBlock) 0 ∧
    stepTarget (reduceInit 2 tieBlock) = 9 ∧
    MergesFirstCandidate (reduceStep (reduceInit 2 tieBlock)) 1 ∧
    ¬ MergesFirstCandidate (reduceStep (reduceInit 2 tieBlock)) 9 ∧
    reduceBlock 2 tieBlock = reduceStep (reduceStep (reduceInit 2 tieBlock)) ∧
    (reduceBlock 2 tieBlock).histo.getD 9 0 = 4 ∧
    (reduceBlock 2 tieBlock).histo.getD 1 0 = 0 := by
  decide

/-- C16, amended: for every block of 32 palette indices whose histogram is
A:10, B:8, C:6, D:4, E:3, F:1 (the six colours are then distinct and no other
colour occurs), reduced with background colour A, the first iteration of the
loop removes F; the second removes E, except that it removes D when F was
merged into E and the index of D is below that of E; each removed colour is
merged into its first rank-table candidate with a non-zero bin; and the loop
ends after these two iterations with exactly 4 non-zero bins, the bin of A
among them. -/
theorem scenario_reduction (blockColors : List Nat) (A B C D E F : Nat)
    (hv : ValidBlock blockColors)
    (hA : (buildHisto blockColors).getD A 0 = 10) (hB : (buildHisto blockColors).getD B 0 = 8)
    (hC : (buildHisto blockColors).getD C 0 = 6) (hD : (buildHisto blockColors).getD D 0 = 4)
    (hE : (buildHisto blockColors).getD E 0 = 3) (hF : (buildHisto blockColors).getD F 0 = 1) :
    MergesFirstCandidate (reduceInit A blockColors) F ∧
    MergesFirstCandidate (reduceStep (reduceInit A blockColors))
      (if stepTarget (reduceInit A blockColors) = E ∧ D < E then D else E) ∧
    reduceBlock A blockColors = reduceStep (reduceStep (reduceInit A blockColors)) ∧
    (reduceBlock A blockColors).nColors = 4 ∧
    countColors (reduceBlock A blockColors).histo = 4 ∧
    (reduceBlock A blockColors).histo.getD A 0 ≠ 0 := by
  obtain ⟨inv0, n0, hm1, hm2⟩ := scenario_core blockColors A B C D E F hv hA hB hC hD hE hF
  have inv1 := reduceStep_inv A _ _ inv0 (by omega)
  obtain ⟨_, _, _, _, _, _, _, _, _, n1, _⟩ := reduceStep_spec A _ _ inv0 (by omega)
  have inv2 := reduceStep_inv A _ _ inv1 (by omega)
  obtain ⟨_, _, _, _, _, _, _, _, _, n2, _⟩ := reduceStep_spec A _ _ inv1 (by omega)
  have hblock : reduceBlock A blockColors =
      reduceStep (reduceStep (reduceInit A blockColors)) := by
    show reduceLoop (15 + 1) (reduceInit A blockColors) = _
    rw [reduceLoop_succ, if_pos (by omega)]
    show reduceLoop (14 + 1) _ = _
    rw [reduceLoop_succ, if_pos (by omega)]
    show reduceLoop (13 + 1) _ = _
    rw [reduceLoop_succ, if_neg (by omega)]
  have f1 := mergesFirst_of_inv A _ _ inv0 (by omega)
  have f2 := mergesFirst_of_inv A _ _ inv1 (by omega)
  rw [hm1] at f1
  rw [hm2] at f2
  refine ⟨f1, f2, hblock, ?_, ?_, ?_⟩
  · rw [hblock]; omega
  · rw [hblock, ← inv2.cnt]; omega
  · rw [hblock]
    have := inv2.bgk
    omega

/-- Witness of `scenario_reduction`: the block `sampleBlock` with the colours
1 to 6. -/
theorem scenario_reduction_witness :
    ValidBlock sampleBlock ∧
    MergesFirstCandidate (reduceInit 1 sampleBlock) 6 ∧
    MergesFirstCandidate (reduceStep (reduceInit 1 sampleBlock))
      (if stepTarget (reduceInit 1 sampleBlock) = 5 ∧ 4 < 5 then 4 else 5) ∧
    reduceBlock 1 sampleBlock = reduceStep (reduceStep (reduceInit 1 sampleBlock)) ∧
    (reduceBlock 1 sampleBlock).nColors = 4 ∧
    countColors (reduceBlock 1 sampleBlock).histo = 4 ∧
    (reduceBlock 1 sampleBlock).histo.getD 1 0 ≠ 0 :=
  ⟨by decide, scenario_reduction sampleBlock 1 2 3 4 5 6 (by decide) (by decide) (by decide)
    (by decide) (by decide) (by decide) (by decide)⟩

/-! ### The whole frame: occurrence counts and background colour -/

theorem blockStep_occ (bg : Nat) (pix : Nat → Nat → List Nat) (by_ : Nat) (l : List Nat)
    (st : List Nat × (Nat → Nat)) :
    (l.foldl (blockStep bg pix by_) st).1 =
      (l.map (pix by_)).foldl (fun occ blk => countOccurence (buildHisto blk) occ) st.1 := by
  induction l generalizing st with
  | nil => rfl
  | cons bx t ih =>
    rw [List.foldl_cons, ih, List.map_cons, List.foldl_cons]
    rfl

theorem frame_occ (bg : Nat) (pix : Nat → Nat → List Nat) (l : List Nat)
    (st : List Nat × (Nat → Nat)) :
    (l.foldl (fun st by_ => (List.range 40).foldl (blockStep bg pix by_) st) st).1 =
      (l.flatMap (fun by_ => (List.range 40).map (fun bx => pix by_ bx))).foldl
        (fun occ blk => countOccurence (buildHisto blk) occ) st.1 := by
  induction l generalizing st with
  | nil => rfl
  | cons by_ t ih =>
    rw [List.foldl_cons, ih, blockStep_occ, List.flatMap_cons, List.foldl_append]

theorem countOccurence_aux (histo occ : List Nat) (n : Nat) :
    let r := (List.range n).foldl
      (fun occ i => if histo.getD i 0 ≠ 0 then occ.set i (occ.getD i 0 + 1) else occ) occ
    r.length = occ.length ∧ ∀ j, r.getD j 0 =
      if j < n ∧ j < occ.length ∧ histo.getD j 0 ≠ 0 then occ.getD j 0 + 1 else occ.getD j 0 := by
  induction n with
  | zero => simp
  | succ n ih =>
    simp only [List.range_succ, List.foldl_append, List.foldl_cons, List.foldl_nil]
    generalize (List.range n).foldl
      (fun occ i => if histo.getD i 0 ≠ 0 then occ.set i (occ.getD i 0 + 1) else occ) occ = r
      at ih ⊢
    obtain ⟨hl, hg⟩ := ih
    have hn := hg n
    rw [if_neg (by omega)] at hn
    by_cases hc : histo.getD n 0 ≠ 0
    · rw [if_pos hc]
      refine ⟨by rw [List.length_set]; exact hl, ?_⟩
      intro j
      rw [getD_set, hg j, hn, hl]
      by_cases e : n = j
      · subst e
        by_cases hlt : n < occ.length
        · rw [if_pos ⟨rfl, hlt⟩, if_pos ⟨by omega, hlt, hc⟩]
        · rw [if_neg (fun c => hlt c.2), if_neg (fun c => hlt c.2.1), if_neg (fun c => hlt c.2.1)]
      · rw [if_neg (fun c => e c.1)]
        by_cases c2 : j < n ∧ j < occ.length ∧ histo.getD j 0 ≠ 0
        · rw [if_pos c2, if_pos ⟨by omega, c2.2⟩]
        · rw [if_neg c2, if_neg (fun c => c2 ⟨by omega, c.2⟩)]
    · rw [if_neg hc]
      refine ⟨hl, ?_⟩
      intro j
      rw [hg j]
      by_cases c2 : j < n ∧ j < occ.length ∧ histo.getD j 0 ≠ 0
      · rw [if_pos c2, if_pos ⟨by omega, c2.2⟩]
      · rw [if_neg c2, if_neg]
        intro c
        by_cases e : j = n
        · rw [e] at c; exact hc c.2.2
        · exact c2 ⟨by omega, c.2⟩

theorem countOccurence_spec (histo occ : List Nat) (hl : occ.length = 16) :
    (countOccurence histo occ).length = 16 ∧ ∀ j < 16, (countOccurence histo occ).getD j 0 =
      occ.getD j 0 + if histo.getD j 0 ≠ 0 then 1 else 0 := by
  have := countOccurence_aux histo occ 16
  simp only at this
  unfold countOccurence
  refine ⟨by rw [this.1]; exact hl, ?_⟩
  intro j hj
  rw [this.2 j]
  by_cases c : histo.getD j 0 ≠ 0
  · rw [if_pos ⟨hj, by omega, c⟩, if_pos c]
  · rw [if_neg (fun h => c h.2.2), if_neg c]; rfl

theorem replicate_getD_zero (n j : Nat) : (List.replicate n 0).getD j 0 = 0 := by
  by_cases h : j < n
  · rw [List.getD_eq_getElem _ _ (by rw [List.length_replicate]; exact h), List.getElem_replicate]
  · exact List.getD_eq_default _ _ (by rw [List.length_replicate]; omega)

theorem buildHisto_not_mem (l : List Nat) (acc : List Nat) (j : Nat) (hj : j ∉ l) :
    (l.foldl (fun h c => h.set c ((h.getD c 0 + 1) % 256)) acc).getD j 0 = acc.getD j 0 := by
  induction l generalizing acc with
  | nil => rfl
  | cons a t ih =>
    rw [List.foldl_cons, ih _ (fun h => hj (List.mem_cons_of_mem _ h))]
    exact getD_set_ne _ _ _ _ (fun e => hj (e ▸ List.mem_cons_self _ _))

theorem buildHisto_ne_zero_iff (blockColors : List Nat) (hv : ValidBlock blockColors) (j : Nat) :
    (buildHisto blockColors).getD j 0 ≠ 0 ↔ j ∈ blockColors := by
  constructor
  · intro h
    by_contra hn
    apply h
    unfold buildHisto
    rw [buildHisto_not_mem _ _ _ hn]
    exact replicate_getD_zero 16 j
  · intro h
    exact (buildHisto_spec blockColors hv).2.2 j h

theorem occ_fold_count (blocks : List (List Nat)) (occ : List Nat) (hl : occ.length = 16)
    (hv : ∀ blk ∈ blocks, ValidBlock blk) :
    (blocks.foldl (fun occ blk => countOccurence (buildHisto blk) occ) occ).length = 16 ∧
    ∀ i < 16, (blocks.foldl (fun occ blk => countOccurence (buildHisto blk) occ) occ).getD i 0 =
      occ.getD i 0 + blocks.countP (fun blk => decide (i ∈ blk)) := by
  induction blocks generalizing occ with
  | nil => exact ⟨hl, fun i _ => rfl⟩
  | cons b t ih =>
    obtain ⟨h1, h2⟩ := countOccurence_spec (buildHisto b) occ hl
    obtain ⟨h3, h4⟩ := ih _ h1 (fun blk hb => hv blk (List.mem_cons_of_mem _ hb))
    rw [List.foldl_cons]
    refine ⟨h3, ?_⟩
    intro i hi
    rw [h4 i hi, h2 i hi, List.countP_cons]
    have hiff := buildHisto_ne_zero_iff b (hv b (List.mem_cons_self _ _)) i
    by_cases c : i ∈ b
    · rw [if_pos (hiff.2 c), if_pos (decide_eq_true c)]; omega
    · rw [if_neg (fun h => c (hiff.1 h)), if_neg (by simpa using c)]; omega

theorem rows_200 : (200 + 7) / 8 = 25 := by decide

theorem cols_320 : (320 + 7) / 8 = 40 := by decide

theorem colorOccurence_count (pix : Nat → Nat → List Nat) (s : ConvState)
    (hv : ∀ by_ < 25, ∀ bx < 40, ValidBlock (pix by_ bx)) :
    (doImageConversion 320 200 pix s).colorOccurence.length = 16 ∧
    ∀ i < 16, (doImageConversion 320 200 pix s).colorOccurence.getD i 0 = occurrenceCount pix i := by
  have hvalid : ∀ blk ∈ (List.range 25).flatMap
      (fun by_ => (List.range 40).map (fun bx => pix by_ bx)), ValidBlock blk := by
    intro blk hb
    rw [List.mem_flatMap] at hb
    obtain ⟨by_, h1, h2⟩ := hb
    rw [List.mem_map] at h2
    obtain ⟨bx, h3, h4⟩ := h2
    rw [← h4]
    exact hv by_ (List.mem_range.1 h1) bx (List.mem_range.1 h3)
  obtain ⟨h1, h2⟩ := occ_fold_count _ (List.replicate 16 0) (by simp) hvalid
  have hocc : (doImageConversion 320 200 pix s).colorOccurence =
      ((List.range 25).flatMap (fun by_ => (List.range 40).map (fun bx => pix by_ bx))).foldl
        (fun occ blk => countOccurence (buildHisto blk) occ) (List.replicate 16 0) := by
    unfold doImageConversion
    rw [rows_200, cols_320]
    exact frame_occ _ pix (List.range 25) _
  rw [hocc]
  refine ⟨h1, ?_⟩
  intro i hi
  rw [h2 i hi, replicate_getD_zero, Nat.zero_add]
  rfl

theorem list_eq_of_getD (a b : List Nat) (hl : a.length = b.length)
    (h : ∀ i < a.length, a.getD i 0 = b.getD i 0) : a = b := by
  apply List.ext_getElem hl
  intro i h1 h2
  have := h i h1
  rwa [List.getD_eq_getElem _ _ h1, List.getD_eq_getElem _ _ h2] at this

/-! ### The whole frame: layout of `koalaData` -/

theorem poke_apply (k : Nat → Nat) (a v j : Nat) : poke k a v j = if j = a then v else k j := rfl

theorem pokeFold (g : Nat → Nat) (base n : Nat) (k0 : Nat → Nat) (j : Nat) :
    ((List.range n).foldl (fun k c => poke k (base + c) (g c)) k0) j =
      if base ≤ j ∧ j < base + n then g (j - base) else k0 j := by
  induction n with
  | zero =>
    rw [if_neg (by omega)]
    rfl
  | succ n ih =>
    rw [List.range_succ, List.foldl_append, List.foldl_cons, List.foldl_nil, poke_apply]
    by_cases e : j = base + n
    · rw [if_pos e, if_pos ⟨by omega, by omega⟩]
      exact congrArg g (by omega)
    · rw [if_neg e, ih]
      by_cases c : base ≤ j ∧ j < base + n
      · rw [if_pos c, if_pos ⟨c.1, by omega⟩]
      · rw [if_neg c, if_neg (by omega)]

theorem blockStep_snd (bg : Nat) (pix : Nat → Nat → List Nat) (by_ : Nat)
    (st : List Nat × (Nat → Nat)) (bx : Nat) :
    (blockStep bg pix by_ st bx).2 =
      (List.range 8).foldl
        (fun k c => poke k (by_ * 8 * 40 + bx * 8 + c)
          ((encodeBlock bg (st.2 (9000 + by_ * 40 + bx)) (pix by_ bx)).bitmap.getD c 0))
        (poke (poke st.2 (8000 + by_ * 40 + bx)
            (encodeBlock bg (st.2 (9000 + by_ * 40 + bx)) (pix by_ bx)).screenRAM)
          (9000 + by_ * 40 + bx)
          (encodeBlock bg (st.2 (9000 + by_ * 40 + bx)) (pix by_ bx)).colorRAM) := by
  unfold blockStep
  simp only [Nat.mul_div_cancel _ (show 0 < 8 by decide)]

theorem blockStep_writes (bg : Nat) (pix : Nat → Nat → List Nat) (by_ : Nat)
    (st : List Nat × (Nat → Nat)) (bx : Nat) (hby : by_ < 25) (hbx : bx < 40) :
    (∀ c < 8, (blockStep bg pix by_ st bx).2 (by_ * 320 + bx * 8 + c) =
      (encodeBlock bg (st.2 (9000 + by_ * 40 + bx)) (pix by_ bx)).bitmap.getD c 0) ∧
    (blockStep bg pix by_ st bx).2 (8000 + by_ * 40 + bx) =
      (encodeBlock bg (st.2 (9000 + by_ * 40 + bx)) (pix by_ bx)).screenRAM ∧
    (blockStep bg pix by_ st bx).2 (9000 + by_ * 40 + bx) =
      (encodeBlock bg (st.2 (9000 + by_ * 40 + bx)) (pix by_ bx)).colorRAM ∧
    (∀ j, ¬ (by_ * 320 + bx * 8 ≤ j ∧ j < by_ * 320 + bx * 8 + 8) →
      j ≠ 8000 + by_ * 40 + bx → j ≠ 9000 + by_ * 40 + bx →
      (blockStep bg pix by_ st bx).2 j = st.2 j) := by
  rw [blockStep_snd]
  refine ⟨?_, ?_, ?_, ?_⟩
  · intro c hc
    rw [pokeFold, if_pos ⟨by omega, by omega⟩]
    exact congrArg (fun i => (encodeBlock bg (st.2 (9000 + by_ * 40 + bx))
      (pix by_ bx)).bitmap.getD i 0) (by omega)
  · rw [pokeFold, if_neg (by omega)]
    unfold poke
    rw [if_neg (by omega), if_pos rfl]
  · rw [pokeFold, if_neg (by omega)]
    unfold poke
    rw [if_pos rfl]
  · intro j h1 h2 h3
    rw [pokeFold, if_neg (by omega)]
    unfold poke
    rw [if_neg h3, if_neg h2]

theorem frameInv_step (bg : Nat) (pix : Nat → Nat → List Nat) (k0 : Nat → Nat)
    (by_ bx : Nat) (st : List Nat × (Nat → Nat)) (hby : by_ < 25) (hbx : bx < 40)
    (inv : FrameInv bg pix k0 (by_ * 40 + bx) st.2) :
    FrameInv bg pix k0 (by_ * 40 + bx + 1) (blockStep bg pix by_ st bx).2 := by
  obtain ⟨w1, w2, w3, w4⟩ := blockStep_writes bg pix by_ st bx hby hbx
  have hprev := inv.2 by_ bx hby hbx (Nat.le_refl _)
  rw [hprev] at w1 w2 w3
  constructor
  · intro y x hy hx hlt
    by_cases e : y * 40 + x = by_ * 40 + bx
    · have ey : y = by_ := by omega
      have ex : x = bx := by omega
      rw [ey, ex]
      exact ⟨w1, w2, w3⟩
    · obtain ⟨d1, d2, d3⟩ := inv.1 y x hy hx (by omega)
      refine ⟨?_, ?_, ?_⟩
      · intro c hc
        rw [w4 _ (by omega) (by omega) (by omega)]
        exact d1 c hc
      · rw [w4 _ (by omega) (by omega) (by omega)]
        exact d2
      · rw [w4 _ (by omega) (by omega) (by omega)]
        exact d3
  · intro y x hy hx hle
    rw [w4 _ (by omega) (by omega) (by omega)]
    exact inv.2 y x hy hx (by omega)

theorem frameInv_row (bg : Nat) (pix : Nat → Nat → List Nat) (k0 : Nat → Nat)
    (by_ : Nat) (hby : by_ < 25) (n : Nat) (hn : n ≤ 40) (st : List Nat × (Nat → Nat))
    (inv : FrameInv bg pix k0 (by_ * 40) st.2) :
    FrameInv bg pix k0 (by_ * 40 + n) ((List.range n).foldl (blockStep bg pix by_) st).2 := by
  induction n with
  | zero => exact inv
  | succ n ih =>
    rw [List.range_succ, List.foldl_append, List.foldl_cons, List.foldl_nil]
    exact frameInv_step bg pix k0 by_ n _ hby (by omega) (ih (by omega))

theorem frameInv_frame (bg : Nat) (pix : Nat → Nat → List Nat) (k0 : Nat → Nat)
    (r : Nat) (hr : r ≤ 25) (occ : List Nat) :
    FrameInv bg pix k0 (r * 40)
      ((List.range r).foldl (fun st by_ => (List.range 40).foldl (blockStep bg pix by_) st)
        (occ, k0)).2 := by
  induction r with
  | zero =>
    constructor
    · intro y x _ _ h
      omega
    · intro y x _ _ _
      rfl
  | succ r ih =>
    have hrs : List.range (r + 1) = List.range r ++ [r] := by rw [List.range_succ]
    rw [hrs, List.foldl_append, List.foldl_cons, List.foldl_nil]
    have := frameInv_row bg pix k0 r (by omega) 40 (Nat.le_refl _) _ (ih (by omega))
    have e : (r + 1) * 40 = r * 40 + 40 := by omega
    rw [e]
    exact this

theorem chooseBgColor_fold_lt (occ : List Nat) (l : List Nat) (hl : ∀ i ∈ l, i < 15)
    (fb : Nat × Nat) (hfb : fb.2 < 15) :
    (l.foldl (fun fb i => if occ.getD i 0 > fb.1 then (occ.getD i 0, i) else fb) fb).2 < 15 := by
  induction l generalizing fb with
  | nil => exact hfb
  | cons a t ih =>
    rw [List.foldl_cons]
    apply ih (fun i hi => hl i (List.mem_cons_of_mem _ hi))
    by_cases c : occ.getD a 0 > fb.1
    · rw [if_pos c]
      exact hl a (List.mem_cons_self _ _)
    · rw [if_neg c]
      exact hfb

theorem chooseBgColor_lt (occ : List Nat) : (chooseBgColor occ).2 < 15 := by
  unfold chooseBgColor
  apply chooseBgColor_fold_lt
  · intro i hi
    rw [List.mem_range'_1] at hi
    omega
  · show (0 : Nat) < 15
    decide

theorem bgColor_eq (pix : Nat → Nat → List Nat) (s : ConvState) :
    (doImageConversion 320 200 pix s).bgColor =
      if s.firstBGGuess ≠ 0 then 0 else (chooseBgColor s.colorOccurence).2 := rfl

theorem bgColor_lt (pix : Nat → Nat → List Nat) (s : ConvState) :
    (doImageConversion 320 200 pix s).bgColor < 15 := by
  rw [bgColor_eq]
  by_cases c : s.firstBGGuess ≠ 0
  · rw [if_pos c]; decide
  · rw [if_neg c]; exact chooseBgColor_lt _

theorem assignColor_bounds (r : Regs) (i : Nat) (hi : i < 16)
    (hr : r.screenRAM < 256 ∧ r.colorRAM < 16) :
    (assignColor r i).screenRAM < 256 ∧ (assignColor r i).colorRAM < 16 := by
  unfold assignColor
  by_cases c2 : r.w = 2
  · rw [if_pos c2]
    exact ⟨Nat.mod_lt _ (by decide), hr.2⟩
  · rw [if_neg c2]
    by_cases c1 : r.w = 1
    · rw [if_pos c1]
      exact ⟨Nat.mod_lt _ (by decide), hr.2⟩
    · rw [if_neg c1]
      by_cases c0 : r.w = 0
      · rw [if_pos c0]
        exact ⟨hr.1, hi⟩
      · rw [if_neg c0]
        exact hr

theorem assign_fold_bounds (l : List Nat) (hl : ∀ c ∈ l, c < 16) (r : Regs)
    (hr : r.screenRAM < 256 ∧ r.colorRAM < 16) :
    (l.foldl assignColor r).screenRAM < 256 ∧ (l.foldl assignColor r).colorRAM < 16 := by
  induction l generalizing r with
  | nil => exact hr
  | cons a t ih =>
    rw [List.foldl_cons]
    exact ih (fun c hc => hl c (List.mem_cons_of_mem _ hc)) _
      (assignColor_bounds r a (hl a (List.mem_cons_self _ _)) hr)

theorem assignRegs_bounds (bg prev : Nat) (histo : List Nat) (hl : histo.length = 16) :
    (assignRegs bg prev histo).screenRAM < 256 ∧ (assignRegs bg prev histo).colorRAM < 16 := by
  rw [assignRegs_eq]
  apply assign_fold_bounds
  · intro c hc
    rw [List.mem_filter, List.mem_range] at hc
    exact hc.1
  · by_cases k : (prev != bg && histo.getD prev 0 != 0) = true
    · rw [if_pos k]
      refine ⟨(by decide : (0 : Nat) < 256), ?_⟩
      show prev < 16
      rw [Bool.and_eq_true, bne_iff_ne, bne_iff_ne] at k
      by_contra hge
      exact k.2 (List.getD_eq_default _ _ (by omega))
    · rw [if_neg k]
      exact ⟨(by decide : (0 : Nat) < 256), (by decide : (0 : Nat) < 16)⟩

theorem map_range_getD (f : Nat → Nat) (n c : Nat) (hc : c < n) :
    ((List.range n).map f).getD c 0 = f c := by
  rw [List.getD_eq_getElem _ _ (by rw [List.length_map, List.length_range]; exact hc),
    List.getElem_map, List.getElem_range]

theorem koalaData_eq (pix : Nat → Nat → List Nat) (s : ConvState) :
    (doImageConversion 320 200 pix s).koalaData =
      poke ((List.range 25).foldl
        (fun st by_ => (List.range 40).foldl
          (blockStep (doImageConversion 320 200 pix s).bgColor pix by_) st)
        (List.replicate 16 0, s.koalaData)).2 10000 (doImageConversion 320 200 pix s).bgColor := by
  rw [bgColor_eq]
  unfold doImageConversion
  rw [rows_200, cols_320]

theorem nibble_bounds : ∀ v < 256, v >>> 4 < 16 ∧ v &&& 15 < 16 := by
  decide!

/-- C19: for every frame of 25 by 40 blocks of 32 palette indices each and
every state on entry, after `doImageConversion` the byte at
`by*320 + bx*8 + c` of `koalaData` is pixel row `c` of the encoding of block
`(bx, by)`, and for `a = 0..3` its bits `7-2a..6-2a` are the code of pixel `a`
of that row, the leftmost pixel being in bits 7..6; the byte at
`8000 + by*40 + bx` is the screen register of the block and the byte at
`9000 + by*40 + bx` its colour register, both nibbles of the first and the
value of the second being below 16; byte 10000 is the background colour, which
is below 16; and every index below 10000 is one of these addresses. -/
theorem frame_layout (pix : Nat → Nat → List Nat) (s : ConvState) (by_ bx c a : Nat)
    (hv : ∀ y < 25, ∀ x < 40, ValidBlock (pix y x))
    (hby : by_ < 25) (hbx : bx < 40) (hc : c < 8) (ha : a < 4) :
    (doImageConversion 320 200 pix s).koalaData (by_ * 320 + bx * 8 + c) =
      (frameBlock pix s by_ bx).bitmap.getD c 0 ∧
    pixelCode ((doImageConversion 320 200 pix s).koalaData (by_ * 320 + bx * 8 + c)) a =
      pixelValue (frameBlock pix s by_ bx).colorRAM (frameBlock pix s by_ bx).screenRAM
        (reducedColor (reduceBlock (doImageConversion 320 200 pix s).bgColor (pix by_ bx))
          (pix by_ bx) (a + c * 4)) ∧
    (doImageConversion 320 200 pix s).koalaData (8000 + by_ * 40 + bx) =
      (frameBlock pix s by_ bx).screenRAM ∧
    (frameBlock pix s by_ bx).screenRAM >>> 4 < 16 ∧
    (frameBlock pix s by_ bx).screenRAM &&& 15 < 16 ∧
    (doImageConversion 320 200 pix s).koalaData (9000 + by_ * 40 + bx) =
      (frameBlock pix s by_ bx).colorRAM ∧
    (frameBlock pix s by_ bx).colorRAM < 16 ∧
    (doImageConversion 320 200 pix s).koalaData 10000 = (doImageConversion 320 200 pix s).bgColor ∧
    (doImageConversion 320 200 pix s).bgColor < 16 ∧
    ∀ j < 10000, ∃ y x, y < 25 ∧ x < 40 ∧
      ((∃ r < 8, j = y * 320 + x * 8 + r) ∨ j = 8000 + y * 40 + x ∨ j = 9000 + y * 40 + x) := by
  have hbg := bgColor_lt pix s
  have inv := frameInv_frame (doImageConversion 320 200 pix s).bgColor pix s.koalaData 25
    (Nat.le_refl _) (List.replicate 16 0)
  obtain ⟨d1, d2, d3⟩ := inv.1 by_ bx hby hbx (by omega)
  have hrow : (doImageConversion 320 200 pix s).koalaData (by_ * 320 + bx * 8 + c) =
      (frameBlock pix s by_ bx).bitmap.getD c 0 := by
    rw [koalaData_eq, poke_apply, if_neg (by omega)]
    exact d1 c hc
  have hlen := (reduceBlock_inv (doImageConversion 320 200 pix s).bgColor (pix by_ bx) (by omega)
    (hv by_ hby bx hbx)).1.hlen
  have hregs := assignRegs_bounds (doImageConversion 320 200 pix s).bgColor
    (s.koalaData (9000 + by_ * 40 + bx))
    (reduceBlock (doImageConversion 320 200 pix s).bgColor (pix by_ bx)).histo hlen
  have hnib := nibble_bounds _ hregs.1
  refine ⟨hrow, ?_, ?_, hnib.1, hnib.2, ?_, hregs.2, ?_, by omega, ?_⟩
  · rw [hrow]
    show pixelCode (((List.range 8).map _).getD c 0) a = _
    rw [map_range_getD _ 8 c hc]
    exact pixelCode_bitmapRow _ _ _ _ c a ha
  · rw [koalaData_eq, poke_apply, if_neg (by omega)]
    exact d2
  · rw [koalaData_eq, poke_apply, if_neg (by omega)]
    exact d3
  · rw [koalaData_eq, poke_apply, if_pos rfl]
  · intro j hj
    by_cases h1 : j < 8000
    · refine ⟨j / 320, j % 320 / 8, by omega, by omega, Or.inl ⟨j % 8, by omega, by omega⟩⟩
    · by_cases h2 : j < 9000
      · exact ⟨(j - 8000) / 40, (j - 8000) % 40, by omega, by omega, Or.inr (Or.inl (by omega))⟩
      · exact ⟨(j - 9000) / 40, (j - 9000) % 40, by omega, by omega, Or.inr (Or.inr (by omega))⟩

/-- Witness of `frame_layout`: the frame whose pixels all have colour 15,
encoded from the initial state, at block row 3, block column 5, pixel row 2
and pixel 1. -/
theorem frame_layout_witness :
    ((∀ y < 25, ∀ x < 40, ValidBlock (greyFrame y x)) ∧ 3 < 25 ∧ 5 < 40 ∧ 2 < 8 ∧ 1 < 4) ∧
    ((doImageConversion 320 200 greyFrame initialConv).koalaData (3 * 320 + 5 * 8 + 2) =
      (frameBlock greyFrame initialConv 3 5).bitmap.getD 2 0 ∧
    pixelCode ((doImageConversion 320 200 greyFrame initialConv).koalaData (3 * 320 + 5 * 8 + 2)) 1 =
      pixelValue (frameBlock greyFrame initialConv 3 5).colorRAM
        (frameBlock greyFrame initialConv 3 5).screenRAM
        (reducedColor (reduceBlock (doImageConversion 320 200 greyFrame initialConv).bgColor
          (greyFrame 3 5)) (greyFrame 3 5) (1 + 2 * 4)) ∧
    (doImageConversion 320 200 greyFrame initialConv).koalaData (8000 + 3 * 40 + 5) =
      (frameBlock greyFrame initialConv 3 5).screenRAM ∧
    (frameBlock greyFrame initialConv 3 5).screenRAM >>> 4 < 16 ∧
    (frameBlock greyFrame initialConv 3 5).screenRAM &&& 15 < 16 ∧
    (doImageConversion 320 200 greyFrame initialConv).koalaData (9000 + 3 * 40 + 5) =
      (frameBlock greyFrame initialConv 3 5).colorRAM ∧
    (frameBlock greyFrame initialConv 3 5).colorRAM < 16 ∧
    (doImageConversion 320 200 greyFrame initialConv).koalaData 10000 =
      (doImageConversion 320 200 greyFrame initialConv).bgColor ∧
    (doImageConversion 320 200 greyFrame initialConv).bgColor < 16 ∧
    ∀ j < 10000, ∃ y x, y < 25 ∧ x < 40 ∧
      ((∃ r < 8, j = y * 320 + x * 8 + r) ∨ j = 8000 + y * 40 + x ∨
        j = 9000 + y * 40 + x)) :=
  ⟨⟨fun _ _ _ _ => (by decide : ValidBlock (List.replicate 32 15)), by decide, by decide,
      by decide, by decide⟩,
    frame_layout greyFrame initialConv 3 5 2 1
      (fun _ _ _ _ => (by decide : ValidBlock (List.replicate 32 15)))
      (by decide) (by decide) (by decide) (by decide)⟩

theorem greyFrame_blocks (blk : List Nat)
    (h : blk ∈ (List.range 25).flatMap
      (fun by_ => (List.range 40).map (fun bx => greyFrame by_ bx))) :
    blk = List.replicate 32 15 := by
  rw [List.mem_flatMap] at h
  obtain ⟨y, _, h2⟩ := h
  rw [List.mem_map] at h2
  obtain ⟨x, _, h4⟩ := h2
  exact h4.symm

theorem greyFrame_length :
    ((List.range 25).flatMap
      (fun by_ => (List.range 40).map (fun bx => greyFrame by_ bx))).length = 1000 := by
  decide!

theorem greyFrame_count (i : Nat) :
    occurrenceCount greyFrame i = if i = 15 then 1000 else 0 := by
  unfold occurrenceCount
  by_cases c : i = 15
  · rw [if_pos c, List.countP_eq_length.2, greyFrame_length]
    intro blk hb
    rw [greyFrame_blocks blk hb, c]
    decide
  · rw [if_neg c, List.countP_eq_zero]
    intro blk hb
    rw [greyFrame_blocks blk hb]
    intro hmem
    rw [decide_eq_true_eq, List.mem_replicate] at hmem
    exact c hmem.2

/-- C17: the frame `greyFrame`, in which every pixel of every block has colour
15, is encoded first; colour 15 then has the occurrence count 1000 and the
colours 0 to 14 have the count 0, and these are the counts `colorOccurence`
holds.  For every frame encoded next the background colour is 0, whose count
is not maximal: the search loop runs over `i = 1..14` and never examines
colour 15.  For every state the colour it chooses is below 15. -/
theorem background_skips_colour_15 :
    occurrenceCount greyFrame 15 = 1000 ∧
    (∀ i < 15, occurrenceCount greyFrame i = 0) ∧
    (∀ i < 16, (doImageConversion 320 200 greyFrame initialConv).colorOccurence.getD i 0 =
      occurrenceCount greyFrame i) ∧
    (doImageConversion 320 200 greyFrame initialConv).firstBGGuess = 0 ∧
    (∀ pix, (doImageConversion 320 200 pix (doImageConversion 320 200 greyFrame initialConv)).bgColor = 0) ∧
    occurrenceCount greyFrame 0 < occurrenceCount greyFrame 15 ∧
    ∀ pix s, (doImageConversion 320 200 pix s).bgColor < 15 := by
  have hv : ∀ y < 25, ∀ x < 40, ValidBlock (greyFrame y x) :=
    fun _ _ _ _ => (by decide : ValidBlock (List.replicate 32 15))
  obtain ⟨hlen, hocc⟩ := colorOccurence_count greyFrame initialConv hv
  have hfirst : (doImageConversion 320 200 greyFrame initialConv).firstBGGuess = 0 := rfl
  have hlist : (doImageConversion 320 200 greyFrame initialConv).colorOccurence =
      List.replicate 15 0 ++ [1000] := by
    apply list_eq_of_getD
    · rw [hlen]; rfl
    · intro i hi
      rw [hlen] at hi
      rw [hocc i hi, greyFrame_count]
      revert i
      decide
  refine ⟨by rw [greyFrame_count, if_pos rfl], ?_, hocc, hfirst, ?_, ?_, bgColor_lt⟩
  · intro i hi
    rw [greyFrame_count, if_neg (by omega)]
  · intro pix
    rw [bgColor_eq, hfirst, hlist]
    decide
  · rw [greyFrame_count, greyFrame_count]
    decide

/-! ### The total handed to the raster wait, and the start decision -/

/-- C21: on an invocation that finds `firstBlit` non-zero the three full
spans are stored, 10000 bytes in all, and `totalTransfer` keeps its initial
value 0, so `scanlinesNeeded` is 0 where the 10000 bytes sent correspond to
172 scan lines; on every other invocation `totalTransfer` is the sum of
`to - from` over the stored spans.  Shown for every state and frame, and
evaluated on the state after `restartIncrementalBlitter`. -/
theorem total_transfer_first_blit :
    (∀ (s : BlitState) (koalaData : Nat → Nat),
      if s.firstBlit ≠ 0 then
        (blitSpans s koalaData).2 = 0 ∧
        ((blitSpans s koalaData).1.map (fun w => spanTo w - spanFrom w)).sum = 10000
      else
        (blitSpans s koalaData).2 =
          ((blitSpans s koalaData).1.map (fun w => spanTo w - spanFrom w)).sum) ∧
    (blitSpans (restartIncrementalBlitter idleState) sampleFrame).2 = 0 ∧
    ((blitSpans (restartIncrementalBlitter idleState) sampleFrame).1.map
      (fun w => spanTo w - spanFrom w)).sum = 10000 ∧
    scanlinesNeeded (blitSpans (restartIncrementalBlitter idleState) sampleFrame).2 = 0 ∧
    scanlinesNeeded 10000 = 172 := by
  have hsum : (firstBlitSpans.map (fun w => spanTo w - spanFrom w)).sum = 10000 := by decide
  refine ⟨?_, ?_, ?_, ?_, by decide⟩
  · intro s koalaData
    by_cases h : s.firstBlit ≠ 0
    · rw [if_pos h, blitSpans_first s koalaData h]
      exact ⟨rfl, hsum⟩
    · rw [if_neg h, blitSpans_diff s koalaData (by omega)]
      exact (buildSpans_spec _ _ _ _).2.2.2.2.2
  · rw [blitSpans_first _ _ (by decide)]
  · rw [blitSpans_first _ _ (by decide)]
    exact hsum
  · rw [blitSpans_first _ _ (by decide)]
    decide

/-- C23, counterexample: with `totalTransfer = 0` the estimated cost is 0
scan lines, below 110; the stable raster position 100 is below line 255, and
the pass ends in `goto readRasterLine`: the position is polled again, not
accepted. -/
theorem small_transfer_repolls_below_255 :
    scanlinesNeeded 0 < 110 ∧ (100 : Nat) < 255 ∧ repollRaster 0 100 100 = true := by
  decide

/-- C23, amended: when the estimated cost `scanlinesNeeded` is below 110 and
the two raster reads agree, the transfer starts exactly when the raster line
is 255 or more; every stable position below line 255 is polled again. -/
theorem small_transfer_start (totalTransfer curRasterLine : Nat)
    (hsmall : scanlinesNeeded totalTransfer < 110) (hline : curRasterLine < 65536) :
    (repollRaster totalTransfer curRasterLine curRasterLine = false ↔ 255 ≤ curRasterLine) ∧
    (curRasterLine < 255 → repollRaster totalTransfer curRasterLine curRasterLine = true) ∧
    ∀ curRasterLine2, curRasterLine2 < 65536 → curRasterLine2 ≠ curRasterLine →
      repollRaster totalTransfer curRasterLine curRasterLine2 = true := by
  have hstable : ¬ (curRasterLine + 65536 - curRasterLine) % 65536 ≥ 1 := by omega
  have heq : repollRaster totalTransfer curRasterLine curRasterLine =
      decide (curRasterLine < 255) := by
    unfold repollRaster
    rw [if_neg hstable, if_pos hsmall]
  refine ⟨?_, ?_, ?_⟩
  · rw [heq, decide_eq_false_iff_not]
    omega
  · intro h
    rw [heq]
    exact decide_eq_true h
  · intro l2 hl2 hne
    unfold repollRaster
    rw [if_pos (by omega)]

/-- Witness of `small_transfer_start`: 100 bytes to transfer, raster line
260. -/
theorem small_transfer_start_witness :
    (scanlinesNeeded 100 < 110 ∧ 260 < 65536) ∧
    ((repollRaster 100 260 260 = false ↔ 255 ≤ 260) ∧
    (260 < 255 → repollRaster 100 260 260 = true) ∧
    ∀ curRasterLine2, curRasterLine2 < 65536 → curRasterLine2 ≠ 260 →
      repollRaster 100 260 curRasterLine2 = true) :=
  ⟨by decide, small_transfer_start 100 260 (by decide) (by decide)⟩

/-! ### The rank table and the palette -/

/-- C25, counterexample: in row 0 of `mapC64Closest` the entries 1 and 2 are
the colours 6 and 11, at squared distances 19050 and 13872 from colour 0 in
`c64PalettePepto`: the distance decreases along the row.  Every one of the 16
rows has such a descent. -/
theorem rank_table_not_distance_sorted :
    rankEntry 0 1 = 6 ∧ rankEntry 0 2 = 11 ∧
    paletteDistance 0 6 = 19050 ∧ paletteDistance 0 11 = 13872 ∧
    paletteDistance 0 (rankEntry 0 2) < paletteDistance 0 (rankEntry 0 1) ∧
    ∀ i < 16, ∃ k < 14,
      paletteDistance i (rankEntry i (k + 1)) < paletteDistance i (rankEntry i k) := by
  decide!

/-- C25, amended: for every palette colour `i` the 15 entries
`mapC64Closest[ i*16 + 0..14 ]` are palette colours other than `i`, no two of
them equal, so the row is a ranking of the 15 other colours; the order is the
one written in the table, not the order of the distances in
`c64PalettePepto`. -/
theorem rank_table_rows_rank_others (i : Nat) (hi : i < 16) :
    ((List.range 15).map (rankEntry i)).Nodup ∧
    (∀ k < 15, rankEntry i k < 16 ∧ rankEntry i k ≠ i) ∧
    ∀ j < 16, j ≠ i → ∃ k < 15, rankEntry i k = j := by
  revert i
  decide!

/-- Witness of `rank_table_rows_rank_others`: row 6. -/
theorem rank_table_rows_rank_others_witness :
    (6 < 16) ∧
    (((List.range 15).map (rankEntry 6)).Nodup ∧
    (∀ k < 15, rankEntry 6 k < 16 ∧ rankEntry 6 k ≠ 6) ∧
    ∀ j < 16, j ≠ 6 → ∃ k < 15, rankEntry 6 k = j) :=
  ⟨by decide, rank_table_rows_rank_others 6 (by decide)⟩

/-! ### The number of keyboard events of one scan -/

theorem keyEvents_length_le (matrix prevMatrix : List Nat) :
    ((scanOrder.filter (fun p => bitChanged matrix prevMatrix p.1 p.2)).map
      (fun p => keyEvent matrix p.1 p.2)).length ≤ 64 := by
  rw [List.length_map]
  have h := List.length_filter_le (fun p => bitChanged matrix prevMatrix p.1 p.2) scanOrder
  have h64 : scanOrder.length = 64 := by decide
  omega

theorem readKeyDoom_events (s : KeyScanState) (matrix : List Nat) :
    (readKeyDoom s matrix).1 =
      (scanOrder.filter (fun p => bitChanged matrix
          (if s.firstKeyScan ≠ 0 then matrix else s.prevMatrix) p.1 p.2)).map
        (fun p => keyEvent matrix p.1 p.2) := by
  unfold readKeyDoom scanOrder
  dsimp only
  rw [keyEvent_outer]
  simp

/-- C29: with no key down in the previous snapshot and the 17 keys of
`manyKeys` down in the current one, `readKeyDoom` stores 17 events and sets
`*nEvents` to 17: the store to `kbEvents[ 16 ]` is past the 16 entries of the
buffer that `DG_DrawFrame` and `introShowFrame` pass in.  With all 64 keys
down it stores 64 events.  Nothing in the loop compares `*nEvents` with a
capacity; for every pair of snapshots the number of events is at most 64. -/
theorem key_events_exceed_buffer :
    (readKeyDoom { firstKeyScan := 0, prevMatrix := List.replicate 8 255 } manyKeys).1.length
      = 17 ∧
    (readKeyDoom { firstKeyScan := 0, prevMatrix := List.replicate 8 255 } manyKeys).2.1 = 17 ∧
    (readKeyDoom { firstKeyScan := 0, prevMatrix := List.replicate 8 255 }
      (List.replicate 8 0)).1.length = 64 ∧
    ∀ (s : KeyScanState) (matrix : List Nat), (readKeyDoom s matrix).1.length ≤ 64 := by
  refine ⟨by decide, by decide, by decide, ?_⟩
  intro s matrix
  rw [readKeyDoom_events]
  exact keyEvents_length_le _ _

/-! ### The ordered dither matrix -/

theorem ditherIndex_lt (m i cc : Nat) (hm : m < 3) :
    ditherIndex m i cc < 2 ^ (m + 1) * 2 ^ (m + 2) := by
  have h : m = 0 ∨ m = 1 ∨ m = 2 := by omega
  unfold ditherIndex
  rcases h with rfl | rfl | rfl
  · have h1 : i &&& 1 ≤ 1 := Nat.and_le_right
    have h2 : cc &&& 3 ≤ 3 := Nat.and_le_right
    show (i &&& 1) + ((cc &&& 3) <<< 1) < 8
    rw [Nat.shiftLeft_eq]
    omega
  · have h1 : i &&& 3 ≤ 3 := Nat.and_le_right
    have h2 : cc &&& 7 ≤ 7 := Nat.and_le_right
    show (i &&& 3) + ((cc &&& 7) <<< 2) < 32
    rw [Nat.shiftLeft_eq]
    omega
  · have h1 : i &&& 7 ≤ 7 := Nat.and_le_right
    have h2 : cc &&& 15 ≤ 15 := Nat.and_le_right
    show (i &&& 7) + ((cc &&& 15) <<< 3) < 128
    rw [Nat.shiftLeft_eq]
    omega

theorem dynDM_perm : ∀ m < 3,
    (dynDM m).length = 2 ^ (m + 1) * 2 ^ (m + 2) ∧
    2 ^ (m + 1) * 2 ^ (m + 2) = 2 ^ (2 * m + 3) ∧
    (∀ v < 2 ^ (2 * m + 3), (dynDM m).count (some v) = 1) ∧
    ∀ y < 2 ^ (m + 2), ∀ x < 2 ^ (m + 1),
      (dynDM m).getD (y * 2 ^ (m + 1) + x) none = ditherEntry (1 + m) (1 + m + 1) x y := by
  decide!

/-- C30: for each ordered dithering mode `m` in 0, 1, 2 the generation ends
and fills `dynDM` with `2^(m+2)` rows of `2^(m+1)` entries, the entry of
column `x` and row `y` at index `y * 2^(m+1) + x`; every value from 0 to
`2^(2m+3) - 1` occurs exactly once among the `2^(2m+3)` entries; and for all
`i` and `cc` the lookup index `( i & dmaskX ) + ( ( cc & dmaskY ) << dshift )`
is below the number of entries. -/
theorem dither_matrix_permutation (m : Nat) (hm : m < 3) :
    (dynDM m).length = 2 ^ (m + 1) * 2 ^ (m + 2) ∧
    2 ^ (m + 1) * 2 ^ (m + 2) = 2 ^ (2 * m + 3) ∧
    (∀ v < 2 ^ (2 * m + 3), (dynDM m).count (some v) = 1) ∧
    (∀ y < 2 ^ (m + 2), ∀ x < 2 ^ (m + 1),
      (dynDM m).getD (y * 2 ^ (m + 1) + x) none = ditherEntry (1 + m) (1 + m + 1) x y) ∧
    ∀ i cc, ditherIndex m i cc < (dynDM m).length := by
  obtain ⟨h1, h2, h3, h4⟩ := dynDM_perm m hm
  refine ⟨h1, h2, h3, h4, ?_⟩
  intro i cc
  rw [h1]
  exact ditherIndex_lt m i cc hm

/-- Witness of `dither_matrix_permutation`: the mode 2, an 8 by 16 matrix. -/
theorem dither_matrix_permutation_witness :
    (2 < 3) ∧
    ((dynDM 2).length = 2 ^ (2 + 1) * 2 ^ (2 + 2) ∧
    2 ^ (2 + 1) * 2 ^ (2 + 2) = 2 ^ (2 * 2 + 3) ∧
    (∀ v < 2 ^ (2 * 2 + 3), (dynDM 2).count (some v) = 1) ∧
    (∀ y < 2 ^ (2 + 2), ∀ x < 2 ^ (2 + 1),
      (dynDM 2).getD (y * 2 ^ (2 + 1) + x) none = ditherEntry (1 + 2) (1 + 2 + 1) x y) ∧
    ∀ i cc, ditherIndex 2 i cc < (dynDM 2).length) :=
  ⟨by decide, dither_matrix_permutation 2 (by decide)⟩

/-! ### The number of spans -/

theorem span_count_aux (l : List Nat)
    (hr : ∀ w ∈ l,
      (spanFlag w = 0 ∧ spanFrom w < spanTo w ∧ spanTo w ≤ 8000) ∨
      (spanFlag w = 1 ∧ 8000 ≤ spanFrom w ∧ spanFrom w < spanTo w ∧ spanTo w ≤ 9001) ∨
      (spanFlag w = 2 ∧ 9000 ≤ spanFrom w ∧ spanFrom w < spanTo w ∧ spanTo w ≤ 10001))
    (hp : List.Pairwise (fun a b => spanFlag a = spanFlag b → spanTo a ≤ spanFrom b) l)
    (lo0 lo1 lo2 : Nat) (h0 : lo0 ≤ 8000) (h1 : 8000 ≤ lo1 ∧ lo1 ≤ 9001)
    (h2 : 9000 ≤ lo2 ∧ lo2 ≤ 10001)
    (hlo : ∀ w ∈ l, (spanFlag w = 0 → lo0 ≤ spanFrom w) ∧ (spanFlag w = 1 → lo1 ≤ spanFrom w) ∧
      (spanFlag w = 2 → lo2 ≤ spanFrom w)) :
    l.length + lo0 + lo1 + lo2 ≤ 8000 + 9001 + 10001 := by
  induction l generalizing lo0 lo1 lo2 with
  | nil => simp only [List.length_nil]; omega
  | cons a t ih =>
    rw [List.pairwise_cons] at hp
    have ha := hr a (List.mem_cons_self _ _)
    have hla := hlo a (List.mem_cons_self _ _)
    have hrt : ∀ w ∈ t, _ := fun w hw => hr w (List.mem_cons_of_mem _ hw)
    have hlt : ∀ w ∈ t, _ := fun w hw => hlo w (List.mem_cons_of_mem _ hw)
    rw [List.length_cons]
    rcases ha with ⟨f, a1, a2⟩ | ⟨f, a0, a1, a2⟩ | ⟨f, a0, a1, a2⟩
    · have := ih hrt hp.2 (spanTo a) lo1 lo2 a2 h1 h2 (by
        intro w hw
        refine ⟨fun hf => hp.1 w hw (by rw [f, hf]), (hlt w hw).2.1, (hlt w hw).2.2⟩)
      have := hla.1 f
      omega
    · have := ih hrt hp.2 lo0 (spanTo a) lo2 h0 ⟨by omega, a2⟩ h2 (by
        intro w hw
        refine ⟨(hlt w hw).1, fun hf => hp.1 w hw (by rw [f, hf]), (hlt w hw).2.2⟩)
      have := hla.2.1 f
      omega
    · have := ih hrt hp.2 lo0 lo1 (spanTo a) h0 h1 ⟨by omega, a2⟩ (by
        intro w hw
        refine ⟨(hlt w hw).1, (hlt w hw).2.1, fun hf => hp.1 w hw (by rw [f, hf])⟩)
      have := hla.2.2 f
      omega

theorem buildSpans_count (inval : Nat → Bool) (prev koala : Nat → Nat) (ofs : Nat) :
    (buildSpans inval prev koala ofs).1.length ≤ 10002 := by
  obtain ⟨r1, r2, _⟩ := buildSpans_spec inval prev koala ofs
  have := span_count_aux _ r1 r2 0 8000 9000 (by omega) (by omega) (by omega) (by
    intro w hw
    rcases r1 w hw with ⟨f, _⟩ | ⟨f, a0, _⟩ | ⟨f, a0, _⟩
    · exact ⟨fun _ => Nat.zero_le _, fun h => by omega, fun h => by omega⟩
    · exact ⟨fun _ => Nat.zero_le _, fun _ => a0, fun h => by omega⟩
    · exact ⟨fun _ => Nat.zero_le _, fun h => by omega, fun _ => a0⟩)
  omega

/-- C28: in every invocation, whatever the previous and current frame and the
invalidation rows, at most 10002 spans are stored (3 when `firstBlit` is
non-zero), so the index of every store `spanList[ spanIdx++ ]` is below the
20000 entries of `spanList`. -/
theorem span_list_within_capacity (s : BlitState) (koalaData : Nat → Nat) :
    (blitSpans s koalaData).1.length ≤ 10002 ∧
    (blitSpans s koalaData).1.length < 20000 ∧
    (∀ inval prev ofs, (buildSpans inval prev koalaData ofs).1.length ≤ 10002) ∧
    (s.firstBlit = 0 ∨ (blitSpans s koalaData).1.length = 3) := by
  have h : (blitSpans s koalaData).1.length ≤ 10002 := by
    by_cases hf : s.firstBlit ≠ 0
    · rw [blitSpans_first s koalaData hf]
      show firstBlitSpans.length ≤ 10002
      decide
    · rw [blitSpans_diff s koalaData (by omega)]
      exact buildSpans_count _ _ _ _
  refine ⟨h, by omega, fun inval prev ofs => buildSpans_count inval prev koalaData ofs, ?_⟩
  by_cases hf : s.firstBlit = 0
  · exact Or.inl hf
  · right
    rw [blitSpans_first s koalaData hf]
    rfl

/-! ### The rotation of the invalidation rows -/

theorem blitRun_rows (frames : Nat → Nat → Nat) (s : BlitState) (k : Nat) :
    nextInvalidateRow (blitRun frames s k).invalidateRow = (s.invalidateRow + k + 1) % 25 := by
  induction k with
  | zero => rfl
  | succ k ih =>
    show nextInvalidateRow (nextInvalidateRow (blitRun frames s k).invalidateRow) = _
    rw [ih]
    unfold nextInvalidateRow
    omega

theorem nextInvalidateRow2_range (x : Nat) (h : 21 ≤ x ∧ x ≤ 24) :
    21 ≤ nextInvalidateRow2 x ∧ nextInvalidateRow2 x ≤ 24 := by
  unfold nextInvalidateRow2
  by_cases c : x + 1 ≥ 25
  · rw [if_pos c]; omega
  · rw [if_neg c]; omega

theorem blitRun_rows2 (frames : Nat → Nat → Nat) (s : BlitState)
    (h : 21 ≤ s.invalidateRow2 ∧ s.invalidateRow2 ≤ 24) (k : Nat) :
    21 ≤ (blitRun frames s k).invalidateRow2 ∧ (blitRun frames s k).invalidateRow2 ≤ 24 := by
  induction k with
  | zero => exact h
  | succ k ih => exact nextInvalidateRow2_range _ ih

theorem row_covered (s : BlitState) (koalaData : Nat → Nat) (h : s.firstBlit = 0) (i : Nat)
    (hi : i < 10000) (hrow : rowOf i = nextInvalidateRow s.invalidateRow) :
    ∃ w ∈ (blitSpans s koalaData).1, Covers w i := by
  rw [blitSpans_diff s koalaData h]
  apply (buildSpans_spec _ _ _ _).2.2.2.1 i hi
  rw [frameDiff_iff, INVALIDATE_RECT_iff]
  exact Or.inr (Or.inr (Or.inr hrow))

/-- C22: for every state whose secondary row is within 21..24 (it starts at
21), every sequence of frames and every row `r` below 25: among the 25
invocations that follow exactly one has `r` as its primary invalidation row;
the secondary row of every invocation is within 21..24; and on an invocation
with primary row `r` that diffs (`firstBlit = 0`), every bitmap byte from
`320r` to `320r + 319` lies in a stored span with flag 0, and every screen
byte and colour byte from `40r` to `40r + 39` of its plane lies in a stored
span with flag 1 and flag 2, whatever the frame and the previous buffer
hold. -/
theorem invalidation_row_rotation (frames : Nat → Nat → Nat) (s : BlitState) (r : Nat)
    (hr : r < 25) (h2 : 21 ≤ s.invalidateRow2 ∧ s.invalidateRow2 ≤ 24) :
    (∃ k, k < 25 ∧ nextInvalidateRow (blitRun frames s k).invalidateRow = r ∧
      ∀ j, j < 25 → nextInvalidateRow (blitRun frames s j).invalidateRow = r → j = k) ∧
    (∀ k, 21 ≤ nextInvalidateRow2 (blitRun frames s k).invalidateRow2 ∧
      nextInvalidateRow2 (blitRun frames s k).invalidateRow2 ≤ 24) ∧
    ∀ k, nextInvalidateRow (blitRun frames s k).invalidateRow = r →
      (blitRun frames s k).firstBlit = 0 →
      (∀ x, 320 * r ≤ x → x < 320 * r + 320 →
        ∃ w ∈ (blitSpans (blitRun frames s k) (frames k)).1,
          spanFlag w = 0 ∧ spanFrom w ≤ x ∧ x < spanTo w) ∧
      (∀ c, 40 * r ≤ c → c < 40 * r + 40 →
        (∃ w ∈ (blitSpans (blitRun frames s k) (frames k)).1,
          spanFlag w = 1 ∧ spanFrom w ≤ 8000 + c ∧ 8000 + c < spanTo w) ∧
        ∃ w ∈ (blitSpans (blitRun frames s k) (frames k)).1,
          spanFlag w = 2 ∧ spanFrom w ≤ 9000 + c ∧ 9000 + c < spanTo w) := by
  refine ⟨?_, ?_, ?_⟩
  · refine ⟨(r + 25 - (s.invalidateRow + 1) % 25) % 25, Nat.mod_lt _ (by decide), ?_, ?_⟩
    · rw [blitRun_rows]
      omega
    · intro j hj hrow
      rw [blitRun_rows] at hrow
      omega
  · intro k
    exact nextInvalidateRow2_range _ (blitRun_rows2 frames s h2 k)
  · intro k hrow hfirst
    constructor
    · intro x h1 h3
      obtain ⟨w, hw, hf, hc⟩ := row_covered (blitRun frames s k) (frames k) hfirst x
        (by omega) (by
          rw [hrow]
          unfold rowOf
          rw [if_pos (by omega)]
          omega)
      refine ⟨w, hw, ?_, hc⟩
      rw [hf]
      unfold regionFlag
      rw [if_pos (by omega)]
    · intro c h1 h3
      constructor
      · obtain ⟨w, hw, hf, hc⟩ := row_covered (blitRun frames s k) (frames k) hfirst (8000 + c)
          (by omega) (by
            rw [hrow]
            unfold rowOf
            rw [if_neg (by omega), if_pos (by omega)]
            omega)
        refine ⟨w, hw, ?_, hc⟩
        rw [hf]
        unfold regionFlag
        rw [if_neg (by omega), if_pos (by omega)]
      · obtain ⟨w, hw, hf, hc⟩ := row_covered (blitRun frames s k) (frames k) hfirst (9000 + c)
          (by omega) (by
            rw [hrow]
            unfold rowOf
            rw [if_neg (by omega), if_neg (by omega)]
            omega)
        refine ⟨w, hw, ?_, hc⟩
        rw [hf]
        unfold regionFlag
        rw [if_neg (by omega), if_neg (by omega)]

/-- Witness of `invalidation_row_rotation`: the state `idleState`, the
all-zero frame throughout, and row 7. -/
theorem invalidation_row_rotation_witness :
    (7 < 25 ∧ 21 ≤ idleState.invalidateRow2 ∧ idleState.invalidateRow2 ≤ 24) ∧
    ((∃ k, k < 25 ∧ nextInvalidateRow (blitRun (fun _ => zeroFrame) idleState k).invalidateRow
        = 7 ∧
      ∀ j, j < 25 →
        nextInvalidateRow (blitRun (fun _ => zeroFrame) idleState j).invalidateRow = 7 →
        j = k) ∧
    (∀ k, 21 ≤ nextInvalidateRow2 (blitRun (fun _ => zeroFrame) idleState k).invalidateRow2 ∧
      nextInvalidateRow2 (blitRun (fun _ => zeroFrame) idleState k).invalidateRow2 ≤ 24) ∧
    ∀ k, nextInvalidateRow (blitRun (fun _ => zeroFrame) idleState k).invalidateRow = 7 →
      (blitRun (fun _ => zeroFrame) idleState k).firstBlit = 0 →
      (∀ x, 320 * 7 ≤ x → x < 320 * 7 + 320 →
        ∃ w ∈ (blitSpans (blitRun (fun _ => zeroFrame) idleState k) zeroFrame).1,
          spanFlag w = 0 ∧ spanFrom w ≤ x ∧ x < spanTo w) ∧
      (∀ c, 40 * 7 ≤ c → c < 40 * 7 + 40 →
        (∃ w ∈ (blitSpans (blitRun (fun _ => zeroFrame) idleState k) zeroFrame).1,
          spanFlag w = 1 ∧ spanFrom w ≤ 8000 + c ∧ 8000 + c < spanTo w) ∧
        ∃ w ∈ (blitSpans (blitRun (fun _ => zeroFrame) idleState k) zeroFrame).1,
          spanFlag w = 2 ∧ spanFrom w ≤ 9000 + c ∧ 9000 + c < spanTo w)) :=
  ⟨by decide, invalidation_row_rotation (fun _ => zeroFrame) idleState 7 (by decide)
    (by decide)⟩

/-! ### The reduction loop: background bin and candidate search -/

theorem reduceLoop_inv_any (bg : Nat) (h0 : List Nat) (n : Nat) (s : ReduceState)
    (inv : ReduceInv bg h0 s) : ReduceInv bg h0 (reduceLoop n s) := by
  induction n generalizing s with
  | zero => exact inv
  | succ n ih =>
    rw [reduceLoop_succ]
    by_cases hn : s.nColors > 4
    · rw [if_pos hn]
      exact ih (reduceStep s) (reduceStep_inv bg h0 s inv hn)
    · rw [if_neg hn]
      exact inv

theorem exists_four_of_countP (l : List Nat) (p : Nat → Bool) (hnd : l.Nodup)
    (h : 4 ≤ l.countP p) :
    ∃ a b c d, a ∈ l ∧ b ∈ l ∧ c ∈ l ∧ d ∈ l ∧
      a ≠ b ∧ a ≠ c ∧ a ≠ d ∧ b ≠ c ∧ b ≠ d ∧ c ≠ d ∧
      p a = true ∧ p b = true ∧ p c = true ∧ p d = true := by
  obtain ⟨d, hd, hpd⟩ := exists_of_countP_pos l p (by omega)
  have h1 := countP_remove l p (fun i => p i && (i != d)) d hnd hd hpd (by simp)
    (by intro i hi; simp [hi])
  obtain ⟨a, b, c, ha, hb, hc, hab, hac, hbc, hpa, hpb, hpc⟩ :=
    exists_three_of_countP l (fun i => p i && (i != d)) hnd (by omega)
  simp only [Bool.and_eq_true, bne_iff_ne, ne_eq] at hpa hpb hpc
  exact ⟨a, b, c, d, ha, hb, hc, hd, hab, hac, hpa.2, hbc, hpb.2, hpc.2,
    hpa.1, hpb.1, hpc.1, hpd⟩

theorem min_bin_le_eight (bg : Nat) (h0 : List Nat) (s : ReduceState) (hbg : bg < 16)
    (inv : ReduceInv bg h0 s) (hn : 4 < s.nColors) :
    s.histo.getD (stepMinIdx s) 0 ≤ 8 := by
  obtain ⟨_, _, _, hmin, _⟩ := reduceStep_spec bg h0 s inv hn
  have hnd : (List.range 16).Nodup := List.nodup_range 16
  have hb : s.histo.getD bg 0 ≠ 0 := by have := inv.bgk; omega
  have h3 : (List.range 16).countP (fun i => decide (i ≠ bg ∧ s.histo.getD i 0 ≠ 0)) + 1 =
      (List.range 16).countP (fun i => s.histo.getD i 0 != 0) :=
    countP_remove _ _ _ bg hnd (List.mem_range.2 hbg) (bne_iff_ne.2 hb)
      (decide_eq_false (fun h => h.1 rfl))
      (by intro i hi; exact decide_and_ne hi _)
  have hcnt := inv.cnt
  unfold countColors at hcnt
  obtain ⟨a, b, c, d, ha, hb2, hc, hd, hab, hac, had, hbc, hbd, hcd, pa, pb, pc, pd⟩ :=
    exists_four_of_countP _ _ hnd (show 4 ≤ (List.range 16).countP
      (fun i => decide (i ≠ bg ∧ s.histo.getD i 0 ≠ 0)) by omega)
  rw [List.mem_range] at ha hb2 hc hd
  rw [decide_eq_true_eq] at pa pb pc pd
  have hl : [bg, a, b, c, d].Nodup := by
    simp [Ne.symm pa.1, Ne.symm pb.1, Ne.symm pc.1, Ne.symm pd.1, hab, hac, had, hbc, hbd, hcd]
  have hs := sum_map_getD_le [bg, a, b, c, d] s.histo hl
  simp only [List.map_cons, List.map_nil, List.sum_cons, List.sum_nil] at hs
  have := inv.sum
  have := inv.bgk
  have := hmin a ha pa.2
  have := hmin b hb2 pb.2
  have := hmin c hc pc.2
  have := hmin d hd pd.2
  omega

/-- C24: for every block of 32 palette indices and every background colour
below 16, in the state reached after any number `n` of iterations of the
reduction loop the bin of the background colour is at least 32, and `nColors`
is the number of non-zero bins; whenever more than 4 bins are non-zero, the
bin the next iteration removes is not that of the background colour, it is
non-zero, at most 8 and minimal among the non-zero bins, and the background
bin is still at least 32 after that iteration. -/
theorem background_bin_never_removed (bgColor : Nat) (blockColors : List Nat) (n : Nat)
    (hbg : bgColor < 16) (hv : ValidBlock blockColors) :
    32 ≤ (reduceLoop n (reduceInit bgColor blockColors)).histo.getD bgColor 0 ∧
    (reduceLoop n (reduceInit bgColor blockColors)).nColors =
      countColors (reduceLoop n (reduceInit bgColor blockColors)).histo ∧
    (4 < countColors (reduceLoop n (reduceInit bgColor blockColors)).histo →
      stepMinIdx (reduceLoop n (reduceInit bgColor blockColors)) ≠ bgColor ∧
      (reduceLoop n (reduceInit bgColor blockColors)).histo.getD
        (stepMinIdx (reduceLoop n (reduceInit bgColor blockColors))) 0 ≠ 0 ∧
      (reduceLoop n (reduceInit bgColor blockColors)).histo.getD
        (stepMinIdx (reduceLoop n (reduceInit bgColor blockColors))) 0 ≤ 8 ∧
      (∀ i < 16, (reduceLoop n (reduceInit bgColor blockColors)).histo.getD i 0 ≠ 0 →
        (reduceLoop n (reduceInit bgColor blockColors)).histo.getD
          (stepMinIdx (reduceLoop n (reduceInit bgColor blockColors))) 0 ≤
        (reduceLoop n (reduceInit bgColor blockColors)).histo.getD i 0) ∧
      32 ≤ (reduceStep (reduceLoop n (reduceInit bgColor blockColors))).histo.getD
        bgColor 0) := by
  have inv := reduceLoop_inv_any bgColor _ n _ (reduceInit_inv bgColor blockColors hbg hv)
  refine ⟨inv.bgk, inv.cnt, ?_⟩
  intro h4
  have hn : 4 < (reduceLoop n (reduceInit bgColor blockColors)).nColors := by
    rw [inv.cnt]; exact h4
  obtain ⟨_, h2, h3, hmin, _⟩ := reduceStep_spec bgColor _ _ inv hn
  exact ⟨h2, h3, min_bin_le_eight bgColor _ _ hbg inv hn, hmin,
    (reduceStep_inv bgColor _ _ inv hn).bgk⟩

/-- Witness of `background_bin_never_removed`: `sampleBlock` with background
colour 1, after one iteration. -/
theorem background_bin_never_removed_witness :
    (1 < 16 ∧ ValidBlock sampleBlock) ∧
    (32 ≤ (reduceLoop 1 (reduceInit 1 sampleBlock)).histo.getD 1 0 ∧
    (reduceLoop 1 (reduceInit 1 sampleBlock)).nColors =
      countColors (reduceLoop 1 (reduceInit 1 sampleBlock)).histo ∧
    (4 < countColors (reduceLoop 1 (reduceInit 1 sampleBlock)).histo →
      stepMinIdx (reduceLoop 1 (reduceInit 1 sampleBlock)) ≠ 1 ∧
      (reduceLoop 1 (reduceInit 1 sampleBlock)).histo.getD
        (stepMinIdx (reduceLoop 1 (reduceInit 1 sampleBlock))) 0 ≠ 0 ∧
      (reduceLoop 1 (reduceInit 1 sampleBlock)).histo.getD
        (stepMinIdx (reduceLoop 1 (reduceInit 1 sampleBlock))) 0 ≤ 8 ∧
      (∀ i < 16, (reduceLoop 1 (reduceInit 1 sampleBlock)).histo.getD i 0 ≠ 0 →
        (reduceLoop 1 (reduceInit 1 sampleBlock)).histo.getD
          (stepMinIdx (reduceLoop 1 (reduceInit 1 sampleBlock))) 0 ≤
        (reduceLoop 1 (reduceInit 1 sampleBlock)).histo.getD i 0) ∧
      32 ≤ (reduceStep (reduceLoop 1 (reduceInit 1 sampleBlock))).histo.getD 1 0)) :=
  ⟨by decide, background_bin_never_removed 1 sampleBlock 1 (by decide) (by decide)⟩

theorem rank_rows_once : ∀ i < 16,
    rankEntry i 15 = 0xFF ∧
    (∀ j < 16, j ≠ i → ((List.range 15).map (rankEntry i)).count j = 1) ∧
    ((List.range 15).map (rankEntry i)).count i = 0 := by
  decide!

/-- C26: every row `i` of `mapC64Closest` holds each of the 15 palette colours
other than `i` exactly once in its entries 0..14, does not hold `i`, and ends
with `0xFF`; and for every block of 32 palette indices and background colour
below 16, in the state reached after any number of iterations of the
reduction loop, when the loop condition `nColors > 4` holds, the removed
colour is below 16, the candidate search stops at an index below 15, the
entry there is a palette colour other than the removed one whose bin is
non-zero (also after the bin of the removed colour has been cleared), and
every entry the search has read is below 16, so `0xFF` is never used as an
index. -/
theorem candidate_search_in_row (bgColor : Nat) (blockColors : List Nat) (n : Nat)
    (hbg : bgColor < 16) (hv : ValidBlock blockColors) :
    (∀ i < 16, rankEntry i 15 = 0xFF ∧
      (∀ j < 16, j ≠ i → ((List.range 15).map (rankEntry i)).count j = 1) ∧
      ((List.range 15).map (rankEntry i)).count i = 0) ∧
    (4 < (reduceLoop n (reduceInit bgColor blockColors)).nColors →
      stepMinIdx (reduceLoop n (reduceInit bgColor blockColors)) < 16 ∧
      stepCandidate (reduceLoop n (reduceInit bgColor blockColors)) < 15 ∧
      stepTarget (reduceLoop n (reduceInit bgColor blockColors)) =
        rankEntry (stepMinIdx (reduceLoop n (reduceInit bgColor blockColors)))
          (stepCandidate (reduceLoop n (reduceInit bgColor blockColors))) ∧
      stepTarget (reduceLoop n (reduceInit bgColor blockColors)) < 16 ∧
      stepTarget (reduceLoop n (reduceInit bgColor blockColors)) ≠
        stepMinIdx (reduceLoop n (reduceInit bgColor blockColors)) ∧
      (reduceLoop n (reduceInit bgColor blockColors)).histo.getD
        (stepTarget (reduceLoop n (reduceInit bgColor blockColors))) 0 ≠ 0 ∧
      ((reduceLoop n (reduceInit bgColor blockColors)).histo.set
        (stepMinIdx (reduceLoop n (reduceInit bgColor blockColors))) 0).getD
        (stepTarget (reduceLoop n (reduceInit bgColor blockColors))) 0 ≠ 0 ∧
      ∀ j, j ≤ stepCandidate (reduceLoop n (reduceInit bgColor blockColors)) →
        rankEntry (stepMinIdx (reduceLoop n (reduceInit bgColor blockColors))) j < 16) := by
  refine ⟨rank_rows_once, ?_⟩
  intro hn
  have inv := reduceLoop_inv_any bgColor _ n _ (reduceInit_inv bgColor blockColors hbg hv)
  obtain ⟨m16, _, _, _, hc, ht16, htm, htp, _⟩ := reduceStep_spec bgColor _ _ inv hn
  refine ⟨m16, hc, rfl, ht16, htm, htp, ?_, ?_⟩
  · rw [getD_set_ne _ _ _ _ (Ne.symm htm)]
    exact htp
  · intro j hj
    exact mapC64Closest_lt _ m16 j (by omega)

/-- Witness of `candidate_search_in_row`: `sampleBlock` with background colour
1, before the first iteration. -/
theorem candidate_search_in_row_witness :
    (1 < 16 ∧ ValidBlock sampleBlock) ∧
    ((∀ i < 16, rankEntry i 15 = 0xFF ∧
      (∀ j < 16, j ≠ i → ((List.range 15).map (rankEntry i)).count j = 1) ∧
      ((List.range 15).map (rankEntry i)).count i = 0) ∧
    (4 < (reduceLoop 0 (reduceInit 1 sampleBlock)).nColors →
      stepMinIdx (reduceLoop 0 (reduceInit 1 sampleBlock)) < 16 ∧
      stepCandidate (reduceLoop 0 (reduceInit 1 sampleBlock)) < 15 ∧
      stepTarget (reduceLoop 0 (reduceInit 1 sampleBlock)) =
        rankEntry (stepMinIdx (reduceLoop 0 (reduceInit 1 sampleBlock)))
          (stepCandidate (reduceLoop 0 (reduceInit 1 sampleBlock))) ∧
      stepTarget (reduceLoop 0 (reduceInit 1 sampleBlock)) < 16 ∧
      stepTarget (reduceLoop 0 (reduceInit 1 sampleBlock)) ≠
        stepMinIdx (reduceLoop 0 (reduceInit 1 sampleBlock)) ∧
      (reduceLoop 0 (reduceInit 1 sampleBlock)).histo.getD
        (stepTarget (reduceLoop 0 (reduceInit 1 sampleBlock))) 0 ≠ 0 ∧
      ((reduceLoop 0 (reduceInit 1 sampleBlock)).histo.set
        (stepMinIdx (reduceLoop 0 (reduceInit 1 sampleBlock))) 0).getD
        (stepTarget (reduceLoop 0 (reduceInit 1 sampleBlock))) 0 ≠ 0 ∧
      ∀ j, j ≤ stepCandidate (reduceLoop 0 (reduceInit 1 sampleBlock)) →
        rankEntry (stepMinIdx (reduceLoop 0 (reduceInit 1 sampleBlock))) j < 16)) :=
  ⟨by decide, candidate_search_in_row 1 sampleBlock 0 (by decide) (by decide)⟩

/-! ### The order in which a pixel colour is matched -/

theorem nibble_facts : ∀ s < 16, ∀ i < 16,
    ((s ||| (i <<< 4)) % 256) &&& 15 = s ∧ ((s ||| (i <<< 4)) % 256) >>> 4 = i ∧
    ((0 ||| i) % 256) = i ∧ i &&& 15 = i ∧ i >>> 4 = 0 := by
  decide

/-- What the assignment loop keeps true when the background colour is not 0:
no register holds the background colour, and the screen register is 0 until
its low nibble has been set and below 16 until its high nibble has been
set. -/
theorem assignColor_avoids (bg : Nat) (hbg0 : bg ≠ 0) (r : Regs) (i : Nat) (hi : i < 16)
    (hib : i ≠ bg)
    (hr : r.colorRAM ≠ bg ∧ r.screenRAM &&& 15 ≠ bg ∧ r.screenRAM >>> 4 ≠ bg ∧
      (r.w ≤ 1 → r.screenRAM = 0) ∧ (r.w = 2 → r.screenRAM < 16)) :
    (assignColor r i).colorRAM ≠ bg ∧ (assignColor r i).screenRAM &&& 15 ≠ bg ∧
      (assignColor r i).screenRAM >>> 4 ≠ bg ∧
      ((assignColor r i).w ≤ 1 → (assignColor r i).screenRAM = 0) ∧
      ((assignColor r i).w = 2 → (assignColor r i).screenRAM < 16) := by
  obtain ⟨h1, h2, h3, h4, h5⟩ := hr
  unfold assignColor
  by_cases c2 : r.w = 2
  · rw [if_pos c2]
    obtain ⟨n1, n2, _, _, _⟩ := nibble_facts r.screenRAM (h5 c2) i hi
    obtain ⟨_, _, _, n4, _⟩ := nibble_facts 0 (by decide) r.screenRAM (h5 c2)
    refine ⟨h1, ?_, ?_, ?_, ?_⟩
    · show ((r.screenRAM ||| (i <<< 4)) % 256) &&& 15 ≠ bg
      rw [n1]
      rw [n4] at h2
      exact h2
    · show ((r.screenRAM ||| (i <<< 4)) % 256) >>> 4 ≠ bg
      rw [n2]
      exact hib
    · intro h
      have : r.w + 1 ≤ 1 := h
      omega
    · intro h
      have : r.w + 1 = 2 := h
      omega
  · rw [if_neg c2]
    by_cases c1 : r.w = 1
    · rw [if_pos c1]
      obtain ⟨_, _, n3, n4, n5⟩ := nibble_facts 0 (by decide) i hi
      have hs : (r.screenRAM ||| i) % 256 = i := by
        rw [h4 (by omega)]
        exact n3
      refine ⟨h1, ?_, ?_, ?_, ?_⟩
      · show ((r.screenRAM ||| i) % 256) &&& 15 ≠ bg
        rw [hs, n4]
        exact hib
      · show ((r.screenRAM ||| i) % 256) >>> 4 ≠ bg
        rw [hs, n5]
        exact Ne.symm hbg0
      · intro h
        have : r.w + 1 ≤ 1 := h
        omega
      · intro _
        show (r.screenRAM ||| i) % 256 < 16
        rw [hs]
        exact hi
    · rw [if_neg c1]
      by_cases c0 : r.w = 0
      · rw [if_pos c0]
        refine ⟨hib, h2, h3, ?_, ?_⟩
        · intro _
          exact h4 (by omega)
        · intro h
          have : r.w + 1 = 2 := h
          omega
      · rw [if_neg c0]
        exact ⟨h1, h2, h3, h4, h5⟩

theorem assign_fold_avoids (bg : Nat) (hbg0 : bg ≠ 0) (l : List Nat)
    (hl : ∀ c ∈ l, c < 16 ∧ c ≠ bg) (r : Regs)
    (hr : r.colorRAM ≠ bg ∧ r.screenRAM &&& 15 ≠ bg ∧ r.screenRAM >>> 4 ≠ bg ∧
      (r.w ≤ 1 → r.screenRAM = 0) ∧ (r.w = 2 → r.screenRAM < 16)) :
    (l.foldl assignColor r).colorRAM ≠ bg ∧ (l.foldl assignColor r).screenRAM &&& 15 ≠ bg ∧
      (l.foldl assignColor r).screenRAM >>> 4 ≠ bg := by
  induction l generalizing r with
  | nil => exact ⟨hr.1, hr.2.1, hr.2.2.1⟩
  | cons a t ih =>
    rw [List.foldl_cons]
    have ha := hl a (List.mem_cons_self _ _)
    exact ih (fun c hc => hl c (List.mem_cons_of_mem _ hc)) _
      (assignColor_avoids bg hbg0 r a ha.1 ha.2 hr)

theorem assignRegs_avoids (bg prev : Nat) (histo : List Nat) (hbg0 : bg ≠ 0) :
    (assignRegs bg prev histo).colorRAM ≠ bg ∧
    (assignRegs bg prev histo).screenRAM &&& 15 ≠ bg ∧
    (assignRegs bg prev histo).screenRAM >>> 4 ≠ bg := by
  rw [assignRegs_eq]
  apply assign_fold_avoids bg hbg0
  · intro c hc
    rw [List.mem_filter, List.mem_range, decide_eq_true_eq] at hc
    exact ⟨hc.1, hc.2.1⟩
  · by_cases k : (prev != bg && histo.getD prev 0 != 0) = true
    · rw [if_pos k]
      rw [Bool.and_eq_true, bne_iff_ne, bne_iff_ne] at k
      refine ⟨k.1, ?_, ?_, fun _ => rfl, fun h => ?_⟩
      · show (0 : Nat) &&& 15 ≠ bg
        exact Ne.symm hbg0
      · show (0 : Nat) >>> 4 ≠ bg
        exact Ne.symm hbg0
      · exact absurd h (by decide : ¬ (1 : Nat) = 2)
    · rw [if_neg k]
      refine ⟨Ne.symm hbg0, ?_, ?_, fun _ => rfl, fun h => ?_⟩
      · show (0 : Nat) &&& 15 ≠ bg
        exact Ne.symm hbg0
      · show (0 : Nat) >>> 4 ≠ bg
        exact Ne.symm hbg0
      · exact absurd h (by decide : ¬ (0 : Nat) = 2)

theorem pixelValue_cases (colorRAM screenRAM c : Nat) :
    (pixelValue colorRAM screenRAM c = 3 ↔ c = colorRAM) ∧
    (pixelValue colorRAM screenRAM c = 2 ↔ c ≠ colorRAM ∧ c = screenRAM &&& 15) ∧
    (pixelValue colorRAM screenRAM c = 1 ↔
      c ≠ colorRAM ∧ c ≠ screenRAM &&& 15 ∧ c = screenRAM >>> 4) ∧
    (pixelValue colorRAM screenRAM c = 0 ↔
      c ≠ colorRAM ∧ c ≠ screenRAM &&& 15 ∧ c ≠ screenRAM >>> 4) := by
  unfold pixelValue
  by_cases h1 : c = colorRAM
  · rw [if_pos h1]
    refine ⟨⟨fun _ => h1, fun _ => rfl⟩, ⟨fun h => by omega, fun h => absurd h1 h.1⟩,
      ⟨fun h => by omega, fun h => absurd h1 h.1⟩, ⟨fun h => by omega, fun h => absurd h1 h.1⟩⟩
  · rw [if_neg h1]
    by_cases h2 : c = screenRAM &&& 15
    · rw [if_pos h2]
      refine ⟨⟨fun h => by omega, fun h => absurd h h1⟩, ⟨fun _ => ⟨h1, h2⟩, fun _ => rfl⟩,
        ⟨fun h => by omega, fun h => absurd h2 h.2.1⟩,
        ⟨fun h => by omega, fun h => absurd h2 h.2.1⟩⟩
    · rw [if_neg h2]
      by_cases h3 : c = screenRAM >>> 4
      · rw [if_pos h3]
        refine ⟨⟨fun h => by omega, fun h => absurd h h1⟩,
          ⟨fun h => by omega, fun h => absurd h.2 h2⟩, ⟨fun _ => ⟨h1, h2, h3⟩, fun _ => rfl⟩,
          ⟨fun h => by omega, fun h => absurd h3 h.2.2⟩⟩
      · rw [if_neg h3]
        refine ⟨⟨fun h => by omega, fun h => absurd h h1⟩,
          ⟨fun h => by omega, fun h => absurd h.2 h2⟩,
          ⟨fun h => by omega, fun h => absurd h.2.2 h3⟩, ⟨fun _ => ⟨h1, h2, h3⟩, fun _ => rfl⟩⟩

theorem encodeBlock_row (bgColor prevColorRAM : Nat) (blockColors : List Nat) (c : Nat)
    (hc : c < 8) :
    (encodeBlock bgColor prevColorRAM blockColors).bitmap.getD c 0 =
      bitmapRow (reduceBlock bgColor blockColors).map blockColors
        (encodeBlock bgColor prevColorRAM blockColors).colorRAM
        (encodeBlock bgColor prevColorRAM blockColors).screenRAM c := by
  show ((List.range 8).map _).getD c 0 = _
  rw [map_range_getD _ 8 c hc]
  rfl

theorem assignColor_zeroInv (r : Regs) (i : Nat) (hi : i < 16) (hi0 : i ≠ 0)
    (hr : RegsZeroInv r) :
    RegsZeroInv (assignColor r i) ∧ (assignColor r i).w = min 3 (r.w + 1) := by
  unfold RegsZeroInv at hr ⊢
  obtain ⟨h3, k0, k1, k2, k3⟩ := hr
  unfold assignColor
  by_cases c2 : r.w = 2
  · rw [if_pos c2]
    obtain ⟨s1, s2, s3⟩ := k2 c2
    obtain ⟨n1, n2, _, _, _⟩ := nibble_facts r.screenRAM s2 i hi
    dsimp only
    rw [n1, n2]
    refine ⟨⟨by omega, fun h => by omega, fun h => by omega, fun h => by omega,
      fun _ => ⟨s1, s3, hi0⟩⟩, by omega⟩
  · rw [if_neg c2]
    by_cases c1 : r.w = 1
    · rw [if_pos c1]
      obtain ⟨s1, s2⟩ := k1 c1
      obtain ⟨_, _, n3, _, _⟩ := nibble_facts 0 (by decide) i hi
      dsimp only
      rw [s2, n3]
      refine ⟨⟨by omega, fun h => by omega, fun h => by omega, fun _ => ⟨s1, hi, hi0⟩,
        fun h => by omega⟩, by omega⟩
    · rw [if_neg c1]
      by_cases c0 : r.w = 0
      · rw [if_pos c0]
        obtain ⟨_, s2⟩ := k0 c0
        dsimp only
        refine ⟨⟨by omega, fun h => by omega, fun _ => ⟨hi0, s2⟩, fun h => by omega,
          fun h => by omega⟩, by omega⟩
      · rw [if_neg c0]
        exact ⟨⟨h3, k0, k1, k2, k3⟩, by omega⟩

theorem assign_fold_zeroInv (l : List Nat) (hl : ∀ c ∈ l, c < 16 ∧ c ≠ 0) (r : Regs)
    (hr : RegsZeroInv r) :
    RegsZeroInv (l.foldl assignColor r) ∧ (l.foldl assignColor r).w = min 3 (r.w + l.length) := by
  induction l generalizing r with
  | nil =>
    refine ⟨hr, ?_⟩
    have := hr.1
    rw [List.length_nil]
    show r.w = min 3 (r.w + 0)
    omega
  | cons a t ih =>
    rw [List.foldl_cons]
    have ha := hl a (List.mem_cons_self _ _)
    obtain ⟨k, hw⟩ := assignColor_zeroInv r a ha.1 ha.2 hr
    obtain ⟨k2, hw2⟩ := ih (fun c hc => hl c (List.mem_cons_of_mem _ hc)) _ k
    refine ⟨k2, ?_⟩
    rw [hw2, hw, List.length_cons]
    omega

/-- With background colour 0 the assignment hands the non-background colours
with a non-zero bin to the registers in order, so the number of registers
assigned is the number of non-zero bins less one. -/
theorem assignRegs_zero (prev : Nat) (histo : List Nat) (hlen : histo.length = 16)
    (hb : histo.getD 0 0 ≠ 0) (hcnt : countColors histo ≤ 4) :
    RegsZeroInv (assignRegs 0 prev histo) ∧
    (assignRegs 0 prev histo).w + 1 = countColors histo := by
  have hnd : (List.range 16).Nodup := List.nodup_range 16
  have h3 : (List.range 16).countP (fun i => decide (i ≠ 0 ∧ histo.getD i 0 ≠ 0)) + 1 =
      (List.range 16).countP (fun i => histo.getD i 0 != 0) :=
    countP_remove _ _ _ 0 hnd (List.mem_range.2 (by decide)) (bne_iff_ne.2 hb)
      (decide_eq_false (fun h => h.1 rfl))
      (by intro i hi; exact decide_and_ne hi _)
  unfold countColors at hcnt ⊢
  rw [assignRegs_eq]
  by_cases hk : (prev != 0 && histo.getD prev 0 != 0) = true
  · rw [if_pos hk, if_pos hk]
    simp only [Bool.and_eq_true, bne_iff_ne, ne_eq] at hk
    have hprev : prev < 16 := by
      by_contra hge
      exact hk.2 (List.getD_eq_default _ _ (by omega))
    have h2 : (List.range 16).countP
        (fun i => decide (i ≠ 0 ∧ (histo.set prev 0).getD i 0 ≠ 0)) + 1 =
        (List.range 16).countP (fun i => decide (i ≠ 0 ∧ histo.getD i 0 ≠ 0)) :=
      countP_remove _ _ _ prev hnd (List.mem_range.2 hprev) (decide_eq_true ⟨hk.1, hk.2⟩)
        (decide_eq_false (fun h => h.2 (getD_set_self _ _ _ (by rw [hlen]; exact hprev))))
        (by intro i hi; show decide _ = decide _; rw [getD_set_ne _ _ _ _ (Ne.symm hi)])
    obtain ⟨k, hw⟩ := assign_fold_zeroInv
      ((List.range 16).filter (fun i => decide (i ≠ 0 ∧ (histo.set prev 0).getD i 0 ≠ 0)))
      (by
        intro c hc
        rw [List.mem_filter, List.mem_range, decide_eq_true_eq] at hc
        exact ⟨hc.1, hc.2.1⟩)
      { w := 1, screenRAM := 0, colorRAM := prev }
      (by
        unfold RegsZeroInv
        dsimp only
        refine ⟨by omega, fun h => by omega, fun _ => ⟨hk.1, rfl⟩, fun h => by omega,
          fun h => by omega⟩)
    refine ⟨k, ?_⟩
    rw [hw, ← List.countP_eq_length_filter]
    dsimp only
    omega
  · rw [if_neg hk, if_neg hk]
    obtain ⟨k, hw⟩ := assign_fold_zeroInv
      ((List.range 16).filter (fun i => decide (i ≠ 0 ∧ histo.getD i 0 ≠ 0)))
      (by
        intro c hc
        rw [List.mem_filter, List.mem_range, decide_eq_true_eq] at hc
        exact ⟨hc.1, hc.2.1⟩)
      { w := 0, screenRAM := 0, colorRAM := 0 }
      (by
        unfold RegsZeroInv
        dsimp only
        refine ⟨by omega, fun _ => ⟨rfl, rfl⟩, fun h => by omega, fun h => by omega,
          fun h => by omega⟩)
    refine ⟨k, ?_⟩
    rw [hw, ← List.countP_eq_length_filter]
    dsimp only
    omega

theorem pixelValue_zero (r : Regs) (hr : RegsZeroInv r) :
    pixelValue r.colorRAM r.screenRAM 0 = 3 - r.w ∧
    (r.w = 2 → r.screenRAM &&& 15 ≠ 0 ∧ r.screenRAM >>> 4 = 0) := by
  unfold RegsZeroInv at hr
  obtain ⟨h3, k0, k1, k2, k3⟩ := hr
  have hw2 : r.w = 2 → r.screenRAM &&& 15 ≠ 0 ∧ r.screenRAM >>> 4 = 0 := by
    intro h
    obtain ⟨_, s2, s3⟩ := k2 h
    obtain ⟨_, _, _, n4, n5⟩ := nibble_facts 0 (by decide) r.screenRAM s2
    rw [n4, n5]
    exact ⟨s3, rfl⟩
  refine ⟨?_, hw2⟩
  obtain ⟨p3, p2, p1, p0⟩ := pixelValue_cases r.colorRAM r.screenRAM 0
  have hw : r.w = 0 ∨ r.w = 1 ∨ r.w = 2 ∨ r.w = 3 := by omega
  rcases hw with h | h | h | h
  · rw [h]
    exact p3.2 (k0 h).1.symm
  · rw [h]
    obtain ⟨s1, s2⟩ := k1 h
    refine p2.2 ⟨Ne.symm s1, ?_⟩
    rw [s2]
    rfl
  · rw [h]
    obtain ⟨s1, _, _⟩ := k2 h
    obtain ⟨t1, t2⟩ := hw2 h
    exact p1.2 ⟨Ne.symm s1, Ne.symm t1, t2.symm⟩
  · rw [h]
    obtain ⟨s1, s2, s3⟩ := k3 h
    exact p0.2 ⟨Ne.symm s1, Ne.symm s2, Ne.symm s3⟩

/-- C27, counterexample: a block whose 32 pixels all have colour 0, encoded
with background colour 0 and previous colour byte 0.  No register is
assigned, both registers stay 0, every pixel has the reduced colour 0, the
background colour, and every pixel gets the code 11: the bitmap bytes are all
255. -/
theorem background_pixel_coded_11 :
    ValidBlock (List.replicate 32 0) ∧
    (encodeBlock 0 0 (List.replicate 32 0)).colorRAM = 0 ∧
    (encodeBlock 0 0 (List.replicate 32 0)).screenRAM = 0 ∧
    reducedColor (reduceBlock 0 (List.replicate 32 0)) (List.replicate 32 0) 0 = 0 ∧
    pixelCode ((encodeBlock 0 0 (List.replicate 32 0)).bitmap.getD 0 0) 0 = 3 ∧
    (encodeBlock 0 0 (List.replicate 32 0)).bitmap = List.replicate 8 255 := by
  decide!

/-- C27, amended: in every block the code of a pixel is found by comparing its
reduced colour with the shared register, the low nibble and the high nibble of
the screen register, in this order: the code is 11 exactly when it equals the
shared register, 10 exactly when it does not but equals the low nibble, 01
exactly when it equals neither but equals the high nibble, and 00 exactly when
it equals none of the three; the background colour is not compared.  When the
background colour is not 0 no register holds it and every pixel whose reduced
colour is the background colour gets the code 00.  When the background colour
is 0 (and the block has 32 palette indices), the number `w` of registers
assigned is the number of non-zero bins left by the reduction less one, at
most 3; the registers are assigned in the order shared, low nibble, high
nibble, an assigned register holds a non-zero colour and a register that was
not assigned holds 0; and every pixel whose reduced colour is the background
colour gets the code `3 - w`, the code of the first register that was not
assigned: 11 with no other colour in the block, 10 with one, 01 with two and
00 with three. -/
theorem pixel_code_match_order (bgColor prevColorRAM : Nat) (blockColors : List Nat)
    (c a : Nat) (hc : c < 8) (ha : a < 4) :
    (pixelCode ((encodeBlock bgColor prevColorRAM blockColors).bitmap.getD c 0) a = 3 ↔
      reducedColor (reduceBlock bgColor blockColors) blockColors (a + c * 4) =
        (encodeBlock bgColor prevColorRAM blockColors).colorRAM) ∧
    (pixelCode ((encodeBlock bgColor prevColorRAM blockColors).bitmap.getD c 0) a = 2 ↔
      reducedColor (reduceBlock bgColor blockColors) blockColors (a + c * 4) ≠
        (encodeBlock bgColor prevColorRAM blockColors).colorRAM ∧
      reducedColor (reduceBlock bgColor blockColors) blockColors (a + c * 4) =
        (encodeBlock bgColor prevColorRAM blockColors).screenRAM &&& 15) ∧
    (pixelCode ((encodeBlock bgColor prevColorRAM blockColors).bitmap.getD c 0) a = 1 ↔
      reducedColor (reduceBlock bgColor blockColors) blockColors (a + c * 4) ≠
        (encodeBlock bgColor prevColorRAM blockColors).colorRAM ∧
      reducedColor (reduceBlock bgColor blockColors) blockColors (a + c * 4) ≠
        (encodeBlock bgColor prevColorRAM blockColors).screenRAM &&& 15 ∧
      reducedColor (reduceBlock bgColor blockColors) blockColors (a + c * 4) =
        (encodeBlock bgColor prevColorRAM blockColors).screenRAM >>> 4) ∧
    (pixelCode ((encodeBlock bgColor prevColorRAM blockColors).bitmap.getD c 0) a = 0 ↔
      reducedColor (reduceBlock bgColor blockColors) blockColors (a + c * 4) ≠
        (encodeBlock bgColor prevColorRAM blockColors).colorRAM ∧
      reducedColor (reduceBlock bgColor blockColors) blockColors (a + c * 4) ≠
        (encodeBlock bgColor prevColorRAM blockColors).screenRAM &&& 15 ∧
      reducedColor (reduceBlock bgColor blockColors) blockColors (a + c * 4) ≠
        (encodeBlock bgColor prevColorRAM blockColors).screenRAM >>> 4) ∧
    (bgColor ≠ 0 →
      reducedColor (reduceBlock bgColor blockColors) blockColors (a + c * 4) = bgColor →
      pixelCode ((encodeBlock bgColor prevColorRAM blockColors).bitmap.getD c 0) a = 0) ∧
    (bgColor = 0 → ValidBlock blockColors →
      (assignRegs bgColor prevColorRAM (reduceBlock bgColor blockColors).histo).w + 1 =
        countColors (reduceBlock bgColor blockColors).histo ∧
      (assignRegs bgColor prevColorRAM (reduceBlock bgColor blockColors).histo).w ≤ 3 ∧
      ((assignRegs bgColor prevColorRAM (reduceBlock bgColor blockColors).histo).w = 0 →
        (encodeBlock bgColor prevColorRAM blockColors).colorRAM = 0 ∧
        (encodeBlock bgColor prevColorRAM blockColors).screenRAM = 0) ∧
      ((assignRegs bgColor prevColorRAM (reduceBlock bgColor blockColors).histo).w = 1 →
        (encodeBlock bgColor prevColorRAM blockColors).colorRAM ≠ 0 ∧
        (encodeBlock bgColor prevColorRAM blockColors).screenRAM = 0) ∧
      ((assignRegs bgColor prevColorRAM (reduceBlock bgColor blockColors).histo).w = 2 →
        (encodeBlock bgColor prevColorRAM blockColors).colorRAM ≠ 0 ∧
        (encodeBlock bgColor prevColorRAM blockColors).screenRAM &&& 15 ≠ 0 ∧
        (encodeBlock bgColor prevColorRAM blockColors).screenRAM >>> 4 = 0) ∧
      ((assignRegs bgColor prevColorRAM (reduceBlock bgColor blockColors).histo).w = 3 →
        (encodeBlock bgColor prevColorRAM blockColors).colorRAM ≠ 0 ∧
        (encodeBlock bgColor prevColorRAM blockColors).screenRAM &&& 15 ≠ 0 ∧
        (encodeBlock bgColor prevColorRAM blockColors).screenRAM >>> 4 ≠ 0) ∧
      (reducedColor (reduceBlock bgColor blockColors) blockColors (a + c * 4) = bgColor →
        pixelCode ((encodeBlock bgColor prevColorRAM blockColors).bitmap.getD c 0) a =
          3 - (assignRegs bgColor prevColorRAM (reduceBlock bgColor blockColors).histo).w)) := by
  have hcode : pixelCode ((encodeBlock bgColor prevColorRAM blockColors).bitmap.getD c 0) a =
      pixelValue (encodeBlock bgColor prevColorRAM blockColors).colorRAM
        (encodeBlock bgColor prevColorRAM blockColors).screenRAM
        (reducedColor (reduceBlock bgColor blockColors) blockColors (a + c * 4)) := by
    rw [encodeBlock_row _ _ _ c hc]
    exact pixelCode_bitmapRow _ _ _ _ c a ha
  obtain ⟨p3, p2, p1, p0⟩ := pixelValue_cases
    (encodeBlock bgColor prevColorRAM blockColors).colorRAM
    (encodeBlock bgColor prevColorRAM blockColors).screenRAM
    (reducedColor (reduceBlock bgColor blockColors) blockColors (a + c * 4))
  rw [hcode]
  refine ⟨p3, p2, p1, p0, ?_, ?_⟩
  · intro hbg0 hcol
    obtain ⟨a1, a2, a3⟩ := assignRegs_avoids bgColor prevColorRAM
      (reduceBlock bgColor blockColors).histo hbg0
    rw [p0, hcol]
    exact ⟨Ne.symm a1, Ne.symm a2, Ne.symm a3⟩
  · intro hbg0 hv
    subst hbg0
    obtain ⟨inv, hn⟩ := reduceBlock_inv 0 blockColors (by decide) hv
    have hb : (reduceBlock 0 blockColors).histo.getD 0 0 ≠ 0 := by
      have := inv.bgk; omega
    obtain ⟨k, hw⟩ := assignRegs_zero prevColorRAM (reduceBlock 0 blockColors).histo inv.hlen
      hb (by rw [← inv.cnt]; exact hn)
    obtain ⟨hval, hw2⟩ := pixelValue_zero _ k
    unfold RegsZeroInv at k
    obtain ⟨h3, k0, k1, k2, k3⟩ := k
    refine ⟨hw, h3, k0, k1, fun h => ⟨(k2 h).1, hw2 h⟩, k3, ?_⟩
    intro hcol
    rw [hcol]
    exact hval

/-- Witness of `pixel_code_match_order`: `twoColourBlock` with background
colour 0, pixel row 0, pixel 0.  One register is assigned, and the pixel, of
the background colour, gets the code 10. -/
theorem pixel_code_match_order_witness :
    (0 < 8 ∧ 0 < 4 ∧ ValidBlock twoColourBlock ∧
      reducedColor (reduceBlock 0 twoColourBlock) twoColourBlock (0 + 0 * 4) = 0 ∧
      (assignRegs 0 0 (reduceBlock 0 twoColourBlock).histo).w = 1 ∧
      pixelCode ((encodeBlock 0 0 twoColourBlock).bitmap.getD 0 0) 0 = 2) ∧
    ((pixelCode ((encodeBlock 0 0 twoColourBlock).bitmap.getD 0 0) 0 = 3 ↔
      reducedColor (reduceBlock 0 twoColourBlock) twoColourBlock (0 + 0 * 4) =
        (encodeBlock 0 0 twoColourBlock).colorRAM) ∧
    (pixelCode ((encodeBlock 0 0 twoColourBlock).bitmap.getD 0 0) 0 = 2 ↔
      reducedColor (reduceBlock 0 twoColourBlock) twoColourBlock (0 + 0 * 4) ≠
        (encodeBlock 0 0 twoColourBlock).colorRAM ∧
      reducedColor (reduceBlock 0 twoColourBlock) twoColourBlock (0 + 0 * 4) =
        (encodeBlock 0 0 twoColourBlock).screenRAM &&& 15) ∧
    (pixelCode ((encodeBlock 0 0 twoColourBlock).bitmap.getD 0 0) 0 = 1 ↔
      reducedColor (reduceBlock 0 twoColourBlock) twoColourBlock (0 + 0 * 4) ≠
        (encodeBlock 0 0 twoColourBlock).colorRAM ∧
      reducedColor (reduceBlock 0 twoColourBlock) twoColourBlock (0 + 0 * 4) ≠
        (encodeBlock 0 0 twoColourBlock).screenRAM &&& 15 ∧
      reducedColor (reduceBlock 0 twoColourBlock) twoColourBlock (0 + 0 * 4) =
        (encodeBlock 0 0 twoColourBlock).screenRAM >>> 4) ∧
    (pixelCode ((encodeBlock 0 0 twoColourBlock).bitmap.getD 0 0) 0 = 0 ↔
      reducedColor (reduceBlock 0 twoColourBlock) twoColourBlock (0 + 0 * 4) ≠
        (encodeBlock 0 0 twoColourBlock).colorRAM ∧
      reducedColor (reduceBlock 0 twoColourBlock) twoColourBlock (0 + 0 * 4) ≠
        (encodeBlock 0 0 twoColourBlock).screenRAM &&& 15 ∧
      reducedColor (reduceBlock 0 twoColourBlock) twoColourBlock (0 + 0 * 4) ≠
        (encodeBlock 0 0 twoColourBlock).screenRAM >>> 4) ∧
    (0 ≠ 0 →
      reducedColor (reduceBlock 0 twoColourBlock) twoColourBlock (0 + 0 * 4) = 0 →
      pixelCode ((encodeBlock 0 0 twoColourBlock).bitmap.getD 0 0) 0 = 0) ∧
    (0 = 0 → ValidBlock twoColourBlock →
      (assignRegs 0 0 (reduceBlock 0 twoColourBlock).histo).w + 1 =
        countColors (reduceBlock 0 twoColourBlock).histo ∧
      (assignRegs 0 0 (reduceBlock 0 twoColourBlock).histo).w ≤ 3 ∧
      ((assignRegs 0 0 (reduceBlock 0 twoColourBlock).histo).w = 0 →
        (encodeBlock 0 0 twoColourBlock).colorRAM = 0 ∧
        (encodeBlock 0 0 twoColourBlock).screenRAM = 0) ∧
      ((assignRegs 0 0 (reduceBlock 0 twoColourBlock).histo).w = 1 →
        (encodeBlock 0 0 twoColourBlock).colorRAM ≠ 0 ∧
        (encodeBlock 0 0 twoColourBlock).screenRAM = 0) ∧
      ((assignRegs 0 0 (reduceBlock 0 twoColourBlock).histo).w = 2 →
        (encodeBlock 0 0 twoColourBlock).colorRAM ≠ 0 ∧
        (encodeBlock 0 0 twoColourBlock).screenRAM &&& 15 ≠ 0 ∧
        (encodeBlock 0 0 twoColourBlock).screenRAM >>> 4 = 0) ∧
      ((assignRegs 0 0 (reduceBlock 0 twoColourBlock).histo).w = 3 →
        (encodeBlock 0 0 twoColourBlock).colorRAM ≠ 0 ∧
        (encodeBlock 0 0 twoColourBlock).screenRAM &&& 15 ≠ 0 ∧
        (encodeBlock 0 0 twoColourBlock).screenRAM >>> 4 ≠ 0) ∧
      (reducedColor (reduceBlock 0 twoColourBlock) twoColourBlock (0 + 0 * 4) = 0 →
        pixelCode ((encodeBlock 0 0 twoColourBlock).bitmap.getD 0 0) 0 =
          3 - (assignRegs 0 0 (reduceBlock 0 twoColourBlock).histo).w))) :=
  ⟨by decide, pixel_code_match_order 0 0 twoColourBlock 0 0 (by decide) (by decide)⟩

end RadDoom
